import Mathlib

/-! Mython: lexer, runtime object model and AST evaluator.

A shallow embedding of `lexer.cpp`, `runtime.cpp` and `statement.cpp`.

Conventions of the embedding.

* C++ exceptions are explicit results: `std::runtime_error` is `Outcome.error`,
  the `ObjectHolder` thrown by `Return::Execute` is `Outcome.returned`.
* Behaviour that C++ leaves undefined (dereferencing the null pointer returned
  by `TryAs`, `operator->` on an empty holder, signed overflow) is the result
  `undefined`; nothing is proved about what happens afterwards.
* The evaluator is recursive without bound (methods may call themselves), so
  `Execute` takes a fuel argument that bounds the nesting depth of `Execute`
  calls; `out_of_fuel` is the result when the bound is hit.
* `Comparison::Execute` evaluates its two operands as arguments of one call,
  in an order C++ leaves to the compiler.  `Execute` takes that order as the
  argument `order`; the general properties are proved for either order.
* A `ClassInstance` is identified by the address of its storage; the fields of
  all instances live in `Store.instances`.  An instance whose address has no
  entry has the empty fields closure it was constructed with.
-/

/-! ## Runtime object model (`runtime.cpp`) -/

namespace runtime

/-- A method of a class: `Method { name, formal_params, body }`.  The type of
statements is a parameter because statements refer to classes in turn. -/
structure Method (σ : Type) where
  name : String
  formal_params : List String
  body : σ

/-- A class: `Class(name, methods, parent)`; `parent_` is a pointer to a class
constructed earlier, or null. -/
inductive Class (σ : Type) where
  | mk (name_ : String) (methods_ : List (Method σ)) (parent_ : Option (Class σ))

/-- The member `name_`, read by `Class::GetName`. -/
def Class.GetName {σ : Type} : Class σ → String
  | .mk name_ _ _ => name_

/-- The member `methods_`. -/
def Class.methods_ {σ : Type} : Class σ → List (Method σ)
  | .mk _ methods_ _ => methods_

/-- The member `parent_`. -/
def Class.parent_ {σ : Type} : Class σ → Option (Class σ)
  | .mk _ _ parent_ => parent_

/-- `Class::GetMethod`: `std::find_if` over the own methods, then the parent. -/
def Class.GetMethod {σ : Type} : Class σ → String → Option (Method σ)
  | .mk _ methods_ none, name => methods_.find? (fun m => m.name == name)
  | .mk _ methods_ (some parent), name =>
    match methods_.find? (fun m => m.name == name) with
    | some m => some m
    | none => parent.GetMethod name

/-- `ClassInstance::HasMethod`, as a function of the instance's class `cls_`. -/
def HasMethod {σ : Type} (cls_ : Class σ) (method : String) (argument_count : Nat) : Bool :=
  match cls_.GetMethod method with
  | some m => m.formal_params.length == argument_count
  | none => false

end runtime

/-! ## AST nodes (`statement.cpp`) -/

namespace ast

/-- The comparator a `Comparison` node is built with: one of the six functions
of `runtime.cpp`. -/
inductive Comparator where
  | Equal | NotEqual | Less | Greater | LessOrEqual | GreaterOrEqual
  deriving DecidableEq, Repr

/-- Modelled from the spec: the literal nodes `NumericConst`, `StringConst`,
`BoolConst` and `None`.  They are declared, with their `Execute`, in
statement.h, which is not among the sources; by invariant 1 of the spec each
returns a holder, here the holder of its value (the empty holder for `None`). -/
inductive ValueStatement where
  | NumericConst (value_ : Int)
  | StringConst (value_ : String)
  | BoolConst (value_ : Bool)
  | None

/-- The statement nodes of statement.cpp, and the literal nodes.
`NewInstance` carries the address of its member `cls_instance_`: the instance
is part of the node.  `ClassDefinition` carries the class its holder `cls_`
points to. -/
inductive Statement where
  | Value (node : ValueStatement)
  | Assignment (var_ : String) (rv_ : Statement)
  | VariableValue (dotted_ids_ : List String)
  | Print (args_ : List Statement)
  | MethodCall (object_ : Statement) (method_ : String) (args_ : List Statement)
  | Stringify (arg_ : Statement)
  | Add (lhs_ rhs_ : Statement)
  | Sub (lhs_ rhs_ : Statement)
  | Mult (lhs_ rhs_ : Statement)
  | Div (lhs_ rhs_ : Statement)
  | Compound (statements_ : List Statement)
  | Return (statement_ : Statement)
  | ClassDefinition (cls_ : runtime.Class Statement)
  | FieldAssignment (object_ : List String) (field_name_ : String) (rv_ : Statement)
  | IfElse (condition_ if_body_ : Statement) (else_body_ : Option Statement)
  | Or (lhs_ rhs_ : Statement)
  | And (lhs_ rhs_ : Statement)
  | Not (arg_ : Statement)
  | Comparison (cmp_ : Comparator) (lhs_ rhs_ : Statement)
  | NewInstance (cls_instance_ : Nat) (class_ : runtime.Class Statement) (args_ : List Statement)
  | MethodBody (body_ : Statement)

/-- The node `NumericConst(value)`. -/
@[reducible] def Statement.NumericConst (value_ : Int) : Statement :=
  .Value (.NumericConst value_)

/-- The node `StringConst(value)`. -/
@[reducible] def Statement.StringConst (value_ : String) : Statement :=
  .Value (.StringConst value_)

/-- The node `BoolConst(value)`. -/
@[reducible] def Statement.BoolConst (value_ : Bool) : Statement :=
  .Value (.BoolConst value_)

/-- The node `None`. -/
@[reducible] def Statement.None : Statement :=
  .Value .None

end ast

namespace runtime

/-- The classes of a program. -/
abbrev Cls := Class ast.Statement

/-- An `ObjectHolder`: empty (`None`) or a pointer to an object.  Objects of
the value types are immutable, so the holder carries the value; a class instance
is mutable and shared, so the holder carries its address (and its class `cls_`,
a const reference). -/
inductive ObjectHolder where
  | None
  | Number (value : Int)
  | String (value : String)
  | Bool (value : Bool)
  | Class (cls : Cls)
  | ClassInstance (addr : Nat) (cls_ : Cls)

/-- A closure: `std::unordered_map<std::string, ObjectHolder>`, kept as an
association list with at most one entry per key. -/
abbrev Closure := List (String × ObjectHolder)

/-- The map's `count(key)`. -/
def Closure.count (c : Closure) (key : String) : Bool :=
  c.any (fun kv => kv.1 == key)

/-- The map's `find`: the holder bound to `key`, if any. -/
def Closure.find (c : Closure) (key : String) : Option ObjectHolder :=
  (List.find? (fun kv => kv.1 == key) c).map (fun kv => kv.2)

/-- Reading `closure[key]` for a key that is present (an absent key would be
default-inserted with an empty holder). -/
def Closure.get (c : Closure) (key : String) : ObjectHolder :=
  (c.find key).getD ObjectHolder.None

/-- The assignment `closure[key] = value`: overwrite or insert. -/
def Closure.assign : Closure → String → ObjectHolder → Closure
  | [], key, value => [(key, value)]
  | (k, v) :: rest, key, value =>
    if k == key then (k, value) :: rest else (k, v) :: Closure.assign rest key value

/-- The state outside the current closure: the `fields_` of every class instance,
by address, and the text written to `context.GetOutputStream()`. -/
structure Store where
  instances : List (Nat × Closure)
  output : String

/-- `ClassInstance::Fields()` of the instance at `addr`. -/
def Store.Fields (s : Store) (addr : Nat) : Closure :=
  ((List.find? (fun kv => kv.1 == addr) s.instances).map (fun kv => kv.2)).getD []

/-- Replace the fields of the instance at `addr`. -/
def Store.setFields (s : Store) (addr : Nat) (fields : Closure) : Store :=
  { s with instances := (addr, fields) :: s.instances.filter (fun kv => kv.1 != addr) }

/-- The result of running a piece of the interpreter from a state of type `σ`. -/
inductive Outcome (α σ : Type) where
  | ok (value : α) (state : σ)
  | returned (payload : ObjectHolder) (state : σ)
  | error (what : String) (state : σ)
  | undefined
  | out_of_fuel

/-- Sequencing: continue after a normal return, propagate everything else. -/
def Outcome.bind {α β σ : Type} (o : Outcome α σ) (f : α → σ → Outcome β σ) : Outcome β σ :=
  match o with
  | .ok v s => f v s
  | .returned v s => .returned v s
  | .error e s => .error e s
  | .undefined => .undefined
  | .out_of_fuel => .out_of_fuel

/-- Leave a method activation: the callee's closure is destroyed, the store
stays. -/
def Outcome.leave {α : Type} (o : Outcome α (Closure × Store)) : Outcome α Store :=
  match o with
  | .ok v s => .ok v s.2
  | .returned v s => .returned v s.2
  | .error e s => .error e s.2
  | .undefined => .undefined
  | .out_of_fuel => .out_of_fuel

/-- Run a closure-free operation (a `Call`, a comparison) inside an activation
whose closure is `closure`. -/
def Outcome.enter {α : Type} (o : Outcome α Store) (closure : Closure) : Outcome α (Closure × Store) :=
  match o with
  | .ok v s => .ok v (closure, s)
  | .returned v s => .returned v (closure, s)
  | .error e s => .error e (closure, s)
  | .undefined => .undefined
  | .out_of_fuel => .out_of_fuel

/-- The type of `Statement::Execute(closure, context)`. -/
abbrev Exec := ast.Statement → Closure → Store → Outcome ObjectHolder (Closure × Store)

/-- `runtime::IsTrue`. -/
def IsTrue (object : ObjectHolder) : Bool :=
  match object with
  | .Number value => value != 0
  | .String value => !(value == "")
  | .Bool value => value
  | _ => false

/-- Modelled from the spec: `Number{value: i64}`.  The payload type of
`runtime::Number` is declared in runtime.h, which is not among the sources. -/
def NUMBER_MIN : Int := -(2 ^ 63)

/-- Modelled from the spec: `Number{value: i64}`, see `NUMBER_MIN`. -/
def NUMBER_MAX : Int := 2 ^ 63 - 1

/-- The result of a signed arithmetic operation whose mathematical value is
`x`: a `Number` when `x` is representable, undefined behaviour otherwise. -/
def Number.checked {σ : Type} (x : Int) (state : σ) : Outcome ObjectHolder σ :=
  if NUMBER_MIN ≤ x ∧ x ≤ NUMBER_MAX then .ok (.Number x) state else .undefined

/-- The loop of `ClassInstance::Call` that binds the formal parameters. -/
def BindParams : List String → List ObjectHolder → Closure → Closure
  | p :: ps, a :: as, closure => BindParams ps as (closure.assign p a)
  | _, _, closure => closure

/-- `ClassInstance::Call` on the instance at `addr` of class `cls_`; `exec` is
`Statement::Execute`. -/
def Call (exec : Exec) (addr : Nat) (cls_ : Cls) (method : String)
    (actual_args : List ObjectHolder) (store : Store) : Outcome ObjectHolder Store :=
  if !HasMethod cls_ method actual_args.length then
    .error ("Class " ++ cls_.GetName ++ " does not implement " ++ method ++ " method") store
  else
    match cls_.GetMethod method with
    | none => .undefined
    | some method_ptr =>
      (exec method_ptr.body
        (BindParams method_ptr.formal_params actual_args [("self", .ClassInstance addr cls_)])
        store).leave

/-- The text of `os << this`: implementation-defined, here the address in
hexadecimal. -/
def pointerText (addr : Nat) : String :=
  "0x" ++ String.mk (Nat.toDigits 16 addr)

/-- `Object::Print(os, context)` through a non-empty holder (`holder->Print`);
the result is the text written to `os`.  The fuel bounds the chain of
`__str__` results that are instances again. -/
def ObjectPrint (exec : Exec) : Nat → ObjectHolder → Store → Outcome String Store
  | _, .None, _ => .undefined
  | _, .Number value, store => .ok (toString value) store
  | _, .String value, store => .ok value store
  | _, .Bool value, store => .ok (if value then "True" else "False") store
  | _, .Class cls, store => .ok ("Class " ++ cls.GetName) store
  | 0, .ClassInstance _ _, _ => .out_of_fuel
  | fuel + 1, .ClassInstance addr cls_, store =>
    if HasMethod cls_ "__str__" 0 then
      (Call exec addr cls_ "__str__" [] store).bind (fun r s => ObjectPrint exec fuel r s)
    else
      .ok (pointerText addr) store

/-- The common tail of `Equal`: two empty holders are equal, anything else
cannot be compared. -/
def EqualTail (lhs rhs : ObjectHolder) (store : Store) : Outcome Bool Store :=
  match lhs, rhs with
  | .None, .None => .ok true store
  | _, _ => .error "Cannot compare objects for equality" store

/-- The use of a dunder comparison result: `.TryAs<Bool>()->GetValue()`. -/
def AsBoolResult (o : Outcome ObjectHolder Store) : Outcome Bool Store :=
  o.bind (fun r s => match r with
    | .Bool b => .ok b s
    | _ => .undefined)

/-- `runtime::Equal`. -/
def Equal (exec : Exec) (lhs rhs : ObjectHolder) (store : Store) : Outcome Bool Store :=
  match lhs, rhs with
  | .Number a, .Number b => .ok (decide (a = b)) store
  | .String a, .String b => .ok (decide (a = b)) store
  | .Bool a, .Bool b => .ok (decide (a = b)) store
  | .ClassInstance addr cls_, _ =>
    if HasMethod cls_ "__eq__" 1 then
      AsBoolResult (Call exec addr cls_ "__eq__" [rhs] store)
    else EqualTail lhs rhs store
  | _, _ => EqualTail lhs rhs store

/-- `runtime::Less`. -/
def Less (exec : Exec) (lhs rhs : ObjectHolder) (store : Store) : Outcome Bool Store :=
  match lhs, rhs with
  | .Number a, .Number b => .ok (decide (a < b)) store
  | .String a, .String b => .ok (decide (a < b)) store
  | .Bool a, .Bool b => .ok (decide (a < b)) store
  | .ClassInstance addr cls_, _ =>
    if HasMethod cls_ "__lt__" 1 then
      AsBoolResult (Call exec addr cls_ "__lt__" [rhs] store)
    else .error "Cannot compare objects for less" store
  | _, _ => .error "Cannot compare objects for less" store

/-- `runtime::NotEqual`. -/
def NotEqual (exec : Exec) (lhs rhs : ObjectHolder) (store : Store) : Outcome Bool Store :=
  (Equal exec lhs rhs store).bind (fun e s => .ok (!e) s)

/-- `runtime::Greater`: `!Less(...) && !Equal(...)`, with the short circuit
of `&&`. -/
def Greater (exec : Exec) (lhs rhs : ObjectHolder) (store : Store) : Outcome Bool Store :=
  (Less exec lhs rhs store).bind (fun l s =>
    if !l then (Equal exec lhs rhs s).bind (fun e s2 => .ok (!e) s2) else .ok false s)

/-- `runtime::LessOrEqual`: `Less(...) || Equal(...)`, with the short circuit
of `||`. -/
def LessOrEqual (exec : Exec) (lhs rhs : ObjectHolder) (store : Store) : Outcome Bool Store :=
  (Less exec lhs rhs store).bind (fun l s =>
    if l then .ok true s else Equal exec lhs rhs s)

/-- `runtime::GreaterOrEqual`. -/
def GreaterOrEqual (exec : Exec) (lhs rhs : ObjectHolder) (store : Store) : Outcome Bool Store :=
  (Less exec lhs rhs store).bind (fun l s => .ok (!l) s)

end runtime

/-! ## The evaluator (`statement.cpp`) -/

namespace ast

open runtime

/-- Modelled from the spec: the holder a literal node evaluates to (the
`Execute` of these nodes is in statement.h, not among the sources). -/
def ValueStatement.Execute : ValueStatement → ObjectHolder
  | .NumericConst value_ => .Number value_
  | .StringConst value_ => .String value_
  | .BoolConst value_ => .Bool value_
  | .None => .None

/-- The loop `actual_args[i] = args_[i]->Execute(closure, context)` of
`MethodCall::Execute` and `NewInstance::Execute`. -/
def ExecuteArgs (exec : Exec) : List Statement → Closure → Store →
    Outcome (List ObjectHolder) (Closure × Store)
  | [], closure, store => .ok [] (closure, store)
  | arg :: rest, closure, store =>
    (exec arg closure store).bind (fun v st =>
      (ExecuteArgs exec rest st.1 st.2).bind (fun vs st2 => .ok (v :: vs) st2))

/-- The loop of `Compound::Execute`: every statement in order, results
dropped. -/
def ExecuteStatements (exec : Exec) : List Statement → Closure → Store →
    Outcome Unit (Closure × Store)
  | [], closure, store => .ok () (closure, store)
  | statement :: rest, closure, store =>
    (exec statement closure store).bind (fun _ st => ExecuteStatements exec rest st.1 st.2)

/-- The path walk of `VariableValue::Execute`: `closure` is `*closure_ptr`. -/
def VariableValue.Walk (store : Store) : List String → Closure → Outcome ObjectHolder Store
  | [], _ => .undefined
  | [last], closure =>
    if !closure.count last then .error ("Variable " ++ last ++ " not found") store
    else .ok (closure.get last) store
  | id :: rest, closure =>
    if !closure.count id then .error ("Variable " ++ id ++ " not found") store
    else
      match closure.get id with
      | .ClassInstance addr _ => VariableValue.Walk store rest (store.Fields addr)
      | _ => .undefined

/-- The branch `if (obj_holder) obj_holder->Print(ss, context); else ss << "None"`
of `Print::Execute` and `Stringify::Execute`; the result is the text written
to `ss`. -/
def PrintOrNone (exec : Exec) (fuel : Nat) (obj_holder : ObjectHolder) (store : Store) :
    Outcome String Store :=
  match obj_holder with
  | .None => .ok "None" store
  | _ => ObjectPrint exec fuel obj_holder store

/-- The loop of `Print::Execute` over the arguments from position `i`;
`first` is the flag of the source and `ss` the text buffered so far. -/
def PrintArgs (exec : Exec) (fuel : Nat) : List Statement → Bool → String → Closure → Store →
    Outcome String (Closure × Store)
  | [], _, ss, closure, store => .ok ss (closure, store)
  | arg :: rest, first, ss, closure, store =>
    (exec arg closure store).bind (fun obj_holder st =>
      ((PrintOrNone exec fuel obj_holder st.2).enter st.1).bind (fun text st2 =>
        PrintArgs exec fuel rest false ((if !first then ss ++ " " else ss) ++ text) st2.1 st2.2))

/-- The comparator function held by a `Comparison` node. -/
def Comparator.apply (cmp_ : Comparator) (exec : Exec) (lhs rhs : ObjectHolder) (store : Store) :
    Outcome Bool Store :=
  match cmp_ with
  | .Equal => runtime.Equal exec lhs rhs store
  | .NotEqual => runtime.NotEqual exec lhs rhs store
  | .Less => runtime.Less exec lhs rhs store
  | .Greater => runtime.Greater exec lhs rhs store
  | .LessOrEqual => runtime.LessOrEqual exec lhs rhs store
  | .GreaterOrEqual => runtime.GreaterOrEqual exec lhs rhs store

/-- The body of `Add::Execute` once both operands are evaluated. -/
def Add.Apply (exec : Exec) (lhs rhs : ObjectHolder) (st : Closure × Store) :
    Outcome ObjectHolder (Closure × Store) :=
  match lhs, rhs with
  | .Number a, .Number b => Number.checked (a + b) st
  | .String a, .String b => .ok (.String (a ++ b)) st
  | .ClassInstance addr cls_, _ =>
    if HasMethod cls_ "__add__" 1 then (Call exec addr cls_ "__add__" [rhs] st.2).enter st.1
    else .error "Cannot add arguments" st
  | _, _ => .error "Cannot add arguments" st

/-- The body of `Sub::Execute` once both operands are evaluated. -/
def Sub.Apply (lhs rhs : ObjectHolder) (st : Closure × Store) :
    Outcome ObjectHolder (Closure × Store) :=
  match lhs, rhs with
  | .Number a, .Number b => Number.checked (a - b) st
  | _, _ => .error "Cannot subtract arguments" st

/-- The body of `Mult::Execute` once both operands are evaluated. -/
def Mult.Apply (lhs rhs : ObjectHolder) (st : Closure × Store) :
    Outcome ObjectHolder (Closure × Store) :=
  match lhs, rhs with
  | .Number a, .Number b => Number.checked (a * b) st
  | _, _ => .error "Cannot multiply arguments" st

/-- The body of `Div::Execute` once both operands are evaluated; `/` on C++
integers truncates toward zero. -/
def Div.Apply (lhs rhs : ObjectHolder) (st : Closure × Store) :
    Outcome ObjectHolder (Closure × Store) :=
  match lhs, rhs with
  | .Number a, .Number b =>
    if b = 0 then .error "Zero division" st else Number.checked (Int.tdiv a b) st
  | _, _ => .error "Cannot divide arguments" st

/-- The order in which the two argument expressions `lhs_->Execute(closure,
context)` and `rhs_->Execute(closure, context)` of the call of `cmp_` in
`Comparison::Execute` are evaluated.  Both are arguments of one function call,
so C++ does not fix which comes first (the two calls do not interleave); the
choice is the compiler's, made once for this single call site. -/
inductive ArgumentOrder where
  | lhs_first
  | rhs_first
  deriving DecidableEq, Repr

/-- The operand of `Comparison` whose `Execute` runs first. -/
def ArgumentOrder.first : ArgumentOrder → Statement → Statement → Statement
  | .lhs_first, lhs_, _ => lhs_
  | .rhs_first, _, rhs_ => rhs_

/-- The operand of `Comparison` whose `Execute` runs second. -/
def ArgumentOrder.second : ArgumentOrder → Statement → Statement → Statement
  | .lhs_first, _, rhs_ => rhs_
  | .rhs_first, lhs_, _ => lhs_

/-- `Statement::Execute(closure, context)` for every node; `order` is the order
in which the compiled `Comparison::Execute` evaluates its two operands.  Every
other node evaluates its operands in separate statements, in the order
written. -/
def Execute (order : ArgumentOrder) : Nat → Exec
  | 0, _, _, _ => .out_of_fuel
  | fuel + 1, stmt, closure, store =>
    match stmt with
    | .Value node => .ok node.Execute (closure, store)
    | .Assignment var_ rv_ =>
      (Execute order fuel rv_ closure store).bind (fun v st => .ok v (st.1.assign var_ v, st.2))
    | .VariableValue dotted_ids_ =>
      (VariableValue.Walk store dotted_ids_ closure).enter closure
    | .Print args_ =>
      (PrintArgs (Execute order fuel) fuel args_ true "" closure store).bind (fun ss st =>
        .ok .None (st.1, { st.2 with output := st.2.output ++ (ss ++ "\n") }))
    | .MethodCall object_ method_ args_ =>
      (Execute order fuel object_ closure store).bind (fun obj st =>
        match obj with
        | .ClassInstance addr cls_ =>
          if HasMethod cls_ method_ args_.length then
            (ExecuteArgs (Execute order fuel) args_ st.1 st.2).bind (fun actual_args st2 =>
              (Call (Execute order fuel) addr cls_ method_ actual_args st2.2).enter st2.1)
          else .error "Object is not a class instance" st
        | _ => .error "Object is not a class instance" st)
    | .Stringify arg_ =>
      (Execute order fuel arg_ closure store).bind (fun obj_holder st =>
        ((PrintOrNone (Execute order fuel) fuel obj_holder st.2).enter st.1).bind (fun ss st2 =>
          .ok (.String ss) st2))
    | .Add lhs_ rhs_ =>
      (Execute order fuel lhs_ closure store).bind (fun l st =>
        (Execute order fuel rhs_ st.1 st.2).bind (fun r st2 => Add.Apply (Execute order fuel) l r st2))
    | .Sub lhs_ rhs_ =>
      (Execute order fuel lhs_ closure store).bind (fun l st =>
        (Execute order fuel rhs_ st.1 st.2).bind (fun r st2 => Sub.Apply l r st2))
    | .Mult lhs_ rhs_ =>
      (Execute order fuel lhs_ closure store).bind (fun l st =>
        (Execute order fuel rhs_ st.1 st.2).bind (fun r st2 => Mult.Apply l r st2))
    | .Div lhs_ rhs_ =>
      (Execute order fuel lhs_ closure store).bind (fun l st =>
        (Execute order fuel rhs_ st.1 st.2).bind (fun r st2 => Div.Apply l r st2))
    | .Compound statements_ =>
      (ExecuteStatements (Execute order fuel) statements_ closure store).bind (fun _ st => .ok .None st)
    | .Return statement_ =>
      (Execute order fuel statement_ closure store).bind (fun v st => .returned v st)
    | .ClassDefinition cls_ =>
      .ok .None (closure.assign cls_.GetName (.Class cls_), store)
    | .FieldAssignment object_ field_name_ rv_ =>
      ((VariableValue.Walk store object_ closure).enter closure).bind (fun obj st =>
        match obj with
        | .ClassInstance addr _ =>
          (Execute order fuel rv_ st.1 st.2).bind (fun v st2 =>
            .ok v (st2.1, st2.2.setFields addr ((st2.2.Fields addr).assign field_name_ v)))
        | _ => .ok .None st)
    | .IfElse condition_ if_body_ else_body_ =>
      (Execute order fuel condition_ closure store).bind (fun c st =>
        if IsTrue c then Execute order fuel if_body_ st.1 st.2
        else
          match else_body_ with
          | some else_body => Execute order fuel else_body st.1 st.2
          | none => .ok .None st)
    | .Or lhs_ rhs_ =>
      (Execute order fuel lhs_ closure store).bind (fun l st =>
        if !IsTrue l then
          (Execute order fuel rhs_ st.1 st.2).bind (fun r st2 => .ok (.Bool (IsTrue r)) st2)
        else .ok (.Bool true) st)
    | .And lhs_ rhs_ =>
      (Execute order fuel lhs_ closure store).bind (fun l st =>
        if IsTrue l then
          (Execute order fuel rhs_ st.1 st.2).bind (fun r st2 => .ok (.Bool (IsTrue r)) st2)
        else .ok (.Bool false) st)
    | .Not arg_ =>
      (Execute order fuel arg_ closure store).bind (fun v st => .ok (.Bool (!IsTrue v)) st)
    | .Comparison cmp_ lhs_ rhs_ =>
      match order with
      | .lhs_first =>
        (Execute order fuel lhs_ closure store).bind (fun l st =>
          (Execute order fuel rhs_ st.1 st.2).bind (fun r st2 =>
            ((cmp_.apply (Execute order fuel) l r st2.2).enter st2.1).bind (fun b st3 =>
              .ok (.Bool b) st3)))
      | .rhs_first =>
        (Execute order fuel rhs_ closure store).bind (fun r st =>
          (Execute order fuel lhs_ st.1 st.2).bind (fun l st2 =>
            ((cmp_.apply (Execute order fuel) l r st2.2).enter st2.1).bind (fun b st3 =>
              .ok (.Bool b) st3)))
    | .NewInstance cls_instance_ class_ args_ =>
      if HasMethod class_ "__init__" args_.length then
        (ExecuteArgs (Execute order fuel) args_ closure store).bind (fun actual_args st =>
          ((Call (Execute order fuel) cls_instance_ class_ "__init__" actual_args st.2).enter st.1).bind
            (fun _ st2 => .ok (.ClassInstance cls_instance_ class_) st2))
      else .ok (.ClassInstance cls_instance_ class_) (closure, store)
    | .MethodBody body_ =>
      match Execute order fuel body_ closure store with
      | .ok _ st => .ok .None st
      | .returned payload st => .ok payload st
      | other => other

end ast

/-! ## The lexer (`lexer.cpp`)

The input stream is the list of characters not yet consumed; `peek()` at the
end of the stream is `EOF`.  Characters are ASCII (spec §6), so the narrowing
of `peek()` to `char` loses nothing. -/

namespace parse

/-- The tokens: the variants of `token_type`. -/
inductive Token where
  | Number (value : Int)
  | Id (value : String)
  | String (value : String)
  | Char (value : Char)
  | Class | Return | If | Else | Def | Newline | Print | Indent | Dedent
  | And | Or | Not | Eq | NotEq | LessOrEq | GreaterOrEq | None | True | False | Eof
  deriving DecidableEq, Repr

/-- The table `str_to_keywords`. -/
def str_to_keywords : List (String × Token) :=
  [("class", .Class), ("return", .Return), ("if", .If), ("else", .Else), ("def", .Def),
   ("print", .Print), ("and", .And), ("or", .Or), ("not", .Not), ("None", .None),
   ("True", .True), ("False", .False)]

/-- The table `str_to_comparison_lexems`, keyed by the first character (the
second is always `=`). -/
def str_to_comparison_lexems : List (Char × Token) :=
  [('=', .Eq), ('!', .NotEq), ('<', .LessOrEq), ('>', .GreaterOrEq)]

/-- The members of `Lexer`.  `tokens_` is in emission order (its last element
is `CurrentToken()`); `indentation_levels_` is the stack with its top first. -/
structure Lexer where
  input_ : List Char
  tokens_ : List Token
  indentation_levels_ : List Nat
  current_line_indentation_ : Nat
  deriving DecidableEq, Repr

/-- The result of a lexer operation.  `lexer_error` is a thrown `LexerError`
with the state it leaves; `out_of_range` is the `std::out_of_range` thrown by
`std::stoi`; `hangs` is a loop that never exits (`ParseString` at the end of
the input); `undefined` is `top()` of an empty stack. -/
inductive LexOutcome (α : Type) where
  | ok (value : α) (lexer : Lexer)
  | lexer_error (what : String) (lexer : Lexer)
  | out_of_range (lexer : Lexer)
  | hangs
  | undefined
  | out_of_fuel
  deriving DecidableEq, Repr

/-- The largest `int`, the bound of `std::stoi` (32-bit `int`). -/
def INT_MAX : Nat := 2147483647

/-- The test `tokens_.empty() || CurrentToken().Is<token_type::Newline>()`. -/
def Lexer.AtLineStart (lx : Lexer) : Bool :=
  match lx.tokens_.getLast? with
  | none => true
  | some t => t == .Newline

/-- The flag `is_new_line` of `SkipSpaces`. -/
def Lexer.IsNewLine (lx : Lexer) : Bool :=
  match lx.tokens_.getLast? with
  | none => false
  | some t => t == .Newline

/-- The exit of the loop of `SkipSpaces`: `skipped` spaces were counted on the
current line and `rest` is the input left.  `top()` is read only when
`is_new_line` holds. -/
def SkipSpaces.Finish (is_new_line : Bool) (skipped : Nat) (rest : List Char) (lx : Lexer) :
    LexOutcome Unit :=
  if is_new_line then
    match lx.indentation_levels_ with
    | [] => .undefined
    | top :: _ =>
      if skipped != top then
        if skipped % 2 != 0 then .lexer_error "Unexpected indenation" { lx with input_ := rest }
        else .ok () { lx with input_ := rest, current_line_indentation_ := skipped }
      else .ok () { lx with input_ := rest }
  else .ok () { lx with input_ := rest }

/-- The outer loop of `SkipSpaces`; each further iteration follows the
consumption of a line feed, so `input_.length + 1` iterations always suffice. -/
def SkipSpacesLoop (is_new_line : Bool) : Nat → Lexer → LexOutcome Unit
  | 0, _ => .out_of_fuel
  | fuel + 1, lx =>
    let skipped := (lx.input_.takeWhile (fun c => c == ' ')).length
    let after_spaces := lx.input_.dropWhile (fun c => c == ' ')
    let rest :=
      match after_spaces with
      | '#' :: _ => after_spaces.dropWhile (fun c => c != '\n')
      | _ => after_spaces
    match rest with
    | '\n' :: tail =>
      if lx.AtLineStart then SkipSpacesLoop is_new_line fuel { lx with input_ := tail }
      else SkipSpaces.Finish is_new_line skipped rest lx
    | _ => SkipSpaces.Finish is_new_line skipped rest lx

/-- `Lexer::SkipSpaces`. -/
def SkipSpaces (lx : Lexer) : LexOutcome Unit :=
  SkipSpacesLoop lx.IsNewLine (lx.input_.length + 1) lx

/-- `Lexer::ParseIndent`; the token is not yet pushed to `tokens_`. -/
def ParseIndent (lx : Lexer) : LexOutcome Token :=
  match lx.indentation_levels_ with
  | [] => .undefined
  | top :: below =>
    if lx.current_line_indentation_ > top then
      .ok .Indent { lx with indentation_levels_ := lx.current_line_indentation_ :: top :: below }
    else
      match below with
      | [] => .undefined
      | new_top :: _ =>
        if new_top < lx.current_line_indentation_ then
          .lexer_error "Unexpected indentation" { lx with indentation_levels_ := below }
        else .ok .Dedent { lx with indentation_levels_ := below }

/-- The value `std::stoi` reads from a string of decimal digits. -/
def DecimalValue (digits : List Char) : Nat :=
  digits.foldl (fun acc c => 10 * acc + (c.toNat - '0'.toNat)) 0

/-- `Lexer::ParseNumber`. -/
def ParseNumber (lx : Lexer) : LexOutcome Token :=
  let digits := lx.input_.takeWhile Char.isDigit
  let lx1 := { lx with input_ := lx.input_.dropWhile Char.isDigit }
  if DecimalValue digits ≤ INT_MAX then .ok (.Number (DecimalValue digits)) lx1
  else .out_of_range lx1

/-- The loop of `Lexer::ParseString` after the opening quote: the decoded text
and the input after the closing quote, or nothing when the input ends first
(`get()` then returns `EOF` for ever and the loop does not exit). -/
def ParseStringLoop (start_symbol : Char) : List Char → String → Option (String × List Char)
  | [], _ => none
  | c :: rest, ss =>
    if c = start_symbol then some (ss, rest)
    else if c = '\\' then
      match rest with
      | [] => none
      | next_c :: rest2 =>
        if next_c = '\'' ∨ next_c = '"' then ParseStringLoop start_symbol rest2 (ss.push next_c)
        else if next_c = 'n' then ParseStringLoop start_symbol rest2 (ss.push '\n')
        else if next_c = 't' then ParseStringLoop start_symbol rest2 (ss.push '\t')
        else ParseStringLoop start_symbol rest2 ((ss.push c).push next_c)
    else ParseStringLoop start_symbol rest (ss.push c)

/-- `Lexer::ParseString`; the next character is the opening quote. -/
def ParseString (lx : Lexer) : LexOutcome Token :=
  match lx.input_ with
  | [] => .hangs
  | start_symbol :: rest =>
    match ParseStringLoop start_symbol rest "" with
    | none => .hangs
    | some (value, rest2) => .ok (.String value) { lx with input_ := rest2 }

/-- The loop condition of `Lexer::ParseIdentifier`. -/
def IsIdentifierChar (c : Char) : Bool :=
  c.isAlpha || c.isDigit || c == '_'

/-- `Lexer::ParseIdentifier`. -/
def ParseIdentifier (lx : Lexer) : LexOutcome Token :=
  let identifier := String.mk (lx.input_.takeWhile IsIdentifierChar)
  let lx1 := { lx with input_ := lx.input_.dropWhile IsIdentifierChar }
  match str_to_keywords.lookup identifier with
  | some keyword => .ok keyword lx1
  | none => .ok (.Id identifier) lx1

/-- The dispatch of `Lexer::NextToken` on the next character, after
`SkipSpaces` and when no indentation token is due. -/
def NextToken.Dispatch (lx : Lexer) : LexOutcome Token :=
  match lx.input_ with
  | [] =>
    match lx.tokens_.getLast? with
    | none => .ok .Eof lx
    | some t =>
      if t == .Newline || t == .Eof || t == .Dedent then .ok .Eof lx else .ok .Newline lx
  | c :: rest =>
    if c == '\n' then .ok .Newline { lx with input_ := rest }
    else if c.isDigit then ParseNumber lx
    else if c.isAlpha || c == '_' then ParseIdentifier lx
    else if c == '\'' || c == '"' then ParseString lx
    else if c == '!' || c == '<' || c == '>' || c == '=' then
      match rest with
      | '=' :: rest2 =>
        match str_to_comparison_lexems.lookup c with
        | some token => .ok token { lx with input_ := rest2 }
        | none => .undefined
      | _ => .ok (.Char c) { lx with input_ := rest }
    else .ok (.Char c) { lx with input_ := rest }

/-- `Lexer::NextToken`. -/
def NextToken (lx : Lexer) : LexOutcome Token :=
  match SkipSpaces lx with
  | .ok _ lx1 =>
    let produced : LexOutcome Token :=
      match lx1.indentation_levels_ with
      | [] => .undefined
      | top :: _ =>
        if lx1.current_line_indentation_ != top then ParseIndent lx1
        else NextToken.Dispatch lx1
    match produced with
    | .ok token lx2 => .ok token { lx2 with tokens_ := lx2.tokens_ ++ [token] }
    | other => other
  | .lexer_error what lx1 => .lexer_error what lx1
  | .out_of_range lx1 => .out_of_range lx1
  | .hangs => .hangs
  | .undefined => .undefined
  | .out_of_fuel => .out_of_fuel

/-- Modelled from the spec: the lexer keeps "a current-line indentation
integer"; its initialiser is in lexer.h, which is not among the sources, and
is taken to be 0, the level the constructor pushes. -/
def INITIAL_LINE_INDENTATION : Nat := 0

/-- The constructor `Lexer::Lexer(input)`: push level 0, read the first token. -/
def Lexer.New (input : List Char) : LexOutcome Token :=
  NextToken { input_ := input, tokens_ := [], indentation_levels_ := [0],
              current_line_indentation_ := INITIAL_LINE_INDENTATION }

/-- Keep calling `NextToken` until the call just made returned `Eof`; the
result is `tokens_`, every token produced so far.  The fuel bounds the number
of further calls. -/
def TokensUntilEof : Nat → LexOutcome Token → LexOutcome (List Token)
  | _, .ok .Eof lx => .ok lx.tokens_ lx
  | 0, .ok _ _ => .out_of_fuel
  | fuel + 1, .ok _ lx => TokensUntilEof fuel (NextToken lx)
  | _, .lexer_error what lx => .lexer_error what lx
  | _, .out_of_range lx => .out_of_range lx
  | _, .hangs => .hangs
  | _, .undefined => .undefined
  | _, .out_of_fuel => .out_of_fuel

/-- The token stream of an input: the constructor, then `NextToken` up to and
including the first `Eof`. -/
def Tokenize (fuel : Nat) (input : String) : LexOutcome (List Token) :=
  TokensUntilEof fuel (Lexer.New input.toList)

end parse

/-! ## Notions used to state the properties -/

namespace runtime

/-- The dynamic type of the object behind a holder. -/
inductive Variant where
  | None | Number | String | Bool | Class | ClassInstance
  deriving DecidableEq, Repr

/-- The variant of a holder's content. -/
def ObjectHolder.variant : ObjectHolder → Variant
  | .None => .None
  | .Number _ => .Number
  | .String _ => .String
  | .Bool _ => .Bool
  | .Class _ => .Class
  | .ClassInstance _ _ => .ClassInstance

/-- The variants whose values `Equal` compares directly, and the empty holder. -/
def ComparableVariant : Variant → Bool
  | .None | .Number | .String | .Bool => true
  | .Class | .ClassInstance => false

/-- The methods visible from a class in lookup order: its own ordered method
list, then the list of its parent, and so on up the chain. -/
def Class.LookupOrder {σ : Type} : Class σ → List (Method σ)
  | .mk _ methods_ none => methods_
  | .mk _ methods_ (some parent) => methods_ ++ parent.LookupOrder

/-- A Number result is representable. -/
def Representable (x : Int) : Prop :=
  NUMBER_MIN ≤ x ∧ x ≤ NUMBER_MAX

/-- The empty store: no instance has a field, nothing was printed. -/
def Store.empty : Store :=
  { instances := [], output := "" }

end runtime

namespace ast

open runtime

/-- The arithmetic nodes: they evaluate `lhs_`, then `rhs_`, in two statements,
before anything else. -/
inductive BinaryKind where
  | Add | Sub | Mult | Div

/-- The node of a kind with the given operands. -/
def BinaryKind.node : BinaryKind → Statement → Statement → Statement
  | .Add, lhs, rhs => .Add lhs rhs
  | .Sub, lhs, rhs => .Sub lhs rhs
  | .Mult, lhs, rhs => .Mult lhs rhs
  | .Div, lhs, rhs => .Div lhs rhs

/-- `Inside order fuel outer st0 inner st1`: `inner` is a direct child of the
`Compound`, `IfElse` or operator node `outer`, and executing `outer` from
`st0` gets to execute `inner` from `st1`, every child executed before it
having returned normally.  Of the two operands of a `Comparison`, the one
executed first is the one `order` names. -/
inductive Inside (order : ArgumentOrder) (fuel : Nat) :
    Statement → Closure × Store → Statement → Closure × Store → Prop where
  | compound (before after : List Statement) (inner : Statement) (st0 st1 : Closure × Store) :
      ExecuteStatements (Execute order fuel) before st0.1 st0.2 = .ok () st1 →
      Inside order fuel (.Compound (before ++ inner :: after)) st0 inner st1
  | condition (inner if_body : Statement) (else_body : Option Statement) (st0 : Closure × Store) :
      Inside order fuel (.IfElse inner if_body else_body) st0 inner st0
  | if_body (condition inner : Statement) (else_body : Option Statement) (c : ObjectHolder)
      (st0 st1 : Closure × Store) :
      Execute order fuel condition st0.1 st0.2 = .ok c st1 → IsTrue c = true →
      Inside order fuel (.IfElse condition inner else_body) st0 inner st1
  | else_body (condition if_body inner : Statement) (c : ObjectHolder)
      (st0 st1 : Closure × Store) :
      Execute order fuel condition st0.1 st0.2 = .ok c st1 → IsTrue c = false →
      Inside order fuel (.IfElse condition if_body (some inner)) st0 inner st1
  | lhs (kind : BinaryKind) (inner rhs : Statement) (st0 : Closure × Store) :
      Inside order fuel (kind.node inner rhs) st0 inner st0
  | rhs (kind : BinaryKind) (lhs inner : Statement) (l : ObjectHolder)
      (st0 st1 : Closure × Store) :
      Execute order fuel lhs st0.1 st0.2 = .ok l st1 →
      Inside order fuel (kind.node lhs inner) st0 inner st1
  | or_lhs (inner rhs : Statement) (st0 : Closure × Store) :
      Inside order fuel (.Or inner rhs) st0 inner st0
  | or_rhs (lhs inner : Statement) (l : ObjectHolder) (st0 st1 : Closure × Store) :
      Execute order fuel lhs st0.1 st0.2 = .ok l st1 → IsTrue l = false →
      Inside order fuel (.Or lhs inner) st0 inner st1
  | and_lhs (inner rhs : Statement) (st0 : Closure × Store) :
      Inside order fuel (.And inner rhs) st0 inner st0
  | and_rhs (lhs inner : Statement) (l : ObjectHolder) (st0 st1 : Closure × Store) :
      Execute order fuel lhs st0.1 st0.2 = .ok l st1 → IsTrue l = true →
      Inside order fuel (.And lhs inner) st0 inner st1
  | not (inner : Statement) (st0 : Closure × Store) :
      Inside order fuel (.Not inner) st0 inner st0
  | comparison_first (cmp_ : Comparator) (lhs rhs : Statement) (st0 : Closure × Store) :
      Inside order fuel (.Comparison cmp_ lhs rhs) st0 (order.first lhs rhs) st0
  | comparison_second (cmp_ : Comparator) (lhs rhs : Statement) (v : ObjectHolder)
      (st0 st1 : Closure × Store) :
      Execute order fuel (order.first lhs rhs) st0.1 st0.2 = .ok v st1 →
      Inside order fuel (.Comparison cmp_ lhs rhs) st0 (order.second lhs rhs) st1

/-- `Nested order fuel outer st0 fuel1 inner st1`: `inner` sits at any depth
inside `outer` under `Compound`, `IfElse` and operator nodes, and executing
`outer` from `st0` with `fuel` gets to execute `inner` from `st1` with
`fuel1`. -/
inductive Nested (order : ArgumentOrder) :
    Nat → Statement → Closure × Store → Nat → Statement → Closure × Store → Prop where
  | here (fuel : Nat) (s : Statement) (st : Closure × Store) : Nested order fuel s st fuel s st
  | step (fuel fuel1 : Nat) (outer mid inner : Statement) (st0 st1 st2 : Closure × Store) :
      Inside order fuel outer st0 mid st1 → Nested order fuel mid st1 fuel1 inner st2 →
      Nested order (fuel + 1) outer st0 fuel1 inner st2

end ast

namespace runtime

/-- The canonical text of a value as the spec lists it: decimal for a Number,
the characters themselves for a String, `True` or `False` for a Bool, `None`
for the empty holder.  The text of a class or of an instance is not fixed by
these words. -/
def CanonicalText : ObjectHolder → Option String
  | .Number value => some (toString value)
  | .String value => some value
  | .Bool value => some (if value then "True" else "False")
  | .None => some "None"
  | .Class _ => none
  | .ClassInstance _ _ => none

/-- The texts of a line of output: the first one as it is, every further one
after a single space. -/
def JoinFrom : Bool → List String → String
  | _, [] => ""
  | first, text :: rest => ((if first then "" else " ") ++ text) ++ JoinFrom false rest

end runtime

namespace parse

/-- One unit of the body of a string literal, read left to right: a character
that is neither the quote nor a backslash, or a backslash with the character
after it. -/
inductive BodyItem where
  | plain (c : Char)
  | escape (x : Char)
  deriving DecidableEq, Repr

/-- The source characters of a unit. -/
def BodyItem.source : BodyItem → List Char
  | .plain c => [c]
  | .escape x => ['\\', x]

/-- The decoding of a unit in the words of the spec: backslash and a quote
give the quote, backslash and `n` a line feed, backslash and `t` a tab,
backslash and any other `x` the two characters backslash and `x`; every other
character is copied. -/
def BodyItem.decoded : BodyItem → List Char
  | .plain c => [c]
  | .escape x =>
    if x = '\'' ∨ x = '"' then [x]
    else if x = 'n' then ['\n']
    else if x = 't' then ['\t']
    else ['\\', x]

/-- A unit may occur in the body of a literal quoted by `quote`: a plain
character is neither the quote nor a backslash. -/
def BodyItem.fits (quote : Char) : BodyItem → Prop
  | .plain c => c ≠ quote ∧ c ≠ '\\'
  | .escape _ => True

end parse

namespace parse

/-- The input left by one round of the loop of `SkipSpaces`: the spaces are
skipped and, when a `#` follows, the comment up to the line feed or the end of
the input. -/
def SkipSpaces.Rest (input : List Char) : List Char :=
  match input.dropWhile (fun c => c == ' ') with
  | '#' :: _ => (input.dropWhile (fun c => c == ' ')).dropWhile (fun c => c != '\n')
  | _ => input.dropWhile (fun c => c == ' ')

/-- The part of `NextToken` after `SkipSpaces` has returned: the indentation
token or the dispatch, and the push to `tokens_`. -/
def NextToken.AfterSkip (lx1 : Lexer) : LexOutcome Token :=
  let produced : LexOutcome Token :=
    match lx1.indentation_levels_ with
    | [] => .undefined
    | top :: _ =>
      if lx1.current_line_indentation_ != top then ParseIndent lx1
      else NextToken.Dispatch lx1
  match produced with
  | .ok token lx2 => .ok token { lx2 with tokens_ := lx2.tokens_ ++ [token] }
  | other => other

/-- The lexer as the constructor makes it before it reads the first token. -/
def Lexer.Start (input : List Char) : Lexer :=
  { input_ := input, tokens_ := [], indentation_levels_ := [0],
    current_line_indentation_ := INITIAL_LINE_INDENTATION }

/-- The lexer states reached from construction by `NextToken` calls that
return a token. -/
inductive Reachable : Lexer → Prop where
  | start (input : List Char) : Reachable (Lexer.Start input)
  | next (lx lx2 : Lexer) (token : Token) :
      Reachable lx → NextToken lx = .ok token lx2 → Reachable lx2

/-- At the end of the input a synthetic `Newline` is still due: some token was
produced and the last one is none of `Newline`, `Eof`, `Dedent`. -/
def Lexer.NewlineDue (lx : Lexer) : Bool :=
  match lx.tokens_.getLast? with
  | none => false
  | some t => !(t == .Newline || t == .Eof || t == .Dedent)

/-- A bound on the number of `NextToken` calls still to come before `Eof`:
every call that returns another token makes it smaller. -/
def Lexer.Measure (lx : Lexer) : Nat :=
  3 * lx.input_.length + lx.indentation_levels_.length + (if lx.NewlineDue then 1 else 0)

/-- A token list that ends with `Newline` followed by `Dedent` tokens only
(possibly none). -/
def EndsNewlineDedents (tokens : List Token) : Prop :=
  ∃ (before : List Token) (k : Nat), tokens = before ++ .Newline :: List.replicate k .Dedent

/-- What holds of every reachable lexer state. -/
structure Lexer.Invariant (lx : Lexer) : Prop where
  bottom : lx.indentation_levels_.getLast? = some 0
  even : ∀ x ∈ lx.indentation_levels_, x % 2 = 0
  level : ∀ top ∈ lx.indentation_levels_.head?, lx.current_line_indentation_ ≤ top
  pending : (lx.indentation_levels_.head? ≠ some lx.current_line_indentation_ ∨
      lx.tokens_.getLast? = some .Dedent) → EndsNewlineDedents lx.tokens_
  at_eof : lx.tokens_.getLast? = some .Eof →
      lx.input_ = [] ∧ lx.indentation_levels_.head? = some lx.current_line_indentation_

/-- What `SkipSpaces`, started in `lx` with the flag `is_new_line`, can result
in: it never touches `tokens_` or the stack, it only consumes input, and it
sets `current_line_indentation_` only on a new line, to an even count of
consumed spaces that differs from the stack top. -/
def SkipSpaces.Post (is_new_line : Bool) (lx : Lexer) : LexOutcome Unit → Prop
  | .ok _ lx1 =>
    lx1.tokens_ = lx.tokens_ ∧ lx1.indentation_levels_ = lx.indentation_levels_ ∧
    ((lx1.current_line_indentation_ = lx.current_line_indentation_ ∧
        lx1.input_.length ≤ lx.input_.length) ∨
     (is_new_line = true ∧ lx1.current_line_indentation_ % 2 = 0 ∧
        lx.indentation_levels_.head? ≠ some lx1.current_line_indentation_ ∧
        lx1.current_line_indentation_ + lx1.input_.length ≤ lx.input_.length))
  | .lexer_error _ lx1 =>
    is_new_line = true ∧ lx1.tokens_ = lx.tokens_ ∧
    lx1.indentation_levels_ = lx.indentation_levels_ ∧
    lx1.current_line_indentation_ = lx.current_line_indentation_
  | .undefined => lx.indentation_levels_ = []
  | _ => False

end parse

namespace parse

/-- The state after `k` further `NextToken` calls that all return a token. -/
def Lexer.After : Nat → Lexer → Option Lexer
  | 0, lx => some lx
  | k + 1, lx =>
    match NextToken lx with
    | .ok _ lx2 => Lexer.After k lx2
    | _ => none

end parse

namespace parse

/-- The indentation stack is non-empty and its bottom entry is 0. -/
def Lexer.BottomZero (lx : Lexer) : Prop :=
  lx.indentation_levels_.getLast? = some 0

/-- The lexer states reached from construction by `NextToken` calls, the
states left by calls that raise `LexerError` or fail in `std::stoi`
included. -/
inductive ReachableOrRaised : Lexer → Prop where
  | start (input : List Char) : ReachableOrRaised (Lexer.Start input)
  | next (lx lx2 : Lexer) (token : Token) :
      ReachableOrRaised lx → NextToken lx = .ok token lx2 → ReachableOrRaised lx2
  | raised (lx lx2 : Lexer) (what : String) :
      ReachableOrRaised lx → NextToken lx = .lexer_error what lx2 → ReachableOrRaised lx2
  | failed (lx lx2 : Lexer) :
      ReachableOrRaised lx → NextToken lx = .out_of_range lx2 → ReachableOrRaised lx2

/-- An outcome in which the stack was never read or popped when empty and is
left with bottom 0. -/
def LexOutcome.StackSafe {α : Type} : LexOutcome α → Prop
  | .ok _ lx => lx.BottomZero
  | .lexer_error _ lx => lx.BottomZero
  | .out_of_range lx => lx.BottomZero
  | .hangs => True
  | .undefined => False
  | .out_of_fuel => False

end parse

/-! ## Example programs -/

namespace runtime

/-- Deciding representability. -/
instance Representable.decidable (x : Int) : Decidable (Representable x) := by
  unfold Representable
  exact inferInstance

end runtime

namespace ast

open runtime

/-- A class `A` with a one-parameter method `f`. -/
def ClassA : Cls :=
  .mk "A" [{ name := "f", formal_params := ["x"], body := .MethodBody (.Return (.VariableValue ["x"])) }]
    none

/-- A class `B(A)` that redefines `f` without parameters. -/
def ClassB : Cls :=
  .mk "B" [{ name := "f", formal_params := [], body := .MethodBody (.Return (.NumericConst 0)) }]
    (some ClassA)

/-- The redefinition of `f` in `B`. -/
def ClassB.f : Method Statement :=
  { name := "f", formal_params := [], body := .MethodBody (.Return (.NumericConst 0)) }

/-- A method body whose Return sits in a `Compound` in an `IfElse` in a
`Compound`, each with a statement after it:
`x = 1; if x: (return x + 41; print 'after'); print 'end'`. -/
def ReturnInsideIf : Statement :=
  .Compound [
    .Assignment "x" (.NumericConst 1),
    .IfElse (.VariableValue ["x"])
      (.Compound [
        .Return (.Add (.VariableValue ["x"]) (.NumericConst 41)),
        .Print [.StringConst "after"]])
      none,
    .Print [.StringConst "end"]]

/-- A `Comparison` node both of whose operands are `Return` nodes:
`Comparison(Equal, Return 1, Return 2)`. -/
def ReturnBothOperands : Statement :=
  .Comparison .Equal (.Return (.NumericConst 1)) (.Return (.NumericConst 2))

/-- A class `X` without methods. -/
def ClassX : Cls :=
  .mk "X" [] none

/-- A class `F` whose method `make` is `return X()`; the `NewInstance` node
of the body has its instance at address 7. -/
def ClassF : Cls :=
  .mk "F" [{ name := "make", formal_params := [],
             body := .MethodBody (.Return (.NewInstance 7 ClassX [])) }] none

/-- The program
`f = F(); a = f.make(); a.v = 1; b = f.make(); print b.v`. -/
def MakeTwice : Statement :=
  .Compound [
    .Assignment "f" (.NewInstance 1 ClassF []),
    .Assignment "a" (.MethodCall (.VariableValue ["f"]) "make" []),
    .FieldAssignment ["a"] "v" (.NumericConst 1),
    .Assignment "b" (.MethodCall (.VariableValue ["f"]) "make" []),
    .Print [.VariableValue ["b", "v"]]]

/-- The expression `1 or (1/0)`. -/
def OneOrDivisionByZero : Statement :=
  .Or (.NumericConst 1) (.Div (.NumericConst 1) (.NumericConst 0))

end ast

namespace ast

open runtime

/-- A class with a one-parameter `__lt__` that answers False and no `__eq__`. -/
def ClassOnlyLess : Cls :=
  .mk "OnlyLess" [{ name := "__lt__", formal_params := ["other"],
                    body := .MethodBody (.Return (.BoolConst false)) }] none

/-- The statement `print 'hello', 'world'`. -/
def PrintHelloWorld : Statement :=
  .Print [.StringConst "hello", .StringConst "world"]

end ast

/-! ## Properties -/

namespace runtime

/-- C10: `IsTrue` is `value ≠ 0` for a Number, non-emptiness for a String,
the value for a Bool, and false for a Class, a ClassInstance and the empty
holder; in particular `IsTrue(Bool(true))` holds and `IsTrue(empty)` does
not. -/
theorem IsTrue_by_variant :
    (∀ value : Int, IsTrue (.Number value) = decide (value ≠ 0)) ∧
    (∀ value : String, IsTrue (.String value) = decide (value ≠ "")) ∧
    (∀ value : Bool, IsTrue (.Bool value) = value) ∧
    (∀ cls : Cls, IsTrue (.Class cls) = false) ∧
    (∀ (addr : Nat) (cls_ : Cls), IsTrue (.ClassInstance addr cls_) = false) ∧
    IsTrue .None = false ∧
    IsTrue (.Bool true) = true := by
  refine ⟨?_, ?_, ?_, ?_, ?_, rfl, rfl⟩
  · intro value
    by_cases h : value = 0 <;> simp [IsTrue, h]
  · intro value
    by_cases h : value = "" <;> simp [IsTrue, h]
  · intro value; rfl
  · intro cls; rfl
  · intro addr cls_; rfl

/-- C3: for holders that are not class instances, `Equal` compares the values
of two Numbers, two Strings or two Bools, is true for two empty holders, and
raises `Cannot compare objects for equality` for every other pair, such as a
Number against a Bool or a value against None. -/
theorem Equal_without_instances (exec : Exec) (store : Store) :
    (∀ a b : Int, Equal exec (.Number a) (.Number b) store = .ok (decide (a = b)) store) ∧
    (∀ a b : String, Equal exec (.String a) (.String b) store = .ok (decide (a = b)) store) ∧
    (∀ a b : Bool, Equal exec (.Bool a) (.Bool b) store = .ok (decide (a = b)) store) ∧
    Equal exec .None .None store = .ok true store ∧
    (∀ lhs rhs : ObjectHolder,
      lhs.variant ≠ .ClassInstance → rhs.variant ≠ .ClassInstance →
      ¬ (lhs.variant = rhs.variant ∧ ComparableVariant lhs.variant = true) →
      Equal exec lhs rhs store = .error "Cannot compare objects for equality" store) ∧
    Equal exec (.Number 1) (.Bool true) store
      = .error "Cannot compare objects for equality" store ∧
    (∀ a : Int, Equal exec (.Number a) .None store
      = .error "Cannot compare objects for equality" store) ∧
    (∀ a : Int, Equal exec .None (.Number a) store
      = .error "Cannot compare objects for equality" store) := by
  refine ⟨fun _ _ => rfl, fun _ _ => rfl, fun _ _ => rfl, rfl, ?_, rfl, fun _ => rfl,
    fun _ => rfl⟩
  intro lhs rhs hl hr hne
  cases lhs <;> cases rhs <;>
    simp_all [ObjectHolder.variant, ComparableVariant, Equal, EqualTail]

/-- Witness of C3: a String against the empty holder, and a Class against a
Class, cannot be compared. -/
theorem Equal_without_instances_witness :
    Equal (ast.Execute .rhs_first 0) (.String "a") .None Store.empty
      = .error "Cannot compare objects for equality" Store.empty ∧
    Equal (ast.Execute .rhs_first 0) (.Class (.mk "A" [] none)) (.Class (.mk "A" [] none)) Store.empty
      = .error "Cannot compare objects for equality" Store.empty :=
  ⟨(Equal_without_instances (ast.Execute .rhs_first 0) Store.empty).2.2.2.2.1 (.String "a") .None
      (by decide) (by decide) (by decide),
   (Equal_without_instances (ast.Execute .rhs_first 0) Store.empty).2.2.2.2.1
      (.Class (.mk "A" [] none)) (.Class (.mk "A" [] none))
      (by decide) (by decide) (by decide)⟩

end runtime

namespace runtime

/-- `GetMethod` is the first match in the lookup order of the class. -/
theorem GetMethod_eq_find_LookupOrder {σ : Type} :
    ∀ (cls : Class σ) (name : String),
      cls.GetMethod name = cls.LookupOrder.find? (fun m => m.name == name)
  | .mk _ methods_ none, name => by simp [Class.GetMethod, Class.LookupOrder]
  | .mk _ methods_ (some parent), name => by
    have ih := GetMethod_eq_find_LookupOrder parent name
    cases h : methods_.find? (fun m => m.name == name) with
    | none => simp [Class.GetMethod, Class.LookupOrder, List.find?_append, h, ih]
    | some m => simp [Class.GetMethod, Class.LookupOrder, List.find?_append, h]

/-- `GetMethod` by its two steps: own methods first, then the parent. -/
theorem GetMethod_unfold {σ : Type} (cls : Class σ) (name : String) :
    cls.GetMethod name =
      match cls.methods_.find? (fun m => m.name == name) with
      | some m => some m
      | none =>
        match cls.parent_ with
        | some parent => parent.GetMethod name
        | none => none := by
  cases cls with
  | mk name_ methods_ parent_ =>
    cases parent_ with
    | none =>
      cases h : methods_.find? (fun m => m.name == name) <;>
        simp [Class.GetMethod, Class.methods_, Class.parent_, h]
    | some parent =>
      cases h : methods_.find? (fun m => m.name == name) <;>
        simp [Class.GetMethod, Class.methods_, Class.parent_, h]

/-- C4: `GetMethod(name)` is the first method called `name` in the class's own
ordered method list, otherwise the result of the same lookup in the parent,
otherwise nothing (so it is the first match along the whole chain), and
`HasMethod(name, k)` holds exactly when that first match exists and declares
`k` formal parameters; a method of another arity in the class itself hides
every same-named method of its ancestors. -/
theorem GetMethod_HasMethod_first_match {σ : Type} (cls : Class σ) (name : String) :
    (cls.GetMethod name =
      match cls.methods_.find? (fun m => m.name == name) with
      | some m => some m
      | none =>
        match cls.parent_ with
        | some parent => parent.GetMethod name
        | none => none) ∧
    cls.GetMethod name = cls.LookupOrder.find? (fun m => m.name == name) ∧
    (∀ k : Nat, HasMethod cls name k = true ↔
      ∃ m, cls.GetMethod name = some m ∧ m.formal_params.length = k) ∧
    (∀ (m : Method σ) (k : Nat),
      cls.methods_.find? (fun m => m.name == name) = some m →
      m.formal_params.length ≠ k → HasMethod cls name k = false) := by
  refine ⟨GetMethod_unfold cls name, GetMethod_eq_find_LookupOrder cls name, ?_, ?_⟩
  · intro k
    unfold HasMethod
    cases h : cls.GetMethod name with
    | none => simp
    | some m => simp
  · intro m k hm hk
    unfold HasMethod
    rw [GetMethod_unfold, hm]
    simpa using hk

end runtime

namespace runtime

/-- After `closure[key] = value` the key is bound to the value. -/
theorem Closure.find_assign_same (c : Closure) (key : String) (value : ObjectHolder) :
    (c.assign key value).find key = some value := by
  induction c with
  | nil => simp [Closure.assign, Closure.find]
  | cons kv rest ih =>
    obtain ⟨k, v⟩ := kv
    by_cases h : k = key
    · simp [Closure.assign, Closure.find, h]
    · have ih2 : Option.map (fun kv => kv.2)
          (List.find? (fun kv => kv.1 == key) (Closure.assign rest key value)) = some value := ih
      simp [Closure.assign, Closure.find, h, ih2]

/-- The assignment `closure[key] = value` leaves every other key as it was. -/
theorem Closure.find_assign_other (c : Closure) (key other : String) (value : ObjectHolder)
    (hne : other ≠ key) : (c.assign key value).find other = c.find other := by
  induction c with
  | nil =>
    have h : ¬ key = other := fun h => hne h.symm
    simp [Closure.assign, Closure.find, h]
  | cons kv rest ih =>
    obtain ⟨k, v⟩ := kv
    have ih2 : Option.map (fun kv => kv.2)
        (List.find? (fun kv => kv.1 == other) (Closure.assign rest key value)) =
        Option.map (fun kv => kv.2) (List.find? (fun kv => kv.1 == other) rest) := ih
    by_cases h : k = key
    · subst h
      have h2 : ¬ k = other := fun h => hne h.symm
      simp [Closure.assign, Closure.find, h2]
    · by_cases h3 : k = other
      · subst h3
        simp [Closure.assign, Closure.find, h]
      · simp [Closure.assign, Closure.find, h, h3, ih2]

/-- Binding parameters leaves a key that is no parameter as it was. -/
theorem BindParams_find_other (key : String) :
    ∀ (params : List String) (args : List ObjectHolder) (c : Closure),
      key ∉ params → (BindParams params args c).find key = c.find key
  | [], _, _, _ => by simp [BindParams]
  | _ :: _, [], _, _ => by simp [BindParams]
  | p :: ps, a :: as, c, h => by
    have hp : key ≠ p := fun e => h (by simp [e])
    have hps : key ∉ ps := fun e => h (by simp [e])
    simp only [BindParams]
    rw [BindParams_find_other key ps as (c.assign p a) hps, Closure.find_assign_other c p key a hp]

/-- Binding pairwise distinct parameters binds the i-th one to the i-th
argument. -/
theorem BindParams_find_param :
    ∀ (params : List String) (args : List ObjectHolder) (c : Closure),
      params.Nodup → params.length = args.length →
      ∀ (i : Nat) (p : String), params[i]? = some p → (BindParams params args c).find p = args[i]?
  | [], _, _, _, _, i, p, h => by simp at h
  | _ :: _, [], _, _, hlen, _, _, _ => by simp at hlen
  | q :: ps, a :: as, c, hnd, hlen, i, p, h => by
    have hq : q ∉ ps := (List.nodup_cons.mp hnd).1
    have hps : ps.Nodup := (List.nodup_cons.mp hnd).2
    simp only [BindParams]
    cases i with
    | zero =>
      simp at h
      subst h
      rw [BindParams_find_other q ps as (c.assign q a) hq, Closure.find_assign_same]
      simp
    | succ j =>
      simp at h
      have := BindParams_find_param ps as (c.assign q a) hps (by simpa using hlen) j p h
      simpa using this

/-- C5: `Call` raises an error, with the store untouched and whatever
`Execute` is (no body is executed), exactly when
`HasMethod(name, |actual_args|)` is false; otherwise its result is the result
of executing the resolved method's body in a fresh closure, which, when the
formal parameters are pairwise distinct and none is `self`, binds `self` to
the receiver, the i-th formal parameter to the i-th actual argument, and
nothing else.  The caller's closure is not an input of `Call`: a `MethodCall`
node hands back the closure it had after evaluating the object and the
arguments. -/
theorem Call_arity_check_and_fresh_closure (exec : Exec) (addr : Nat) (cls_ : Cls)
    (method : String) (actual_args : List ObjectHolder) (store : Store) :
    (HasMethod cls_ method actual_args.length = false →
      Call exec addr cls_ method actual_args store =
        .error ("Class " ++ cls_.GetName ++ " does not implement " ++ method ++ " method")
          store) ∧
    (HasMethod cls_ method actual_args.length = true →
      ∃ (m : Method ast.Statement) (closure : Closure),
        cls_.GetMethod method = some m ∧
        Call exec addr cls_ method actual_args store = (exec m.body closure store).leave ∧
        (m.formal_params.Nodup → "self" ∉ m.formal_params →
          closure.find "self" = some (.ClassInstance addr cls_) ∧
          (∀ (i : Nat) (p : String), m.formal_params[i]? = some p →
            ∃ a, actual_args[i]? = some a ∧ closure.find p = some a) ∧
          (∀ key : String, key ≠ "self" → key ∉ m.formal_params → closure.find key = none))) ∧
    (∀ (order : ast.ArgumentOrder) (fuel : Nat) (object_ : ast.Statement)
        (args_ : List ast.Statement) (closure0 : Closure) (store0 : Store)
        (st1 st2 : Closure × Store),
      ast.Execute order fuel object_ closure0 store0 = .ok (.ClassInstance addr cls_) st1 →
      HasMethod cls_ method args_.length = true →
      ast.ExecuteArgs (ast.Execute order fuel) args_ st1.1 st1.2 = .ok actual_args st2 →
      ast.Execute order (fuel + 1) (.MethodCall object_ method args_) closure0 store0 =
        (Call (ast.Execute order fuel) addr cls_ method actual_args st2.2).enter st2.1) := by
  refine ⟨?_, ?_, ?_⟩
  · intro h
    simp [Call, h]
  · intro h
    have h2 := h
    unfold HasMethod at h2
    cases hm : cls_.GetMethod method with
    | none => simp [hm] at h2
    | some m =>
      simp [hm] at h2
      refine ⟨m, BindParams m.formal_params actual_args [("self", .ClassInstance addr cls_)],
        rfl, ?_, ?_⟩
      · simp [Call, h, hm]
      · intro hnd hself
        refine ⟨?_, ?_, ?_⟩
        · rw [BindParams_find_other "self" _ _ _ hself]
          simp [Closure.find]
        · intro i p hp
          have hi : i < actual_args.length := by
            have := (List.getElem?_eq_some_iff.mp hp).1
            omega
          refine ⟨actual_args[i], by simp [hi], ?_⟩
          rw [BindParams_find_param _ _ _ hnd h2 i p hp]
          simp [hi]
        · intro key hk hkp
          rw [BindParams_find_other key _ _ _ hkp]
          have : ¬ "self" = key := fun e => hk e.symm
          simp [Closure.find, this]
  · intro order fuel object_ args_ closure0 store0 st1 st2 hobj hhas hargs
    simp [ast.Execute, Outcome.bind, hobj, hhas, hargs]

end runtime

namespace ast

open runtime

/-- Truncated remainder of a negated dividend. -/
theorem tmod_neg_left (a b : Int) : Int.tmod (-a) b = -Int.tmod a b := by
  rw [Int.tmod_def, Int.tmod_def, Int.neg_tdiv]
  ring

/-- The truncated remainder is smaller in magnitude than the divisor. -/
theorem tmod_abs_lt (a b : Int) (hb : b ≠ 0) : |Int.tmod a b| < |b| := by
  have pos_case : ∀ x y : Int, 0 < y → |Int.tmod x y| < |y| := by
    intro x y hy
    rcases le_total 0 x with hx | hx
    · have h0 := Int.tmod_nonneg y hx
      have h1 := Int.tmod_lt_of_pos x hy
      rw [abs_of_nonneg h0, abs_of_pos hy]
      exact h1
    · have h0 := Int.tmod_nonneg y (show 0 ≤ -x by omega)
      have h1 := Int.tmod_lt_of_pos (-x) hy
      rw [tmod_neg_left] at h0 h1
      rw [abs_of_nonpos (by omega), abs_of_pos hy]
      exact h1
  rcases lt_trichotomy b 0 with h | h | h
  · have := pos_case a (-b) (by omega)
    rwa [Int.tmod_neg, abs_neg] at this
  · exact absurd h hb
  · exact pos_case a b h

/-- The truncated remainder is zero or has the sign of the dividend. -/
theorem tmod_sign_of_dividend (a b : Int) :
    Int.tmod a b = 0 ∨ (0 < Int.tmod a b ∧ 0 < a) ∨ (Int.tmod a b < 0 ∧ a < 0) := by
  rcases lt_trichotomy a 0 with h | h | h
  · have := Int.tmod_nonneg b (show 0 ≤ -a by omega)
    rw [tmod_neg_left] at this
    omega
  · subst h; simp
  · have := Int.tmod_nonneg b (show 0 ≤ a by omega)
    omega

/-- A quotient with a remainder smaller than the divisor and of the sign of
the dividend is the truncated quotient. -/
theorem tdiv_unique (a b q r : Int) (hb : b ≠ 0) (h : a = q * b + r) (hr : |r| < |b|)
    (hs : r = 0 ∨ (0 < r ∧ 0 < a) ∨ (r < 0 ∧ a < 0)) : q = Int.tdiv a b := by
  have e := Int.tdiv_add_tmod' a b
  have hr2 := tmod_abs_lt a b hb
  have hs2 := tmod_sign_of_dividend a b
  have hd : (q - Int.tdiv a b) * b = Int.tmod a b - r := by
    have : q * b + r = Int.tdiv a b * b + Int.tmod a b := by rw [e, ← h]
    linarith
  have hlt : |Int.tmod a b - r| < |b| := by
    rw [abs_lt] at hr hr2 ⊢
    constructor <;> omega
  have hz : Int.tmod a b - r = 0 := by
    apply Int.eq_zero_of_abs_lt_dvd (m := |b|) _ hlt
    rw [abs_dvd]
    exact ⟨q - Int.tdiv a b, by rw [← hd]; ring⟩
  rw [hz] at hd
  rcases mul_eq_zero.mp hd with h | h
  · omega
  · exact absurd h hb

/-- C7: with both operands evaluated, `Add` returns the integer sum of two
Numbers (when the sum is in the Number range; beyond it C++ leaves the
addition undefined), the concatenation of two Strings, the result of
`Call(__add__, [rhs])` when the left operand is an instance with a
one-parameter `__add__`, and raises for every other pair of operand values;
`Sub` and `Mult` return the difference and the product of two Numbers and
raise for every other pair. -/
theorem Add_Sub_Mult_operand_combinations (order : ArgumentOrder) (fuel : Nat) (lhs_ rhs_ : Statement)
    (closure : Closure) (store : Store) (l r : ObjectHolder) (st1 st2 : Closure × Store)
    (hl : Execute order fuel lhs_ closure store = .ok l st1)
    (hr : Execute order fuel rhs_ st1.1 st1.2 = .ok r st2) :
    (∀ a b : Int, l = .Number a → r = .Number b → Representable (a + b) →
      Execute order (fuel + 1) (.Add lhs_ rhs_) closure store = .ok (.Number (a + b)) st2) ∧
    (∀ a b : String, l = .String a → r = .String b →
      Execute order (fuel + 1) (.Add lhs_ rhs_) closure store = .ok (.String (a ++ b)) st2) ∧
    (∀ (addr : Nat) (cls_ : Cls), l = .ClassInstance addr cls_ →
      HasMethod cls_ "__add__" 1 = true →
      Execute order (fuel + 1) (.Add lhs_ rhs_) closure store =
        (Call (Execute order fuel) addr cls_ "__add__" [r] st2.2).enter st2.1) ∧
    (¬ (l.variant = .Number ∧ r.variant = .Number) →
      ¬ (l.variant = .String ∧ r.variant = .String) →
      ¬ (∃ addr cls_, l = .ClassInstance addr cls_ ∧ HasMethod cls_ "__add__" 1 = true) →
      Execute order (fuel + 1) (.Add lhs_ rhs_) closure store = .error "Cannot add arguments" st2) ∧
    (∀ a b : Int, l = .Number a → r = .Number b → Representable (a - b) →
      Execute order (fuel + 1) (.Sub lhs_ rhs_) closure store = .ok (.Number (a - b)) st2) ∧
    (¬ (l.variant = .Number ∧ r.variant = .Number) →
      Execute order (fuel + 1) (.Sub lhs_ rhs_) closure store =
        .error "Cannot subtract arguments" st2) ∧
    (∀ a b : Int, l = .Number a → r = .Number b → Representable (a * b) →
      Execute order (fuel + 1) (.Mult lhs_ rhs_) closure store = .ok (.Number (a * b)) st2) ∧
    (¬ (l.variant = .Number ∧ r.variant = .Number) →
      Execute order (fuel + 1) (.Mult lhs_ rhs_) closure store =
        .error "Cannot multiply arguments" st2) := by
  refine ⟨?_, ?_, ?_, ?_, ?_, ?_, ?_, ?_⟩
  · intro a b ha hb hrep
    subst ha hb
    simp [Execute, Outcome.bind, hl, hr, Add.Apply, Number.checked, hrep.1, hrep.2]
  · intro a b ha hb
    subst ha hb
    simp [Execute, Outcome.bind, hl, hr, Add.Apply]
  · intro addr cls_ ha hm
    subst ha
    simp [Execute, Outcome.bind, hl, hr, Add.Apply, hm]
  · intro h1 h2 h3
    simp only [Execute, Outcome.bind, hl, hr]
    cases l <;> cases r <;> simp_all [Add.Apply, ObjectHolder.variant]
  · intro a b ha hb hrep
    subst ha hb
    simp [Execute, Outcome.bind, hl, hr, Sub.Apply, Number.checked, hrep.1, hrep.2]
  · intro h1
    simp only [Execute, Outcome.bind, hl, hr]
    cases l <;> cases r <;> simp_all [Sub.Apply, ObjectHolder.variant]
  · intro a b ha hb hrep
    subst ha hb
    simp [Execute, Outcome.bind, hl, hr, Mult.Apply, Number.checked, hrep.1, hrep.2]
  · intro h1
    simp only [Execute, Outcome.bind, hl, hr]
    cases l <;> cases r <;> simp_all [Mult.Apply, ObjectHolder.variant]

/-- C8: for Number operands `a` and `b`, `Div` raises `Zero division` exactly
when `b = 0`; for `b ≠ 0` with a representable quotient it returns the Number
`q` with `a = q*b + r`, `|r| < |b|` and `r` zero or of the sign of `a`, and
that `q` is the only one. -/
theorem Div_zero_check_and_truncation (order : ArgumentOrder) (fuel : Nat) (lhs_ rhs_ : Statement)
    (closure : Closure) (store : Store) (a b : Int) (st1 st2 : Closure × Store)
    (hl : Execute order fuel lhs_ closure store = .ok (.Number a) st1)
    (hr : Execute order fuel rhs_ st1.1 st1.2 = .ok (.Number b) st2) :
    (Execute order (fuel + 1) (.Div lhs_ rhs_) closure store = .error "Zero division" st2 ↔ b = 0) ∧
    (b ≠ 0 → Representable (Int.tdiv a b) →
      (∃ q r : Int,
        Execute order (fuel + 1) (.Div lhs_ rhs_) closure store = .ok (.Number q) st2 ∧
        a = q * b + r ∧ |r| < |b| ∧ (r = 0 ∨ (0 < r ∧ 0 < a) ∨ (r < 0 ∧ a < 0))) ∧
      (∀ q r : Int, a = q * b + r → |r| < |b| → (r = 0 ∨ (0 < r ∧ 0 < a) ∨ (r < 0 ∧ a < 0)) →
        Execute order (fuel + 1) (.Div lhs_ rhs_) closure store = .ok (.Number q) st2)) := by
  have hex : ∀ hb : b ≠ 0, Representable (Int.tdiv a b) →
      Execute order (fuel + 1) (.Div lhs_ rhs_) closure store = .ok (.Number (Int.tdiv a b)) st2 := by
    intro hb hrep
    simp [Execute, Outcome.bind, hl, hr, Div.Apply, hb, Number.checked, hrep.1, hrep.2]
  refine ⟨?_, ?_⟩
  · constructor
    · intro h
      by_contra hb
      simp only [Execute, Outcome.bind, hl, hr, Div.Apply, hb, if_false, Number.checked] at h
      split at h <;> simp at h
    · intro hb
      simp [Execute, Outcome.bind, hl, hr, Div.Apply, hb]
  · intro hb hrep
    refine ⟨⟨Int.tdiv a b, Int.tmod a b, hex hb hrep, ?_, tmod_abs_lt a b hb,
      tmod_sign_of_dividend a b⟩, ?_⟩
    · exact (Int.tdiv_add_tmod' a b).symm
    · intro q r hq hr1 hs
      rw [tdiv_unique a b q r hb hq hr1 hs]
      exact hex hb hrep

/-- C9: `Or` returns `Bool(true)` in the state left by `lhs` alone (whatever
`rhs` is, it is not evaluated) when `IsTrue(lhs)`, and `Bool(IsTrue(rhs))`
otherwise; `And` returns `Bool(false)` in the state left by `lhs` alone when
`IsTrue(lhs)` is false, and `Bool(IsTrue(rhs))` otherwise; every value either
node returns is a Bool. -/
theorem Or_And_short_circuit (order : ArgumentOrder) (fuel : Nat) (lhs_ rhs_ : Statement)
    (closure : Closure) (store : Store) :
    (∀ (l : ObjectHolder) (st1 : Closure × Store),
      Execute order fuel lhs_ closure store = .ok l st1 → IsTrue l = true →
      Execute order (fuel + 1) (.Or lhs_ rhs_) closure store = .ok (.Bool true) st1) ∧
    (∀ (l r : ObjectHolder) (st1 st2 : Closure × Store),
      Execute order fuel lhs_ closure store = .ok l st1 → IsTrue l = false →
      Execute order fuel rhs_ st1.1 st1.2 = .ok r st2 →
      Execute order (fuel + 1) (.Or lhs_ rhs_) closure store = .ok (.Bool (IsTrue r)) st2) ∧
    (∀ (l : ObjectHolder) (st1 : Closure × Store),
      Execute order fuel lhs_ closure store = .ok l st1 → IsTrue l = false →
      Execute order (fuel + 1) (.And lhs_ rhs_) closure store = .ok (.Bool false) st1) ∧
    (∀ (l r : ObjectHolder) (st1 st2 : Closure × Store),
      Execute order fuel lhs_ closure store = .ok l st1 → IsTrue l = true →
      Execute order fuel rhs_ st1.1 st1.2 = .ok r st2 →
      Execute order (fuel + 1) (.And lhs_ rhs_) closure store = .ok (.Bool (IsTrue r)) st2) ∧
    (∀ (v : ObjectHolder) (st : Closure × Store),
      (Execute order (fuel + 1) (.Or lhs_ rhs_) closure store = .ok v st ∨
       Execute order (fuel + 1) (.And lhs_ rhs_) closure store = .ok v st) →
      ∃ b : Bool, v = .Bool b) := by
  refine ⟨?_, ?_, ?_, ?_, ?_⟩
  · intro l st1 hl ht
    simp [Execute, Outcome.bind, hl, ht]
  · intro l r st1 st2 hl ht hr
    simp [Execute, Outcome.bind, hl, ht, hr]
  · intro l st1 hl ht
    simp [Execute, Outcome.bind, hl, ht]
  · intro l r st1 st2 hl ht hr
    simp [Execute, Outcome.bind, hl, ht, hr]
  · intro v st h
    rcases h with h | h
    · simp only [Execute, Outcome.bind] at h
      cases hl : Execute order fuel lhs_ closure store with
      | ok l st1 =>
        rw [hl] at h
        simp only at h
        by_cases ht : IsTrue l = true
        · simp [ht] at h
          exact ⟨true, h.1.symm⟩
        · simp [ht] at h
          cases hr : Execute order fuel rhs_ st1.1 st1.2 with
          | ok r st2 =>
            rw [hr] at h
            simp at h
            exact ⟨IsTrue r, h.1.symm⟩
          | returned p s => rw [hr] at h; simp at h
          | error e s => rw [hr] at h; simp at h
          | undefined => rw [hr] at h; simp at h
          | out_of_fuel => rw [hr] at h; simp at h
      | returned p s => rw [hl] at h; simp at h
      | error e s => rw [hl] at h; simp at h
      | undefined => rw [hl] at h; simp at h
      | out_of_fuel => rw [hl] at h; simp at h
    · simp only [Execute, Outcome.bind] at h
      cases hl : Execute order fuel lhs_ closure store with
      | ok l st1 =>
        rw [hl] at h
        simp only at h
        by_cases ht : IsTrue l = true
        · simp [ht] at h
          cases hr : Execute order fuel rhs_ st1.1 st1.2 with
          | ok r st2 =>
            rw [hr] at h
            simp at h
            exact ⟨IsTrue r, h.1.symm⟩
          | returned p s => rw [hr] at h; simp at h
          | error e s => rw [hr] at h; simp at h
          | undefined => rw [hr] at h; simp at h
          | out_of_fuel => rw [hr] at h; simp at h
        · simp [ht] at h
          exact ⟨false, h.1.symm⟩
      | returned p s => rw [hl] at h; simp at h
      | error e s => rw [hl] at h; simp at h
      | undefined => rw [hl] at h; simp at h
      | out_of_fuel => rw [hl] at h; simp at h

end ast

namespace ast

open runtime

/-- A Return signal raised by a statement of a `Compound` after the statements
before it returned normally is the result of the loop; the statements after it
play no part. -/
theorem ExecuteStatements_returned (exec : Exec) (inner : Statement) (after : List Statement)
    (payload : ObjectHolder) (st1 st2 : Closure × Store) :
    ∀ (before : List Statement) (closure : Closure) (store : Store),
      ExecuteStatements exec before closure store = .ok () st1 →
      exec inner st1.1 st1.2 = .returned payload st2 →
      ExecuteStatements exec (before ++ inner :: after) closure store = .returned payload st2
  | [], closure, store, hb, hi => by
    simp only [ExecuteStatements, Outcome.ok.injEq, true_and] at hb
    subst hb
    simp [ExecuteStatements, Outcome.bind, hi]
  | s :: rest, closure, store, hb, hi => by
    simp only [ExecuteStatements, List.cons_append] at hb ⊢
    cases hs : exec s closure store with
    | ok v st =>
      rw [hs] at hb
      simp only [Outcome.bind] at hb ⊢
      exact ExecuteStatements_returned exec inner after payload st1 st2 rest st.1 st.2 hb hi
    | returned p st => rw [hs] at hb; simp [Outcome.bind] at hb
    | error e st => rw [hs] at hb; simp [Outcome.bind] at hb
    | undefined => rw [hs] at hb; simp [Outcome.bind] at hb
    | out_of_fuel => rw [hs] at hb; simp [Outcome.bind] at hb

/-- A Return signal raised by a direct child passes through its `Compound`,
`IfElse` or operator node unchanged. -/
theorem Inside_returned (order : ArgumentOrder) (fuel : Nat) (outer inner : Statement)
    (st0 st1 st2 : Closure × Store) (payload : ObjectHolder) (hin : Inside order fuel outer st0 inner st1)
    (hret : Execute order fuel inner st1.1 st1.2 = .returned payload st2) :
    Execute order (fuel + 1) outer st0.1 st0.2 = .returned payload st2 := by
  cases hin with
  | compound before after _ _ _ hb =>
    simp [Execute, Outcome.bind,
      ExecuteStatements_returned (Execute order fuel) inner after payload st1 st2 before st0.1 st0.2
        hb hret]
  | condition _ if_body else_body _ => simp [Execute, Outcome.bind, hret]
  | if_body condition _ else_body c _ _ hc ht => simp [Execute, Outcome.bind, hc, ht, hret]
  | else_body condition if_body _ c _ _ hc ht => simp [Execute, Outcome.bind, hc, ht, hret]
  | lhs kind _ rhs _ => cases kind <;> simp [BinaryKind.node, Execute, Outcome.bind, hret]
  | rhs kind lhs _ l _ _ hl =>
    cases kind <;> simp [BinaryKind.node, Execute, Outcome.bind, hl, hret]
  | or_lhs _ rhs _ => simp [Execute, Outcome.bind, hret]
  | or_rhs lhs _ l _ _ hl ht => simp [Execute, Outcome.bind, hl, ht, hret]
  | and_lhs _ rhs _ => simp [Execute, Outcome.bind, hret]
  | and_rhs lhs _ l _ _ hl ht => simp [Execute, Outcome.bind, hl, ht, hret]
  | not _ _ => simp [Execute, Outcome.bind, hret]
  | comparison_first cmp_ lhs rhs _ =>
    cases order <;> simp only [ArgumentOrder.first] at hret <;>
      simp [Execute, Outcome.bind, hret]
  | comparison_second cmp_ lhs rhs v _ _ hv =>
    cases order <;>
      simp only [ArgumentOrder.first, ArgumentOrder.second] at hv hret <;>
      simp [Execute, Outcome.bind, hv, hret]

/-- A Return signal raised at any depth under `Compound`, `IfElse` and operator
nodes is the result of the outermost node. -/
theorem Nested_returned (order : ArgumentOrder) (fuel fuel1 : Nat) (outer inner : Statement)
    (st0 st1 st2 : Closure × Store) (payload : ObjectHolder)
    (hn : Nested order fuel outer st0 fuel1 inner st1)
    (hret : Execute order fuel1 inner st1.1 st1.2 = .returned payload st2) :
    Execute order fuel outer st0.1 st0.2 = .returned payload st2 := by
  induction hn with
  | here fuel s st => exact hret
  | step fuel fuel1 outer mid inner st0 st1 st3 hin _ ih =>
    exact Inside_returned order fuel outer mid st0 st1 st2 payload hin (ih hret)

/-- C2: when executing the body gets to a `Return` nested to any depth under
`Compound`, `IfElse` and operator nodes, everything executed before it having
returned normally, `MethodBody::Execute` returns the value of that Return's
operand in the state the Return left: nothing that follows it in an enclosing
`Compound`, and no operand evaluated after it, is executed.  Which operand of
a `Comparison` is executed first is what `order` says, and the property holds
for either order.  When the body finishes without a Return,
`MethodBody::Execute` returns None whatever value the body evaluated to. -/
theorem MethodBody_returns_first_Return (order : ArgumentOrder) (fuel : Nat) (body : Statement)
    (closure : Closure) (store : Store) :
    (∀ (fuel1 : Nat) (statement_ : Statement) (payload : ObjectHolder)
        (st1 st2 : Closure × Store),
      Nested order fuel body (closure, store) (fuel1 + 1) (.Return statement_) st1 →
      Execute order fuel1 statement_ st1.1 st1.2 = .ok payload st2 →
      Execute order (fuel + 1) (.MethodBody body) closure store = .ok payload st2) ∧
    (∀ (fuel1 : Nat) (inner : Statement) (payload : ObjectHolder) (st1 st2 : Closure × Store),
      Nested order fuel body (closure, store) fuel1 inner st1 →
      Execute order fuel1 inner st1.1 st1.2 = .returned payload st2 →
      Execute order (fuel + 1) (.MethodBody body) closure store = .ok payload st2) ∧
    (∀ (v : ObjectHolder) (st : Closure × Store),
      Execute order fuel body closure store = .ok v st →
      Execute order (fuel + 1) (.MethodBody body) closure store = .ok .None st) := by
  have general : ∀ (fuel1 : Nat) (inner : Statement) (payload : ObjectHolder)
      (st1 st2 : Closure × Store),
      Nested order fuel body (closure, store) fuel1 inner st1 →
      Execute order fuel1 inner st1.1 st1.2 = .returned payload st2 →
      Execute order (fuel + 1) (.MethodBody body) closure store = .ok payload st2 := by
    intro fuel1 inner payload st1 st2 hn hret
    have h := Nested_returned order fuel fuel1 body inner (closure, store) st1 st2 payload hn hret
    simp only at h
    simp [Execute, h]
  refine ⟨?_, general, ?_⟩
  · intro fuel1 statement_ payload st1 st2 hn hv
    apply general (fuel1 + 1) (.Return statement_) payload st1 st2 hn
    simp [Execute, Outcome.bind, hv]
  · intro v st hv
    simp [Execute, hv]

end ast

/-! ## The properties at concrete inputs -/

namespace parse

/-- C1 (failing input): the input `a`, line feed, two spaces, `b`, line feed,
two spaces lexes without error to `Id a, Newline, Indent, Id b, Newline, Eof`:
one `Indent`, no `Dedent` before `Eof`, and level 2 still on the stack. -/
theorem Tokenize_trailing_spaces_unbalanced :
    Tokenize 10 "a\n  b\n  " =
      .ok [.Id "a", .Newline, .Indent, .Id "b", .Newline, .Eof]
        { input_ := [],
          tokens_ := [.Id "a", .Newline, .Indent, .Id "b", .Newline, .Eof],
          indentation_levels_ := [2, 0],
          current_line_indentation_ := 2 } ∧
    List.count Token.Indent [.Id "a", .Newline, .Indent, .Id "b", .Newline, .Eof] = 1 ∧
    List.count Token.Dedent [.Id "a", .Newline, .Indent, .Id "b", .Newline, .Eof] = 0 ∧
    Tokenize 10 "a\n  b\n" =
      .ok [.Id "a", .Newline, .Indent, .Id "b", .Newline, .Dedent, .Eof]
        { input_ := [],
          tokens_ := [.Id "a", .Newline, .Indent, .Id "b", .Newline, .Dedent, .Eof],
          indentation_levels_ := [0],
          current_line_indentation_ := 0 } := by
  decide

end parse

namespace ast

open runtime

/-- Witness of C2: in `ReturnInsideIf` the Return is reached through a
`Compound`, an `IfElse` and a `Compound`; the method body returns 42 and
nothing is printed.  A body that is a literal returns None.  In
`ReturnBothOperands` the Return executed first is the right operand when the
build evaluates the operands of `Comparison` right to left, and the method
body returns 2; it is the left operand, and the result 1, when the build
evaluates them left to right. -/
theorem MethodBody_returns_first_Return_witness :
    Execute .rhs_first 7 (.MethodBody ReturnInsideIf) [] Store.empty =
      .ok (.Number 42) ([("x", .Number 1)], Store.empty) ∧
    Execute .rhs_first 2 (.MethodBody (.NumericConst 5)) [] Store.empty =
      .ok .None ([], Store.empty) ∧
    Execute .rhs_first 4 (.MethodBody ReturnBothOperands) [] Store.empty =
      .ok (.Number 2) ([], Store.empty) ∧
    Execute .lhs_first 4 (.MethodBody ReturnBothOperands) [] Store.empty =
      .ok (.Number 1) ([], Store.empty) :=
  ⟨(MethodBody_returns_first_Return .rhs_first 6 ReturnInsideIf [] Store.empty).1 2
      (.Add (.VariableValue ["x"]) (.NumericConst 41)) (.Number 42)
      ([("x", .Number 1)], Store.empty) ([("x", .Number 1)], Store.empty)
      (Nested.step 5 3 _ _ _ _ ([("x", .Number 1)], Store.empty) _
        (Inside.compound [.Assignment "x" (.NumericConst 1)] [.Print [.StringConst "end"]] _
          ([], Store.empty) _ rfl)
        (Nested.step 4 3 _ _ _ _ ([("x", .Number 1)], Store.empty) _
          (Inside.if_body _ _ none (.Number 1) _ _ rfl rfl)
          (Nested.step 3 3 _ _ _ _ ([("x", .Number 1)], Store.empty) _
            (Inside.compound [] [.Print [.StringConst "after"]] _ _ _ rfl)
            (Nested.here 3 _ _))))
      rfl,
   (MethodBody_returns_first_Return .rhs_first 1 (.NumericConst 5) [] Store.empty).2.2
      (.Number 5) ([], Store.empty) rfl,
   (MethodBody_returns_first_Return .rhs_first 3 ReturnBothOperands [] Store.empty).1 1
      (.NumericConst 2) (.Number 2) ([], Store.empty) ([], Store.empty)
      (Nested.step 2 2 _ _ _ _ ([], Store.empty) _
        (Inside.comparison_first .Equal (.Return (.NumericConst 1))
          (.Return (.NumericConst 2)) ([], Store.empty))
        (Nested.here 2 _ _))
      rfl,
   (MethodBody_returns_first_Return .lhs_first 3 ReturnBothOperands [] Store.empty).1 1
      (.NumericConst 1) (.Number 1) ([], Store.empty) ([], Store.empty)
      (Nested.step 2 2 _ _ _ _ ([], Store.empty) _
        (Inside.comparison_first .Equal (.Return (.NumericConst 1))
          (.Return (.NumericConst 2)) ([], Store.empty))
        (Nested.here 2 _ _))
      rfl⟩

/-- Witness of C4: `A.f` takes one parameter, `B(A)` redefines `f` without
parameters, so `HasMethod(f, 1)` holds for `A` and fails for `B`. -/
theorem GetMethod_HasMethod_first_match_witness :
    HasMethod ClassA "f" 1 = true ∧ HasMethod ClassB "f" 1 = false ∧
    HasMethod ClassB "f" 0 = true :=
  ⟨by decide,
   (GetMethod_HasMethod_first_match ClassB "f").2.2.2 ClassB.f 1 rfl (by decide),
   ((GetMethod_HasMethod_first_match ClassB "f").2.2.1 0).mpr ⟨ClassB.f, rfl, rfl⟩⟩

/-- Witness of C5: on an instance of `A`, calling `g` is an error that leaves
the store alone, and calling `f` with one argument runs the body of `f` in a
closure that binds `self` and `x` only. -/
theorem Call_arity_check_and_fresh_closure_witness :
    Call (Execute .rhs_first 5) 3 ClassA "g" [] Store.empty =
      .error "Class A does not implement g method" Store.empty ∧
    (∃ (m : Method Statement) (closure : Closure),
      ClassA.GetMethod "f" = some m ∧
      Call (Execute .rhs_first 5) 3 ClassA "f" [.Number 9] Store.empty =
        (Execute .rhs_first 5 m.body closure Store.empty).leave ∧
      (m.formal_params.Nodup → "self" ∉ m.formal_params →
        closure.find "self" = some (.ClassInstance 3 ClassA) ∧
        (∀ (i : Nat) (p : String), m.formal_params[i]? = some p →
          ∃ a, [ObjectHolder.Number 9][i]? = some a ∧ closure.find p = some a) ∧
        (∀ key : String, key ≠ "self" → key ∉ m.formal_params → closure.find key = none))) ∧
    Call (Execute .rhs_first 5) 3 ClassA "f" [.Number 9] Store.empty =
      .ok (.Number 9) Store.empty :=
  ⟨(Call_arity_check_and_fresh_closure (Execute .rhs_first 5) 3 ClassA "g" []
      Store.empty).1 (by decide),
   (Call_arity_check_and_fresh_closure (Execute .rhs_first 5) 3 ClassA "f" [.Number 9]
      Store.empty).2.1 (by decide),
   rfl⟩

/-- C6 (failing input): in `MakeTwice` the node `X()` is evaluated twice; both
evaluations return the instance at address 7, so the field `v` written through
`a` is read through `b` and the program prints 1, whichever operand order the
build uses for `Comparison`. -/
theorem NewInstance_twice_same_instance :
    (∀ order : ArgumentOrder,
      Execute order 10 MakeTwice [] Store.empty =
        .ok .None
          ([("f", .ClassInstance 1 ClassF), ("a", .ClassInstance 7 ClassX),
            ("b", .ClassInstance 7 ClassX)],
           { instances := [(7, [("v", .Number 1)])], output := "1\n" })) ∧
    (∀ order : ArgumentOrder,
      Execute order 3 (.NewInstance 7 ClassX []) []
          { instances := [(7, [("v", .Number 1)])], output := "" } =
        .ok (.ClassInstance 7 ClassX)
          ([], { instances := [(7, [("v", .Number 1)])], output := "" })) ∧
    Store.Fields { instances := [(7, [("v", .Number 1)])], output := "" } 7 =
      [("v", .Number 1)] :=
  ⟨fun _ => rfl, fun _ => rfl, rfl⟩

/-- Witness of C7: `1 + 2` is 3, `'ab' + 'c'` is `abc`, `1 + 'c'` and
`True - 1` raise. -/
theorem Add_Sub_Mult_operand_combinations_witness :
    Execute .rhs_first 2 (.Add (.NumericConst 1) (.NumericConst 2)) [] Store.empty =
      .ok (.Number (1 + 2)) ([], Store.empty) ∧
    Execute .rhs_first 2 (.Add (.StringConst "ab") (.StringConst "c")) [] Store.empty =
      .ok (.String ("ab" ++ "c")) ([], Store.empty) ∧
    Execute .rhs_first 2 (.Add (.NumericConst 1) (.StringConst "c")) [] Store.empty =
      .error "Cannot add arguments" ([], Store.empty) ∧
    Execute .rhs_first 2 (.Sub (.BoolConst true) (.NumericConst 1)) [] Store.empty =
      .error "Cannot subtract arguments" ([], Store.empty) ∧
    Execute .rhs_first 2 (.Mult (.NumericConst 6) (.NumericConst 7)) [] Store.empty =
      .ok (.Number (6 * 7)) ([], Store.empty) :=
  ⟨(Add_Sub_Mult_operand_combinations .rhs_first 1 (.NumericConst 1) (.NumericConst 2) [] Store.empty
      (.Number 1) (.Number 2) ([], Store.empty) ([], Store.empty) rfl rfl).1 1 2 rfl rfl
      (by decide),
   (Add_Sub_Mult_operand_combinations .rhs_first 1 (.StringConst "ab") (.StringConst "c") [] Store.empty
      (.String "ab") (.String "c") ([], Store.empty) ([], Store.empty) rfl rfl).2.1 "ab" "c"
      rfl rfl,
   (Add_Sub_Mult_operand_combinations .rhs_first 1 (.NumericConst 1) (.StringConst "c") [] Store.empty
      (.Number 1) (.String "c") ([], Store.empty) ([], Store.empty) rfl rfl).2.2.2.1
      (by decide) (by decide) (by simp),
   (Add_Sub_Mult_operand_combinations .rhs_first 1 (.BoolConst true) (.NumericConst 1) [] Store.empty
      (.Bool true) (.Number 1) ([], Store.empty) ([], Store.empty) rfl rfl).2.2.2.2.2.1
      (by decide),
   (Add_Sub_Mult_operand_combinations .rhs_first 1 (.NumericConst 6) (.NumericConst 7) [] Store.empty
      (.Number 6) (.Number 7) ([], Store.empty) ([], Store.empty) rfl rfl).2.2.2.2.2.2.1 6 7
      rfl rfl (by decide)⟩

/-- Witness of C8: `-7 / 2` is `-3` (remainder `-1`), and `1 / 0` raises
`Zero division`. -/
theorem Div_zero_check_and_truncation_witness :
    Execute .rhs_first 2 (.Div (.NumericConst (-7)) (.NumericConst 2)) [] Store.empty =
      .ok (.Number (-3)) ([], Store.empty) ∧
    Execute .rhs_first 2 (.Div (.NumericConst 1) (.NumericConst 0)) [] Store.empty =
      .error "Zero division" ([], Store.empty) :=
  ⟨((Div_zero_check_and_truncation .rhs_first 1 (.NumericConst (-7)) (.NumericConst 2) [] Store.empty
      (-7) 2 ([], Store.empty) ([], Store.empty) rfl rfl).2 (by decide) (by decide)).2 (-3) (-1)
      (by decide) (by decide) (by decide),
   (Div_zero_check_and_truncation .rhs_first 1 (.NumericConst 1) (.NumericConst 0) [] Store.empty
      1 0 ([], Store.empty) ([], Store.empty) rfl rfl).1.mpr rfl⟩

/-- Witness of C9: `1 or (1/0)` is True, the division is not evaluated; and
`print 1 or (1/0)` prints `True`. -/
theorem Or_And_short_circuit_witness :
    Execute .rhs_first 3 OneOrDivisionByZero [] Store.empty = .ok (.Bool true) ([], Store.empty) ∧
    Execute .rhs_first 3 (.And (.NumericConst 0) (.Div (.NumericConst 1) (.NumericConst 0))) []
        Store.empty = .ok (.Bool false) ([], Store.empty) ∧
    Execute .rhs_first 5 (.Print [OneOrDivisionByZero]) [] Store.empty =
      .ok .None ([], { instances := [], output := "True\n" }) :=
  ⟨(Or_And_short_circuit .rhs_first 2 (.NumericConst 1) (.Div (.NumericConst 1) (.NumericConst 0)) []
      Store.empty).1 (.Number 1) ([], Store.empty) rfl rfl,
   (Or_And_short_circuit .rhs_first 2 (.NumericConst 0) (.Div (.NumericConst 1) (.NumericConst 0)) []
      Store.empty).2.2.1 (.Number 0) ([], Store.empty) rfl rfl,
   rfl⟩

end ast

/-! ## Printing, stringification and derived comparisons -/

namespace ast

open runtime

/-- Printing a value that has a canonical text writes that text and changes
nothing. -/
theorem PrintOrNone_canonical (exec : Exec) (fuel : Nat) (v : ObjectHolder) (text : String)
    (store : Store) (h : CanonicalText v = some text) :
    PrintOrNone exec fuel v store = .ok text store := by
  cases v <;> cases fuel <;> simp_all [CanonicalText, PrintOrNone, ObjectPrint]

/-- Joining with single spaces, continued from a buffer. -/
theorem intercalate_go_eq (acc : String) :
    ∀ texts : List String, String.intercalate.go acc " " texts = acc ++ JoinFrom false texts
  | [] => by simp [String.intercalate.go, JoinFrom]
  | text :: rest => by
    simp only [String.intercalate.go, JoinFrom]
    rw [intercalate_go_eq (acc ++ " " ++ text) rest]
    simp [String.append_assoc]

/-- `JoinFrom true` is joining with single spaces. -/
theorem JoinFrom_true_eq_intercalate (texts : List String) :
    JoinFrom true texts = " ".intercalate texts := by
  cases texts with
  | nil => simp [JoinFrom, String.intercalate]
  | cons text rest =>
    simp [JoinFrom, String.intercalate, intercalate_go_eq]

/-- The loop of `Print::Execute` on arguments whose values have canonical
texts: the buffer receives the texts, and the state is the one the argument
evaluations leave. -/
theorem PrintArgs_canonical (exec : Exec) (fuel : Nat) :
    ∀ (args_ : List Statement) (first : Bool) (ss : String) (closure : Closure) (store : Store)
      (values : List ObjectHolder) (texts : List String) (st : Closure × Store),
      ExecuteArgs exec args_ closure store = .ok values st →
      values.map CanonicalText = texts.map some →
      PrintArgs exec fuel args_ first ss closure store = .ok (ss ++ JoinFrom first texts) st
  | [], first, ss, closure, store, values, texts, st, hargs, htexts => by
    simp only [ExecuteArgs, Outcome.ok.injEq] at hargs
    obtain ⟨hv, hst⟩ := hargs
    subst hv hst
    cases texts with
    | nil => simp [PrintArgs, JoinFrom]
    | cons t ts => simp at htexts
  | arg :: rest, first, ss, closure, store, values, texts, st, hargs, htexts => by
    simp only [ExecuteArgs] at hargs
    cases harg : exec arg closure store with
    | ok v st1 =>
      rw [harg] at hargs
      simp only [Outcome.bind] at hargs
      cases hrest : ExecuteArgs exec rest st1.1 st1.2 with
      | ok vs st2 =>
        rw [hrest] at hargs
        simp only [Outcome.ok.injEq] at hargs
        obtain ⟨hv, hst⟩ := hargs
        subst hv hst
        cases texts with
        | nil => simp at htexts
        | cons t ts =>
          simp only [List.map_cons, List.cons.injEq] at htexts
          obtain ⟨ht, hts⟩ := htexts
          have ih := PrintArgs_canonical exec fuel rest false
            ((if !first then ss ++ " " else ss) ++ t) st1.1 st1.2 vs ts st2 hrest hts
          simp only [PrintArgs, harg, Outcome.bind, PrintOrNone_canonical exec fuel v t st1.2 ht,
            Outcome.enter, ih, JoinFrom]
          cases first <;> simp [String.append_assoc]
      | returned p s => rw [hrest] at hargs; simp at hargs
      | error e s => rw [hrest] at hargs; simp at hargs
      | undefined => rw [hrest] at hargs; simp at hargs
      | out_of_fuel => rw [hrest] at hargs; simp at hargs
    | returned p s => rw [harg] at hargs; simp [Outcome.bind] at hargs
    | error e s => rw [harg] at hargs; simp [Outcome.bind] at hargs
    | undefined => rw [harg] at hargs; simp [Outcome.bind] at hargs
    | out_of_fuel => rw [harg] at hargs; simp [Outcome.bind] at hargs

/-- C11: when the arguments evaluate without error (left to right, to `values`,
leaving state `st`) and the values are Numbers, Strings, Bools or empty
holders, `Print::Execute` appends to the output exactly their canonical texts
in listed order, separated by single spaces and followed by one line feed
(only the line feed for no arguments), changes nothing else, and returns
None. -/
theorem Print_appends_one_line (order : ArgumentOrder) (fuel : Nat) (args_ : List Statement) (closure : Closure)
    (store : Store) (values : List ObjectHolder) (texts : List String) (st : Closure × Store)
    (hargs : ExecuteArgs (Execute order fuel) args_ closure store = .ok values st)
    (htexts : values.map CanonicalText = texts.map some) :
    Execute order (fuel + 1) (.Print args_) closure store =
      .ok .None (st.1, { st.2 with output := st.2.output ++ (" ".intercalate texts ++ "\n") }) ∧
    (args_ = [] →
      Execute order (fuel + 1) (.Print args_) closure store =
        .ok .None (closure, { store with output := store.output ++ "\n" })) := by
  have main : Execute order (fuel + 1) (.Print args_) closure store =
      .ok .None (st.1, { st.2 with output := st.2.output ++ (" ".intercalate texts ++ "\n") }) := by
    simp only [Execute]
    rw [PrintArgs_canonical (Execute order fuel) fuel args_ true "" closure store values texts st
      hargs htexts]
    simp [Outcome.bind, JoinFrom_true_eq_intercalate]
  refine ⟨main, ?_⟩
  intro hnil
  subst hnil
  simp [Execute, PrintArgs, Outcome.bind]

/-- C19: when the argument evaluates without error to a Number, String, Bool
or empty holder, `Stringify::Execute` returns the String of its canonical text
in the state the argument left (nothing is written to the output); and
whenever `Stringify` returns, its value is a String and `Stringify` applied to
it returns the same String in the same state. -/
theorem Stringify_canonical_and_idempotent (order : ArgumentOrder) (fuel : Nat) (arg_ : Statement) (closure : Closure)
    (store : Store) :
    (∀ (v : ObjectHolder) (text : String) (st : Closure × Store),
      Execute order fuel arg_ closure store = .ok v st → CanonicalText v = some text →
      Execute order (fuel + 1) (.Stringify arg_) closure store = .ok (.String text) st) ∧
    (∀ (v : ObjectHolder) (st : Closure × Store),
      Execute order (fuel + 1) (.Stringify arg_) closure store = .ok v st →
      (∃ text : String, v = .String text) ∧
      Execute order (fuel + 2) (.Stringify (.Stringify arg_)) closure store = .ok v st) := by
  refine ⟨?_, ?_⟩
  · intro v text st hv ht
    simp [Execute, Outcome.bind, hv, PrintOrNone_canonical (Execute order fuel) fuel v text st.2 ht,
      Outcome.enter]
  · intro v st h
    have hstr : ∃ text : String, v = .String text := by
      simp only [Execute] at h
      cases harg : Execute order fuel arg_ closure store with
      | ok w st1 =>
        rw [harg] at h
        simp only [Outcome.bind] at h
        cases hp : PrintOrNone (Execute order fuel) fuel w st1.2 with
        | ok text s2 =>
          rw [hp] at h
          simp only [Outcome.enter, Outcome.ok.injEq] at h
          exact ⟨text, h.1.symm⟩
        | returned p s => rw [hp] at h; simp [Outcome.enter] at h
        | error e s => rw [hp] at h; simp [Outcome.enter] at h
        | undefined => rw [hp] at h; simp [Outcome.enter] at h
        | out_of_fuel => rw [hp] at h; simp [Outcome.enter] at h
      | returned p s => rw [harg] at h; simp [Outcome.bind] at h
      | error e s => rw [harg] at h; simp [Outcome.bind] at h
      | undefined => rw [harg] at h; simp [Outcome.bind] at h
      | out_of_fuel => rw [harg] at h; simp [Outcome.bind] at h
    refine ⟨hstr, ?_⟩
    obtain ⟨text, hv⟩ := hstr
    subst hv
    have houter : Execute order (fuel + 2) (.Stringify (.Stringify arg_)) closure store =
        (Execute order (fuel + 1) (.Stringify arg_) closure store).bind (fun obj_holder st =>
          ((PrintOrNone (Execute order (fuel + 1)) (fuel + 1) obj_holder st.2).enter st.1).bind
            (fun ss st2 => .ok (.String ss) st2)) := rfl
    rw [houter, h]
    simp [Outcome.bind, PrintOrNone, ObjectPrint, Outcome.enter]

end ast

namespace runtime

/-- C17: when the base comparators that are consulted return, `NotEqual` is
the negation of `Equal`, `Greater` is `¬Less ∧ ¬Equal`, `LessOrEqual` is
`Less ∨ Equal` and `GreaterOrEqual` is `¬Less`; `Equal` is consulted after
`Less`, and only when `Less` does not already decide the result;
`GreaterOrEqual` never consults `Equal`. -/
theorem Derived_comparators (exec : Exec) (lhs rhs : ObjectHolder) (store : Store) :
    (∀ (e : Bool) (s1 : Store), Equal exec lhs rhs store = .ok e s1 →
      NotEqual exec lhs rhs store = .ok (!e) s1) ∧
    (∀ (l e : Bool) (s1 s2 : Store), Less exec lhs rhs store = .ok l s1 →
      Equal exec lhs rhs s1 = .ok e s2 →
      Greater exec lhs rhs store = .ok (!l && !e) (if l then s1 else s2) ∧
      LessOrEqual exec lhs rhs store = .ok (l || e) (if l then s1 else s2)) ∧
    (∀ (s1 : Store), Less exec lhs rhs store = .ok true s1 →
      Greater exec lhs rhs store = .ok false s1 ∧
      LessOrEqual exec lhs rhs store = .ok true s1) ∧
    (∀ (l : Bool) (s1 : Store), Less exec lhs rhs store = .ok l s1 →
      GreaterOrEqual exec lhs rhs store = .ok (!l) s1) := by
  refine ⟨?_, ?_, ?_, ?_⟩
  · intro e s1 he
    simp [NotEqual, Outcome.bind, he]
  · intro l e s1 s2 hl he
    cases l <;> simp [Greater, LessOrEqual, Outcome.bind, hl, he]
  · intro s1 hl
    simp [Greater, LessOrEqual, Outcome.bind, hl]
  · intro l s1 hl
    simp [GreaterOrEqual, Outcome.bind, hl]

end runtime

namespace ast

open runtime

/-- Witness of C11: `print 'hello', 'world'` appends `hello world` and a line
feed; `print 1, True, None` appends `1 True None` and a line feed; `print`
without arguments appends the line feed alone. -/
theorem Print_appends_one_line_witness :
    Execute .rhs_first 2 PrintHelloWorld [] Store.empty =
      .ok .None ([], { instances := [], output := "hello world\n" }) ∧
    Execute .rhs_first 2 (.Print [.NumericConst 1, .BoolConst true, .None]) [] Store.empty =
      .ok .None ([], { instances := [], output := "1 True None\n" }) ∧
    Execute .rhs_first 2 (.Print []) [] { instances := [], output := "x" } =
      .ok .None ([], { instances := [], output := "x\n" }) :=
  ⟨(Print_appends_one_line .rhs_first 1 [.StringConst "hello", .StringConst "world"] [] Store.empty
      [.String "hello", .String "world"] ["hello", "world"] ([], Store.empty) rfl rfl).1,
   (Print_appends_one_line .rhs_first 1 [.NumericConst 1, .BoolConst true, .None] [] Store.empty
      [.Number 1, .Bool true, .None] ["1", "True", "None"] ([], Store.empty) rfl rfl).1,
   (Print_appends_one_line .rhs_first 1 [] [] { instances := [], output := "x" } [] []
      ([], { instances := [], output := "x" }) rfl rfl).2 rfl⟩

/-- Witness of C19: `Stringify(Number(42))` is `String("42")`, and so is
`Stringify` of that. -/
theorem Stringify_canonical_and_idempotent_witness :
    Execute .rhs_first 2 (.Stringify (.NumericConst 42)) [] Store.empty =
      .ok (.String "42") ([], Store.empty) ∧
    Execute .rhs_first 3 (.Stringify (.Stringify (.NumericConst 42))) [] Store.empty =
      .ok (.String "42") ([], Store.empty) :=
  ⟨(Stringify_canonical_and_idempotent .rhs_first 1 (.NumericConst 42) [] Store.empty).1 (.Number 42) "42"
      ([], Store.empty) rfl rfl,
   ((Stringify_canonical_and_idempotent .rhs_first 1 (.NumericConst 42) [] Store.empty).2 (.String "42")
      ([], Store.empty) rfl).2⟩

/-- Witness of C17: `2 > 1` is true and `2 <= 1` false; for an instance with
`__lt__` and without `__eq__`, `Equal` raises while `GreaterOrEqual` returns. -/
theorem Derived_comparators_witness :
    Greater (Execute .rhs_first 0) (.Number 2) (.Number 1) Store.empty = .ok true Store.empty ∧
    LessOrEqual (Execute .rhs_first 0) (.Number 2) (.Number 1) Store.empty = .ok false Store.empty ∧
    NotEqual (Execute .rhs_first 0) (.String "a") (.String "b") Store.empty = .ok true Store.empty ∧
    Equal (Execute .rhs_first 5) (.ClassInstance 3 ClassOnlyLess) (.Number 1) Store.empty =
      .error "Cannot compare objects for equality" Store.empty ∧
    GreaterOrEqual (Execute .rhs_first 5) (.ClassInstance 3 ClassOnlyLess) (.Number 1) Store.empty =
      .ok true Store.empty :=
  ⟨((Derived_comparators (Execute .rhs_first 0) (.Number 2) (.Number 1) Store.empty).2.1 false false
      Store.empty Store.empty rfl rfl).1,
   ((Derived_comparators (Execute .rhs_first 0) (.Number 2) (.Number 1) Store.empty).2.1 false false
      Store.empty Store.empty rfl rfl).2,
   (Derived_comparators (Execute .rhs_first 0) (.String "a") (.String "b") Store.empty).1 false
      Store.empty rfl,
   rfl,
   (Derived_comparators (Execute .rhs_first 5) (.ClassInstance 3 ClassOnlyLess) (.Number 1)
      Store.empty).2.2.2 false Store.empty rfl⟩

/-- C18 (failing input): with `x` bound to the Number 1, evaluating `x.y`
dereferences the null pointer `TryAs<ClassInstance>()` returns: the behaviour
is undefined and no `Not a class instance` error is raised.  `MethodCall` on
the same object does raise its error, and the other cases of the claim hold:
`x` evaluates to 1 and `z` is not found.  None of it depends on the operand
order of `Comparison`. -/
theorem VariableValue_dotted_non_instance :
    (∀ order : ArgumentOrder,
      Execute order 1 (.VariableValue ["x", "y"]) [("x", .Number 1)] Store.empty =
        .undefined) ∧
    (∀ order : ArgumentOrder,
      Execute order 2 (.MethodCall (.VariableValue ["x"]) "y" []) [("x", .Number 1)]
          Store.empty =
        .error "Object is not a class instance" ([("x", .Number 1)], Store.empty)) ∧
    (∀ order : ArgumentOrder,
      Execute order 1 (.VariableValue ["x"]) [("x", .Number 1)] Store.empty =
        .ok (.Number 1) ([("x", .Number 1)], Store.empty)) ∧
    (∀ order : ArgumentOrder,
      Execute order 1 (.VariableValue ["z"]) [("x", .Number 1)] Store.empty =
        .error "Variable z not found" ([("x", .Number 1)], Store.empty)) :=
  ⟨fun _ => rfl, fun _ => rfl, fun _ => rfl, fun _ => rfl⟩

end ast

/-! ## String and number literals -/

namespace parse

/-- Appending one character to a buffer. -/
theorem push_eq_append (ss : String) (c : Char) : ss.push c = ss ++ String.mk [c] := by
  cases ss
  rfl

/-- A buffer of characters splits at any point. -/
theorem mk_append (a b : List Char) : String.mk (a ++ b) = String.mk a ++ String.mk b := by
  rfl

/-- The loop of `ParseString` stops at the quote. -/
theorem ParseStringLoop_quote (quote : Char) (rest : List Char) (ss : String) :
    ParseStringLoop quote (quote :: rest) ss = some (ss, rest) := by
  unfold ParseStringLoop
  simp

/-- The loop of `ParseString` copies a plain character. -/
theorem ParseStringLoop_plain (quote c : Char) (tail : List Char) (ss : String)
    (h1 : c ≠ quote) (h2 : c ≠ '\\') :
    ParseStringLoop quote (c :: tail) ss = ParseStringLoop quote tail (ss.push c) := by
  conv => lhs; unfold ParseStringLoop
  simp [h1, h2]

/-- The loop of `ParseString` decodes a backslash pair. -/
theorem ParseStringLoop_escape (quote x : Char) (tail : List Char) (ss : String)
    (hq : quote = '\'' ∨ quote = '"') :
    ParseStringLoop quote ('\\' :: x :: tail) ss =
      ParseStringLoop quote tail (ss ++ String.mk (BodyItem.decoded (.escape x))) := by
  have hb : ¬ '\\' = quote := by
    rcases hq with hq | hq <;> rw [hq] <;> decide
  conv => lhs; unfold ParseStringLoop
  by_cases h1 : x = '\'' ∨ x = '"'
  · simp [hb, h1, BodyItem.decoded, push_eq_append]
  · by_cases h2 : x = 'n'
    · simp [hb, h1, h2, BodyItem.decoded, push_eq_append]
    · by_cases h3 : x = 't'
      · simp [hb, h1, h2, h3, BodyItem.decoded, push_eq_append]
      · simp only [hb, h1, h2, h3, BodyItem.decoded, push_eq_append, if_false,
          if_true]
        rw [String.append_assoc]
        rfl

/-- The loop of `ParseString` on a body made of units, up to the closing
quote. -/
theorem ParseStringLoop_items (quote : Char) (hq : quote = '\'' ∨ quote = '"')
    (rest : List Char) :
    ∀ (items : List BodyItem) (ss : String), (∀ it ∈ items, it.fits quote) →
      ParseStringLoop quote (items.flatMap BodyItem.source ++ quote :: rest) ss =
        some (ss ++ String.mk (items.flatMap BodyItem.decoded), rest)
  | [], ss, _ => by
    show ParseStringLoop quote (quote :: rest) ss = some (ss ++ String.mk [], rest)
    rw [ParseStringLoop_quote]
    cases ss
    simp [String.append]
  | .plain c :: items, ss, h => by
    have hc : c ≠ quote ∧ c ≠ '\\' := h (.plain c) (by simp)
    have ih := ParseStringLoop_items quote hq rest items (ss.push c)
      (fun it hit => h it (by simp [hit]))
    show ParseStringLoop quote
        (c :: (items.flatMap BodyItem.source ++ quote :: rest)) ss =
      some (ss ++ String.mk ([c] ++ items.flatMap BodyItem.decoded), rest)
    rw [ParseStringLoop_plain quote c _ ss hc.1 hc.2, ih, push_eq_append, mk_append,
      String.append_assoc]
  | .escape x :: items, ss, h => by
    have ih := ParseStringLoop_items quote hq rest items
      (ss ++ String.mk (BodyItem.decoded (.escape x)))
      (fun it hit => h it (by simp [hit]))
    show ParseStringLoop quote
        ('\\' :: x :: (items.flatMap BodyItem.source ++ quote :: rest)) ss =
      some (ss ++ String.mk (BodyItem.decoded (.escape x) ++ items.flatMap BodyItem.decoded),
        rest)
    rw [ParseStringLoop_escape quote x _ ss hq, ih, mk_append, String.append_assoc]

/-- A body without backslash and quote is a list of plain units. -/
theorem plain_body (body : List Char) :
    (body.map BodyItem.plain).flatMap BodyItem.source = body ∧
    (body.map BodyItem.plain).flatMap BodyItem.decoded = body := by
  induction body with
  | nil => exact ⟨rfl, rfl⟩
  | cons c cs ih =>
    constructor
    · show c :: (cs.map BodyItem.plain).flatMap BodyItem.source = c :: cs
      rw [ih.1]
    · show c :: (cs.map BodyItem.plain).flatMap BodyItem.decoded = c :: cs
      rw [ih.2]

/-- C15: for a closed string literal (the quote `'` or `"`, a body of plain
characters and backslash pairs, the first unescaped occurrence of the same
quote), `ParseString` emits the String token whose value is the body decoded
unit by unit as the spec words it, and consumes the literal up to and
including the closing quote; a body without a backslash is the value
unchanged. -/
theorem ParseString_decodes_body (lx : Lexer) (quote : Char) (rest : List Char)
    (hq : quote = '\'' ∨ quote = '"') :
    (∀ items : List BodyItem, (∀ it ∈ items, it.fits quote) →
      lx.input_ = quote :: (items.flatMap BodyItem.source ++ quote :: rest) →
      ParseString lx =
        .ok (.String (String.mk (items.flatMap BodyItem.decoded))) { lx with input_ := rest } ∧
      NextToken.Dispatch lx =
        .ok (.String (String.mk (items.flatMap BodyItem.decoded))) { lx with input_ := rest }) ∧
    (∀ body : List Char, (∀ c ∈ body, c ≠ quote ∧ c ≠ '\\') →
      lx.input_ = quote :: (body ++ quote :: rest) →
      ParseString lx = .ok (.String (String.mk body)) { lx with input_ := rest }) := by
  have main : ∀ items : List BodyItem, (∀ it ∈ items, it.fits quote) →
      lx.input_ = quote :: (items.flatMap BodyItem.source ++ quote :: rest) →
      ParseString lx =
        .ok (.String (String.mk (items.flatMap BodyItem.decoded))) { lx with input_ := rest } := by
    intro items hfit hin
    have hloop := ParseStringLoop_items quote hq rest items "" hfit
    simp only [ParseString, hin, hloop]
    simp
  refine ⟨?_, ?_⟩
  · intro items hfit hin
    refine ⟨main items hfit hin, ?_⟩
    rw [← main items hfit hin]
    rcases hq with hq | hq <;> subst hq <;> simp [NextToken.Dispatch, hin]
  · intro body hbody hin
    have h := main (body.map BodyItem.plain)
      (by
        intro it hit
        obtain ⟨c, hc, rfl⟩ := List.mem_map.mp hit
        exact hbody c hc)
      (by rw [(plain_body body).1]; exact hin)
    rw [(plain_body body).2] at h
    exact h

end parse

namespace parse

/-- The value read from a digit string, one more digit at the end. -/
theorem DecimalValue_append_digit (digits : List Char) (c : Char) :
    DecimalValue (digits ++ [c]) = 10 * DecimalValue digits + (c.toNat - '0'.toNat) := by
  simp [DecimalValue, List.foldl_append]

/-- The value read by `std::stoi` is the number whose decimal digits, most
significant first, are the characters of the string. -/
theorem DecimalValue_eq_ofDigits (digits : List Char) :
    DecimalValue digits =
      Nat.ofDigits 10 (digits.reverse.map (fun c => c.toNat - '0'.toNat)) := by
  induction digits using List.reverseRecOn with
  | nil => rfl
  | append_singleton ds c ih =>
    rw [DecimalValue_append_digit, ih]
    simp [Nat.ofDigits_cons]
    ring

/-- Leading zeros do not change the value read. -/
theorem DecimalValue_leading_zero (digits : List Char) :
    DecimalValue ('0' :: digits) = DecimalValue digits := by
  simp [DecimalValue]

/-- The split of the input at the end of a maximal run of digits. -/
theorem digit_run_split (digits rest : List Char) (hall : ∀ c ∈ digits, c.isDigit = true)
    (hrest : ∀ c ∈ rest.head?, c.isDigit = false) :
    (digits ++ rest).takeWhile Char.isDigit = digits ∧
    (digits ++ rest).dropWhile Char.isDigit = rest := by
  have h1 : rest.takeWhile Char.isDigit = [] ∧ rest.dropWhile Char.isDigit = rest := by
    cases rest with
    | nil => simp
    | cons c cs =>
      have hc : c.isDigit = false := hrest c (by simp)
      simp [hc]
  rw [List.takeWhile_append_of_pos hall, List.dropWhile_append_of_pos hall, h1.1, h1.2]
  simp

/-- C16 as amended: when the input starts with a maximal run of decimal digits
whose value is at most `INT_MAX`, `ParseNumber` (and with it the dispatch of
`NextToken`) consumes the whole run and emits the Number token of that
decimal value, leading zeros ignored; when the value exceeds `INT_MAX`,
`std::stoi` throws `std::out_of_range`. -/
theorem ParseNumber_reads_digit_run (lx : Lexer) (digits rest : List Char)
    (hne : digits ≠ []) (hall : ∀ c ∈ digits, c.isDigit = true)
    (hrest : ∀ c ∈ rest.head?, c.isDigit = false)
    (hin : lx.input_ = digits ++ rest) :
    (DecimalValue digits ≤ INT_MAX →
      ParseNumber lx = .ok (.Number (DecimalValue digits)) { lx with input_ := rest } ∧
      NextToken.Dispatch lx =
        .ok (.Number (DecimalValue digits)) { lx with input_ := rest }) ∧
    (INT_MAX < DecimalValue digits →
      ParseNumber lx = .out_of_range { lx with input_ := rest }) ∧
    DecimalValue digits =
      Nat.ofDigits 10 (digits.reverse.map (fun c => c.toNat - '0'.toNat)) ∧
    DecimalValue ('0' :: digits) = DecimalValue digits := by
  have hsplit := digit_run_split digits rest hall hrest
  refine ⟨?_, ?_, DecimalValue_eq_ofDigits digits, DecimalValue_leading_zero digits⟩
  · intro hle
    have hp : ParseNumber lx =
        .ok (.Number (DecimalValue digits)) { lx with input_ := rest } := by
      simp [ParseNumber, hin, hsplit.1, hsplit.2, hle]
    refine ⟨hp, ?_⟩
    rw [← hp]
    cases digits with
    | nil => exact absurd rfl hne
    | cons d ds =>
      have hd : d.isDigit = true := hall d (by simp)
      have hnl : ¬ d = '\n' := by
        intro h
        rw [h] at hd
        exact absurd hd (by decide)
      simp [NextToken.Dispatch, hin, hd, hnl]
  · intro hgt
    have : ¬ DecimalValue digits ≤ INT_MAX := by omega
    simp [ParseNumber, hin, hsplit.1, hsplit.2, this]

/-- C16 (counterexample): the run `2147483648` fits in a signed 64-bit integer,
yet no Number token is emitted: `std::stoi` throws `std::out_of_range`. -/
theorem ParseNumber_out_of_int_range :
    DecimalValue "2147483648".toList = 2147483648 ∧
    (2147483648 : Int) ≤ 2 ^ 63 - 1 ∧
    Lexer.New "2147483648".toList =
      .out_of_range { input_ := [], tokens_ := [], indentation_levels_ := [0],
                      current_line_indentation_ := 0 } ∧
    Tokenize 10 "2147483648" =
      .out_of_range { input_ := [], tokens_ := [], indentation_levels_ := [0],
                      current_line_indentation_ := 0 } := by
  decide

/-- Witness of C16 as amended: `007` followed by a space is the Number 7, and
`2147483647` is read in full. -/
theorem ParseNumber_reads_digit_run_witness :
    ParseNumber { input_ := "007 ".toList, tokens_ := [], indentation_levels_ := [0],
                  current_line_indentation_ := 0 } =
      .ok (.Number 7) { input_ := [' '], tokens_ := [], indentation_levels_ := [0],
                        current_line_indentation_ := 0 } ∧
    Tokenize 10 "2147483647" =
      .ok [.Number 2147483647, .Newline, .Eof]
        { input_ := [], tokens_ := [.Number 2147483647, .Newline, .Eof],
          indentation_levels_ := [0], current_line_indentation_ := 0 } :=
  ⟨((ParseNumber_reads_digit_run
      { input_ := "007 ".toList, tokens_ := [], indentation_levels_ := [0],
        current_line_indentation_ := 0 }
      ['0', '0', '7'] [' '] (by decide) (by decide) (by decide) rfl).1 (by decide)).1,
   by decide⟩

/-- Witness of C15: the literal `'a\tb\'c\qd'` is decoded to `a`, tab, `b`,
quote, `c`, backslash, `q`, `d`, and `"hello\n"` to `hello` and a line feed. -/
theorem ParseString_decodes_body_witness :
    ParseString { input_ := "'a\\tb\\'c\\qd' x".toList, tokens_ := [],
                  indentation_levels_ := [0], current_line_indentation_ := 0 } =
      .ok (.String "a\tb'c\\qd")
        { input_ := [' ', 'x'], tokens_ := [], indentation_levels_ := [0],
          current_line_indentation_ := 0 } ∧
    Tokenize 10 "\"hello\\n\"" =
      .ok [.String "hello\n", .Newline, .Eof]
        { input_ := [], tokens_ := [.String "hello\n", .Newline, .Eof],
          indentation_levels_ := [0], current_line_indentation_ := 0 } :=
  ⟨((ParseString_decodes_body
      { input_ := "'a\\tb\\'c\\qd' x".toList, tokens_ := [], indentation_levels_ := [0],
        current_line_indentation_ := 0 } '\'' [' ', 'x'] (Or.inl rfl)).1
      [.plain 'a', .escape 't', .plain 'b', .escape '\'', .plain 'c', .escape 'q', .plain 'd']
      (by simp [BodyItem.fits]) rfl).1,
   by decide⟩

end parse

/-! ## The token stream as a whole -/

namespace parse

/-- One round of the loop of `SkipSpaces`, with the input left by the round
named. -/
theorem SkipSpacesLoop_succ (b : Bool) (fuel : Nat) (lx : Lexer) :
    SkipSpacesLoop b (fuel + 1) lx =
      match SkipSpaces.Rest lx.input_ with
      | '\n' :: tail =>
        if lx.AtLineStart then SkipSpacesLoop b fuel { lx with input_ := tail }
        else SkipSpaces.Finish b (lx.input_.takeWhile (fun c => c == ' ')).length
          (SkipSpaces.Rest lx.input_) lx
      | _ => SkipSpaces.Finish b (lx.input_.takeWhile (fun c => c == ' ')).length
          (SkipSpaces.Rest lx.input_) lx := by
  rfl

/-- A round of the loop consumes at least the spaces it counts. -/
theorem SkipSpaces.Rest_length (input : List Char) :
    (input.takeWhile (fun c => c == ' ')).length + (SkipSpaces.Rest input).length ≤
      input.length := by
  have h1 : (input.takeWhile (fun c => c == ' ')).length +
      (input.dropWhile (fun c => c == ' ')).length = input.length := by
    rw [← List.length_append, List.takeWhile_append_dropWhile]
  unfold SkipSpaces.Rest
  split
  · have h2 := (List.dropWhile_sublist (fun c => c != '\n')
      (l := input.dropWhile (fun c => c == ' '))).length_le
    omega
  · omega

/-- The exit of the loop of `SkipSpaces` meets the postcondition. -/
theorem SkipSpaces.Finish_post (b : Bool) (lx : Lexer) (skipped : Nat) (rest : List Char)
    (hlen : skipped + rest.length ≤ lx.input_.length) :
    SkipSpaces.Post b lx (SkipSpaces.Finish b skipped rest lx) := by
  unfold SkipSpaces.Finish
  cases b with
  | false =>
    simp only [SkipSpaces.Post, Bool.false_eq_true, if_false, true_and, false_and, or_false]
    omega
  | true =>
    simp only [if_true]
    cases hs : lx.indentation_levels_ with
    | nil => simp [SkipSpaces.Post, hs]
    | cons top below =>
      simp only
      by_cases h1 : skipped = top
      · simp only [h1, bne_self_eq_false, Bool.false_eq_true, if_false, SkipSpaces.Post, hs,
          true_and]
        left
        omega
      · have h1b : (skipped != top) = true := by simpa using h1
        simp only [h1b, if_true]
        by_cases h2 : skipped % 2 = 0
        · have h2b : (skipped % 2 != 0) = false := by simpa using h2
          simp only [h2b, Bool.false_eq_true, if_false, SkipSpaces.Post, hs, true_and]
          right
          refine ⟨h2, ?_, hlen⟩
          simp only [List.head?_cons, ne_eq, Option.some.injEq]
          exact fun h => h1 h.symm
        · have h2b : (skipped % 2 != 0) = true := by simpa using h2
          simp [h2b, SkipSpaces.Post, hs]

/-- The postcondition of `SkipSpaces` carries over from a state with less
input. -/
theorem SkipSpaces.Post_mono (b : Bool) (lx : Lexer) (tail : List Char)
    (hlen : tail.length ≤ lx.input_.length) (o : LexOutcome Unit)
    (h : SkipSpaces.Post b { lx with input_ := tail } o) : SkipSpaces.Post b lx o := by
  cases o with
  | ok v lx1 =>
    simp only [SkipSpaces.Post] at h ⊢
    obtain ⟨h1, h2, h3⟩ := h
    refine ⟨h1, h2, ?_⟩
    rcases h3 with ⟨h3, h4⟩ | ⟨h3, h4, h5, h6⟩
    · left; exact ⟨h3, by omega⟩
    · right; exact ⟨h3, h4, h5, by omega⟩
  | lexer_error what lx1 => exact h
  | out_of_range lx1 => exact h
  | hangs => exact h
  | undefined => exact h
  | out_of_fuel => exact h

/-- The loop of `SkipSpaces` meets the postcondition when the fuel exceeds the
length of the input. -/
theorem SkipSpacesLoop_post (b : Bool) :
    ∀ (fuel : Nat) (lx : Lexer), lx.input_.length < fuel →
      SkipSpaces.Post b lx (SkipSpacesLoop b fuel lx)
  | 0, lx, h => by omega
  | fuel + 1, lx, h => by
    have hrest := SkipSpaces.Rest_length lx.input_
    rw [SkipSpacesLoop_succ]
    split
    · rename_i tail heq
      rw [heq] at hrest
      simp only [List.length_cons] at hrest
      by_cases hat : lx.AtLineStart = true
      · simp only [hat, if_true]
        apply SkipSpaces.Post_mono b lx tail (by omega)
        exact SkipSpacesLoop_post b fuel { lx with input_ := tail } (by simp only; omega)
      · simp only [hat, Bool.false_eq_true, if_false]
        apply SkipSpaces.Finish_post
        rw [heq]
        simp only [List.length_cons]
        omega
    · exact SkipSpaces.Finish_post b lx _ _ hrest

/-- `SkipSpaces` meets its postcondition. -/
theorem SkipSpaces_post (lx : Lexer) : SkipSpaces.Post lx.IsNewLine lx (SkipSpaces lx) :=
  SkipSpacesLoop_post lx.IsNewLine (lx.input_.length + 1) lx (by omega)

end parse

namespace parse

/-- Dropping a run that starts at the head makes the list shorter. -/
theorem dropWhile_head_lt (p : Char → Bool) (c : Char) (rest : List Char) (h : p c = true) :
    ((c :: rest).dropWhile p).length < (c :: rest).length := by
  rw [List.dropWhile_cons_of_pos h]
  have := (List.dropWhile_sublist p (l := rest)).length_le
  simp only [List.length_cons]
  omega

/-- What `lookup` finds is an entry of the table. -/
theorem lookup_mem {α β : Type} [BEq α] (k : α) (v : β) :
    ∀ table : List (α × β), table.lookup k = some v → v ∈ table.map (fun kv => kv.2)
  | [], h => by simp at h
  | (k2, v2) :: rest, h => by
    simp only [List.lookup] at h
    split at h
    · simp only [Option.some.injEq] at h
      simp [h]
    · have := lookup_mem k v rest h
      simp only [List.map_cons, List.mem_cons]
      exact Or.inr this

/-- A keyword token is no structural token. -/
theorem keyword_not_structural (identifier : String) (token : Token)
    (h : str_to_keywords.lookup identifier = some token) :
    token ≠ .Indent ∧ token ≠ .Dedent ∧ token ≠ .Eof ∧ token ≠ .Newline := by
  have hmem := lookup_mem identifier token str_to_keywords h
  simp only [str_to_keywords, List.map_cons, List.map_nil, List.mem_cons, List.mem_singleton,
    List.not_mem_nil, or_false] at hmem
  rcases hmem with h | h | h | h | h | h | h | h | h | h | h | h <;> subst h <;> simp

/-- A comparison token is no structural token. -/
theorem comparison_not_structural (c : Char) (token : Token)
    (h : str_to_comparison_lexems.lookup c = some token) :
    token ≠ .Indent ∧ token ≠ .Dedent ∧ token ≠ .Eof ∧ token ≠ .Newline := by
  have hmem := lookup_mem c token str_to_comparison_lexems h
  simp only [str_to_comparison_lexems, List.map_cons, List.map_nil, List.mem_cons,
    List.mem_singleton, List.not_mem_nil, or_false] at hmem
  rcases hmem with h | h | h | h <;> subst h <;> simp

/-- The loop of `ParseString` consumes at least the closing quote. -/
theorem ParseStringLoop_length (quote : Char) :
    ∀ (n : Nat) (input : List Char) (ss value : String) (rest : List Char),
      input.length ≤ n → ParseStringLoop quote input ss = some (value, rest) →
      rest.length < input.length
  | _, [], ss, value, rest, _, h => by
    unfold ParseStringLoop at h
    simp at h
  | 0, c :: tail, ss, value, rest, hn, h => by simp at hn
  | n + 1, c :: tail, ss, value, rest, hn, h => by
    unfold ParseStringLoop at h
    simp only [List.length_cons] at hn ⊢
    split at h
    · simp only [Option.some.injEq, Prod.mk.injEq] at h
      rw [← h.2]
      omega
    · split at h
      · cases tail with
        | nil => simp at h
        | cons next_c tail2 =>
          simp only [List.length_cons] at hn ⊢
          have key : ∀ ss2, ParseStringLoop quote tail2 ss2 = some (value, rest) →
              rest.length < tail2.length :=
            fun ss2 h2 => ParseStringLoop_length quote n tail2 ss2 value rest (by omega) h2
          simp only at h
          split at h
          · have := key _ h; omega
          · split at h
            · have := key _ h; omega
            · split at h
              · have := key _ h; omega
              · have := key _ h; omega
      · have := ParseStringLoop_length quote n tail (ss.push c) value rest (by omega) h
        omega

/-- What the dispatch of `NextToken` returns: it pushes nothing itself, leaves
the stack and the line indentation alone, returns no indentation token, and
either consumes input for a token other than `Eof`, or is at the end of the
input and returns the due `Newline` or `Eof`. -/
theorem Dispatch_ok (lx lx2 : Lexer) (token : Token)
    (h : NextToken.Dispatch lx = .ok token lx2) :
    lx2.tokens_ = lx.tokens_ ∧ lx2.indentation_levels_ = lx.indentation_levels_ ∧
    lx2.current_line_indentation_ = lx.current_line_indentation_ ∧
    token ≠ .Indent ∧ token ≠ .Dedent ∧
    ((lx.input_ = [] ∧ lx2.input_ = [] ∧
        ((token = .Eof ∧ lx.NewlineDue = false) ∨ (token = .Newline ∧ lx.NewlineDue = true))) ∨
     (token ≠ .Eof ∧ lx2.input_.length < lx.input_.length)) := by
  unfold NextToken.Dispatch at h
  split at h
  · rename_i hin
    split at h
    · rename_i hlast
      simp only [LexOutcome.ok.injEq] at h
      obtain ⟨h1, h2⟩ := h
      subst h1 h2
      simp [hin, Lexer.NewlineDue, hlast]
    · rename_i t hlast
      split at h
      · rename_i hcond
        simp only [LexOutcome.ok.injEq] at h
        obtain ⟨h1, h2⟩ := h
        subst h1 h2
        simp [hin, Lexer.NewlineDue, hlast, hcond]
      · rename_i hcond
        simp only [LexOutcome.ok.injEq] at h
        obtain ⟨h1, h2⟩ := h
        subst h1 h2
        simp [hin, Lexer.NewlineDue, hlast, hcond]
  · rename_i c rest hin
    split at h
    · simp only [LexOutcome.ok.injEq] at h
      obtain ⟨h1, h2⟩ := h
      subst h1 h2
      simp [hin]
    · split at h
      · rename_i hnl hd
        unfold ParseNumber at h
        simp only at h
        split at h
        · simp only [LexOutcome.ok.injEq] at h
          obtain ⟨h1, h2⟩ := h
          subst h1 h2
          have := dropWhile_head_lt Char.isDigit c rest hd
          refine ⟨rfl, rfl, rfl, by simp, by simp, Or.inr ⟨by simp, ?_⟩⟩
          simp only [hin]
          exact this
        · simp at h
      · split at h
        · rename_i hnl hd hid
          have hic : IsIdentifierChar c = true := by
            simp only [IsIdentifierChar, Bool.or_eq_true] at hid ⊢
            rcases hid with hid | hid
            · exact Or.inl (Or.inl hid)
            · exact Or.inr hid
          have hlen := dropWhile_head_lt IsIdentifierChar c rest hic
          unfold ParseIdentifier at h
          simp only at h
          split at h
          · rename_i keyword hk
            simp only [LexOutcome.ok.injEq] at h
            obtain ⟨h1, h2⟩ := h
            subst h1 h2
            have hs := keyword_not_structural _ _ hk
            refine ⟨rfl, rfl, rfl, hs.1, hs.2.1, Or.inr ⟨hs.2.2.1, ?_⟩⟩
            simp only [hin]
            exact hlen
          · simp only [LexOutcome.ok.injEq] at h
            obtain ⟨h1, h2⟩ := h
            subst h1 h2
            refine ⟨rfl, rfl, rfl, by simp, by simp, Or.inr ⟨by simp, ?_⟩⟩
            simp only [hin]
            exact hlen
        · split at h
          · unfold ParseString at h
            rw [hin] at h
            simp only at h
            split at h
            · simp at h
            · rename_i value rest2 hloop
              simp only [LexOutcome.ok.injEq] at h
              obtain ⟨h1, h2⟩ := h
              subst h1 h2
              have := ParseStringLoop_length c rest.length rest "" value rest2 (Nat.le_refl _)
                hloop
              refine ⟨rfl, rfl, rfl, by simp, by simp, Or.inr ⟨by simp, ?_⟩⟩
              simp only [hin, List.length_cons]
              omega
          · split at h
            · split at h
              · rename_i rest2
                split at h
                · rename_i tok hk
                  simp only [LexOutcome.ok.injEq] at h
                  obtain ⟨h1, h2⟩ := h
                  subst h1 h2
                  have hs := comparison_not_structural _ _ hk
                  refine ⟨rfl, rfl, rfl, hs.1, hs.2.1, Or.inr ⟨hs.2.2.1, ?_⟩⟩
                  simp only [hin, List.length_cons]
                  omega
                · simp at h
              · simp only [LexOutcome.ok.injEq] at h
                obtain ⟨h1, h2⟩ := h
                subst h1 h2
                simp [hin]
            · simp only [LexOutcome.ok.injEq] at h
              obtain ⟨h1, h2⟩ := h
              subst h1 h2
              simp [hin]

end parse

namespace parse

/-- The dispatch of `NextToken` returns a token, or fails in `std::stoi`, or
hangs in `ParseString`; nothing else. -/
theorem Dispatch_outcomes (lx : Lexer) :
    (∃ token lx2, NextToken.Dispatch lx = .ok token lx2) ∨
    (∃ lx2, NextToken.Dispatch lx = .out_of_range lx2) ∨
    NextToken.Dispatch lx = .hangs := by
  unfold NextToken.Dispatch
  split
  · split
    · exact Or.inl ⟨_, _, rfl⟩
    · split
      · exact Or.inl ⟨_, _, rfl⟩
      · exact Or.inl ⟨_, _, rfl⟩
  · rename_i c rest hin
    split
    · exact Or.inl ⟨_, _, rfl⟩
    · split
      · unfold ParseNumber
        simp only
        split
        · exact Or.inl ⟨_, _, rfl⟩
        · exact Or.inr (Or.inl ⟨_, rfl⟩)
      · split
        · unfold ParseIdentifier
          simp only
          split
          · exact Or.inl ⟨_, _, rfl⟩
          · exact Or.inl ⟨_, _, rfl⟩
        · split
          · unfold ParseString
            rw [hin]
            simp only
            split
            · exact Or.inr (Or.inr rfl)
            · exact Or.inl ⟨_, _, rfl⟩
          · split
            · rename_i hc
              split
              · have hcases : c = '!' ∨ c = '<' ∨ c = '>' ∨ c = '=' := by
                  simp only [Bool.or_eq_true, beq_iff_eq] at hc
                  tauto
                rcases hcases with h | h | h | h <;> subst h <;>
                  exact Or.inl ⟨_, _, rfl⟩
              · exact Or.inl ⟨_, _, rfl⟩
            · exact Or.inl ⟨_, _, rfl⟩

/-- What `ParseIndent` returns: an `Indent` for a push of the line
indentation above the top, or a `Dedent` for a pop that leaves a top not
below the line indentation. -/
theorem ParseIndent_ok (lx lx2 : Lexer) (token : Token) (h : ParseIndent lx = .ok token lx2) :
    lx2.tokens_ = lx.tokens_ ∧ lx2.input_ = lx.input_ ∧
    lx2.current_line_indentation_ = lx.current_line_indentation_ ∧
    ((token = .Indent ∧ ∃ top below, lx.indentation_levels_ = top :: below ∧
        top < lx.current_line_indentation_ ∧
        lx2.indentation_levels_ = lx.current_line_indentation_ :: top :: below) ∨
     (token = .Dedent ∧ ∃ top new_top below, lx.indentation_levels_ = top :: new_top :: below ∧
        lx.current_line_indentation_ ≤ top ∧ lx.current_line_indentation_ ≤ new_top ∧
        lx2.indentation_levels_ = new_top :: below)) := by
  unfold ParseIndent at h
  split at h
  · simp at h
  · rename_i top below hs
    split at h
    · rename_i hgt
      simp only [LexOutcome.ok.injEq] at h
      obtain ⟨h1, h2⟩ := h
      subst h1 h2
      exact ⟨rfl, rfl, rfl, Or.inl ⟨rfl, top, below, hs, hgt, rfl⟩⟩
    · rename_i hgt
      split at h
      · simp at h
      · rename_i new_top below2
        split at h
        · simp at h
        · rename_i hlt
          simp only [LexOutcome.ok.injEq] at h
          obtain ⟨h1, h2⟩ := h
          subst h1 h2
          exact ⟨rfl, rfl, rfl, Or.inr ⟨rfl, top, new_top, below2, hs, by omega, by omega, rfl⟩⟩

/-- What `ParseIndent` raises: the pop has been done, the rest is as before. -/
theorem ParseIndent_error (lx lx2 : Lexer) (what : String)
    (h : ParseIndent lx = .lexer_error what lx2) :
    what = "Unexpected indentation" ∧ lx2.tokens_ = lx.tokens_ ∧ lx2.input_ = lx.input_ ∧
    lx2.current_line_indentation_ = lx.current_line_indentation_ ∧
    ∃ top new_top below, lx.indentation_levels_ = top :: new_top :: below ∧
      new_top < lx.current_line_indentation_ ∧ lx2.indentation_levels_ = new_top :: below := by
  unfold ParseIndent at h
  split at h
  · simp at h
  · rename_i top below hs
    split at h
    · simp at h
    · split at h
      · simp at h
      · rename_i new_top below2
        split at h
        · rename_i hlt
          simp only [LexOutcome.lexer_error.injEq] at h
          obtain ⟨h1, h2⟩ := h
          subst h1 h2
          exact ⟨rfl, rfl, rfl, rfl, top, new_top, below2, hs, hlt, rfl⟩
        · simp at h

/-- `ParseIndent` returns a token or raises `LexerError` when the stack has
bottom 0 and the line indentation differs from the top. -/
theorem ParseIndent_outcomes (lx : Lexer) (top : Nat) (below : List Nat)
    (hs : lx.indentation_levels_ = top :: below)
    (hbottom : lx.indentation_levels_.getLast? = some 0)
    (hne : lx.current_line_indentation_ ≠ top) :
    (∃ token lx2, ParseIndent lx = .ok token lx2) ∨
    (∃ what lx2, ParseIndent lx = .lexer_error what lx2) := by
  unfold ParseIndent
  rw [hs]
  simp only
  split
  · exact Or.inl ⟨_, _, rfl⟩
  · rename_i hgt
    cases below with
    | nil =>
      rw [hs] at hbottom
      simp at hbottom
      omega
    | cons new_top below2 =>
      simp only
      split
      · exact Or.inr ⟨_, _, rfl⟩
      · exact Or.inl ⟨_, _, rfl⟩

/-- `NextToken` is `SkipSpaces` followed by the rest. -/
theorem NextToken_after_skip (lx lx1 : Lexer) (u : Unit) (h : SkipSpaces lx = .ok u lx1) :
    NextToken lx = NextToken.AfterSkip lx1 := by
  unfold NextToken
  rw [h]
  rfl

end parse

namespace parse

/-- The two ways the rest of `NextToken` returns a token: from `ParseIndent`
when the line indentation differs from the stack top, from the dispatch
otherwise; the token is pushed to `tokens_`. -/
theorem AfterSkip_ok (lx1 lx3 : Lexer) (token : Token)
    (h : NextToken.AfterSkip lx1 = .ok token lx3) :
    ∃ top below lx2, lx1.indentation_levels_ = top :: below ∧
      lx3 = { lx2 with tokens_ := lx2.tokens_ ++ [token] } ∧
      ((lx1.current_line_indentation_ ≠ top ∧ ParseIndent lx1 = .ok token lx2) ∨
       (lx1.current_line_indentation_ = top ∧ NextToken.Dispatch lx1 = .ok token lx2)) := by
  unfold NextToken.AfterSkip at h
  cases hs : lx1.indentation_levels_ with
  | nil => simp [hs] at h
  | cons top below =>
    simp only [hs] at h
    by_cases hc : lx1.current_line_indentation_ = top
    · simp only [hc, bne_self_eq_false, Bool.false_eq_true, if_false] at h
      cases hd : NextToken.Dispatch lx1 with
      | ok t lx2 =>
        rw [hd] at h
        simp only [LexOutcome.ok.injEq] at h
        obtain ⟨h1, h2⟩ := h
        subst h1
        exact ⟨top, below, lx2, rfl, h2.symm, Or.inr ⟨hc, rfl⟩⟩
      | lexer_error w l => rw [hd] at h; simp at h
      | out_of_range l => rw [hd] at h; simp at h
      | hangs => rw [hd] at h; simp at h
      | undefined => rw [hd] at h; simp at h
      | out_of_fuel => rw [hd] at h; simp at h
    · have hb : (lx1.current_line_indentation_ != top) = true := by simpa using hc
      simp only [hb, if_true] at h
      cases hd : ParseIndent lx1 with
      | ok t lx2 =>
        rw [hd] at h
        simp only [LexOutcome.ok.injEq] at h
        obtain ⟨h1, h2⟩ := h
        subst h1
        exact ⟨top, below, lx2, rfl, h2.symm, Or.inl ⟨hc, rfl⟩⟩
      | lexer_error w l => rw [hd] at h; simp at h
      | out_of_range l => rw [hd] at h; simp at h
      | hangs => rw [hd] at h; simp at h
      | undefined => rw [hd] at h; simp at h
      | out_of_fuel => rw [hd] at h; simp at h

/-- Whether a synthetic `Newline` is due depends on the last token only. -/
theorem NewlineDue_push (lx : Lexer) (tokens : List Token) (token : Token) :
    Lexer.NewlineDue { lx with tokens_ := tokens ++ [token] } =
      !(token == .Newline || token == .Eof || token == .Dedent) := by
  simp [Lexer.NewlineDue, List.getLast?_concat]

/-- The measure after a push, by the token pushed. -/
theorem Measure_push (lx : Lexer) (token : Token) :
    Lexer.Measure { lx with tokens_ := lx.tokens_ ++ [token] } =
      3 * lx.input_.length + lx.indentation_levels_.length +
        (if (!(token == .Newline || token == .Eof || token == .Dedent)) = true then 1 else 0) := by
  simp only [Lexer.Measure, NewlineDue_push]

/-- A token list that ends with `Newline` and `Dedent` tokens still does with
one more `Dedent`. -/
theorem EndsNewlineDedents_push (tokens : List Token) (h : EndsNewlineDedents tokens) :
    EndsNewlineDedents (tokens ++ [.Dedent]) := by
  obtain ⟨before, k, hk⟩ := h
  refine ⟨before, k + 1, ?_⟩
  rw [hk, List.replicate_succ', List.append_assoc]
  simp

/-- One `NextToken` call that returns a token keeps the invariant, pushes that
token, and makes the measure smaller unless the token is `Eof`, in which case
the stack is as before. -/
theorem NextToken_step (lx lx3 : Lexer) (token : Token) (hinv : lx.Invariant)
    (h : NextToken lx = .ok token lx3) :
    lx3.Invariant ∧ lx3.tokens_ = lx.tokens_ ++ [token] ∧
    (token ≠ .Eof → lx3.Measure < lx.Measure) ∧
    (token = .Eof →
      lx3.indentation_levels_ = lx.indentation_levels_ ∧ lx.NewlineDue = false) := by
  have hpost := SkipSpaces_post lx
  cases hskip : SkipSpaces lx with
  | lexer_error w l => unfold NextToken at h; rw [hskip] at h; simp at h
  | out_of_range l => unfold NextToken at h; rw [hskip] at h; simp at h
  | hangs => unfold NextToken at h; rw [hskip] at h; simp at h
  | undefined => unfold NextToken at h; rw [hskip] at h; simp at h
  | out_of_fuel => unfold NextToken at h; rw [hskip] at h; simp at h
  | ok u lx1 =>
    rw [hskip] at hpost
    obtain ⟨ht, hst, hcli⟩ := hpost
    rw [NextToken_after_skip lx lx1 u hskip] at h
    obtain ⟨top, below, lx2, hs1, hlx3, hcase⟩ := AfterSkip_ok lx1 lx3 token h
    have hs : lx.indentation_levels_ = top :: below := by rw [← hst, hs1]
    have hlevel : lx.current_line_indentation_ ≤ top := hinv.level top (by simp [hs])
    have hin1 : lx1.input_.length ≤ lx.input_.length := by
      rcases hcli with ⟨_, h2⟩ | ⟨_, _, _, h2⟩ <;> omega
    rcases hcase with ⟨hne, hpi⟩ | ⟨heq, hd⟩
    · obtain ⟨p1, p2, p3, p4⟩ := ParseIndent_ok lx1 lx2 token hpi
      rcases p4 with ⟨htok, top', below', hs', hlt, hs2⟩ | ⟨htok, top', nt, below', hs', hle, hle2, hs2⟩
      · -- Indent
        rw [hs1] at hs'
        simp only [List.cons.injEq] at hs'
        obtain ⟨e1, e2⟩ := hs'
        subst e1 e2 htok hlx3
        have hset : lx1.current_line_indentation_ + lx1.input_.length ≤ lx.input_.length := by
          rcases hcli with ⟨h1, _⟩ | ⟨_, _, _, h2⟩
          · omega
          · exact h2
        have heven : lx1.current_line_indentation_ % 2 = 0 := by
          rcases hcli with ⟨h1, _⟩ | ⟨_, h2, _, _⟩
          · omega
          · exact h2
        refine ⟨⟨?_, ?_, ?_, ?_, ?_⟩, ?_, ?_, ?_⟩
        · simp only [hs2, List.getLast?_cons_cons]
          rw [← hs]; exact hinv.bottom
        · intro x hx
          simp only [hs2, List.mem_cons] at hx
          rcases hx with hx | hx
          · rw [hx]; exact heven
          · exact hinv.even x (by rw [hs]; simpa using hx)
        · intro t ht'
          simp only [hs2, List.head?_cons, Option.mem_def, Option.some.injEq] at ht'
          simp only [p3]
          omega
        · intro hp
          simp only [hs2, p3, List.head?_cons, ne_eq, not_true_eq_false, false_or,
            List.getLast?_concat, Option.some.injEq] at hp
          exact absurd hp (by decide)
        · intro hp
          simp only [List.getLast?_concat, Option.some.injEq] at hp
          exact absurd hp (by decide)
        · simp only [p1, ht]
        · intro _
          rw [Measure_push]
          simp only [Lexer.Measure, hs2, p2, hs, List.length_cons]
          split <;> split <;> omega
        · intro hc; exact absurd hc (by decide)
      · -- Dedent
        rw [hs1] at hs'
        simp only [List.cons.injEq] at hs'
        obtain ⟨e1, e2⟩ := hs'
        subst e1 htok hlx3
        have hnld : EndsNewlineDedents lx.tokens_ := by
          rcases hcli with ⟨h1, _⟩ | ⟨h1, _, _, _⟩
          · apply hinv.pending
            left
            rw [hs, h1.symm]
            simp only [List.head?_cons, ne_eq, Option.some.injEq]
            exact fun e => hne e.symm
          · have hl : lx.tokens_.getLast? = some .Newline := by
              unfold Lexer.IsNewLine at h1
              split at h1
              · simp at h1
              · rename_i t hlast
                rw [hlast]
                simpa using h1
            obtain ⟨ys, hys⟩ := List.getLast?_eq_some_iff.mp hl
            exact ⟨ys, 0, by simpa using hys⟩
        refine ⟨⟨?_, ?_, ?_, ?_, ?_⟩, ?_, ?_, ?_⟩
        · simp only [hs2]
          have := hinv.bottom
          rw [hs, e2, List.getLast?_cons_cons] at this
          exact this
        · intro x hx
          simp only [hs2] at hx
          exact hinv.even x (by rw [hs, e2]; exact List.mem_cons_of_mem _ hx)
        · intro t ht'
          simp only [hs2, List.head?_cons, Option.mem_def, Option.some.injEq] at ht'
          simp only [p3]
          omega
        · intro _
          simp only [p1, ht]
          exact EndsNewlineDedents_push _ hnld
        · intro hp
          simp only [List.getLast?_concat, Option.some.injEq] at hp
          exact absurd hp (by decide)
        · simp only [p1, ht]
        · intro _
          rw [Measure_push]
          have hflag : (!(Token.Dedent == Token.Newline || Token.Dedent == Token.Eof ||
              Token.Dedent == Token.Dedent)) = false := by decide
          simp only [Lexer.Measure, hs2, p2, hs, e2, List.length_cons, hflag,
            Bool.false_eq_true, if_false]
          split <;> omega
        · intro hc; exact absurd hc (by decide)
    · obtain ⟨d1, d2, d3, d4, d5, d6⟩ := Dispatch_ok lx1 lx2 token hd
      subst hlx3
      refine ⟨⟨?_, ?_, ?_, ?_, ?_⟩, ?_, ?_, ?_⟩
      · simp only [d2, hst]; exact hinv.bottom
      · simp only [d2, hst]; exact hinv.even
      · intro t ht'
        simp only [d2, hs1, List.head?_cons, Option.mem_def, Option.some.injEq] at ht'
        simp only [d3, heq]
        omega
      · intro hp
        simp only [d2, d3, hs1, heq, List.head?_cons, ne_eq, not_true_eq_false, false_or,
          List.getLast?_concat, Option.some.injEq] at hp
        exact absurd hp d5
      · intro hp
        simp only [List.getLast?_concat, Option.some.injEq] at hp
        subst hp
        rcases d6 with ⟨_, h2, _⟩ | ⟨h1, _⟩
        · exact ⟨h2, by simp only [d2, d3, hs1, heq, List.head?_cons]⟩
        · exact absurd rfl h1
      · simp only [d1, ht]
      · intro hne
        rw [Measure_push]
        simp only [Lexer.Measure, d2, hst]
        rcases d6 with ⟨h1, h2, h3⟩ | ⟨_, h2⟩
        · rcases h3 with ⟨h3, _⟩ | ⟨h3, h4⟩
          · exact absurd h3 hne
          · have h5 : lx.NewlineDue = true := by
              unfold Lexer.NewlineDue at h4 ⊢
              rw [← ht]; exact h4
            have hflag : (!(Token.Newline == Token.Newline || Token.Newline == Token.Eof ||
                Token.Newline == Token.Dedent)) = false := by decide
            rw [h3]
            simp only [h2, h5, hflag, List.length_nil, Bool.false_eq_true, if_false, if_true]
            omega
        · split <;> split <;> omega
      · intro hc
        refine ⟨by simp only [d2, hst], ?_⟩
        rcases d6 with ⟨_, _, h3⟩ | ⟨h1, _⟩
        · rcases h3 with ⟨_, h4⟩ | ⟨h3, _⟩
          · unfold Lexer.NewlineDue at h4 ⊢
            rw [← ht]; exact h4
          · rw [hc] at h3; exact absurd h3 (by decide)
        · exact absurd hc h1

end parse

namespace parse

/-- The lexer as constructed meets the invariant. -/
theorem Start_invariant (input : List Char) : (Lexer.Start input).Invariant := by
  refine ⟨rfl, ?_, ?_, ?_, ?_⟩
  · intro x hx
    simp only [Lexer.Start, List.mem_singleton] at hx
    rw [hx]
  · intro top ht
    simp only [Lexer.Start, List.head?_cons, Option.mem_def, Option.some.injEq] at ht
    simp [Lexer.Start, INITIAL_LINE_INDENTATION]
  · intro h
    simp [Lexer.Start, INITIAL_LINE_INDENTATION] at h
  · intro h
    simp [Lexer.Start] at h

/-- Every reachable lexer state meets the invariant. -/
theorem Reachable_invariant (lx : Lexer) (h : Reachable lx) : lx.Invariant := by
  induction h with
  | start input => exact Start_invariant input
  | next lx lx2 token _ hstep ih => exact (NextToken_step lx lx2 token ih hstep).1

/-- In a state that meets the invariant `NextToken` returns a token, raises
`LexerError`, fails in `std::stoi` or hangs in `ParseString`: the stack is
never read or popped when empty. -/
theorem NextToken_outcomes (lx : Lexer) (hinv : lx.Invariant) :
    (∃ token lx2, NextToken lx = .ok token lx2) ∨
    (∃ what lx2, NextToken lx = .lexer_error what lx2) ∨
    (∃ lx2, NextToken lx = .out_of_range lx2) ∨
    NextToken lx = .hangs := by
  have hpost := SkipSpaces_post lx
  cases hskip : SkipSpaces lx with
  | lexer_error w l =>
    refine Or.inr (Or.inl ⟨w, l, ?_⟩)
    unfold NextToken; rw [hskip]
  | out_of_range l => rw [hskip] at hpost; exact absurd hpost (by simp [SkipSpaces.Post])
  | hangs => rw [hskip] at hpost; exact absurd hpost (by simp [SkipSpaces.Post])
  | out_of_fuel => rw [hskip] at hpost; exact absurd hpost (by simp [SkipSpaces.Post])
  | undefined =>
    rw [hskip] at hpost
    simp only [SkipSpaces.Post] at hpost
    have := hinv.bottom
    rw [hpost] at this
    simp at this
  | ok u lx1 =>
    rw [hskip] at hpost
    obtain ⟨ht, hst, hcli⟩ := hpost
    rw [NextToken_after_skip lx lx1 u hskip]
    unfold NextToken.AfterSkip
    cases hs : lx1.indentation_levels_ with
    | nil =>
      have := hinv.bottom
      rw [← hst, hs] at this
      simp at this
    | cons top below =>
      simp only
      by_cases hc : lx1.current_line_indentation_ = top
      · simp only [hc, bne_self_eq_false, Bool.false_eq_true, if_false]
        rcases Dispatch_outcomes lx1 with ⟨t, l, h⟩ | ⟨l, h⟩ | h
        · rw [h]; exact Or.inl ⟨_, _, rfl⟩
        · rw [h]; exact Or.inr (Or.inr (Or.inl ⟨_, rfl⟩))
        · rw [h]; exact Or.inr (Or.inr (Or.inr rfl))
      · have hb : (lx1.current_line_indentation_ != top) = true := by simpa using hc
        simp only [hb, if_true]
        have hbot : lx1.indentation_levels_.getLast? = some 0 := by rw [hst]; exact hinv.bottom
        rcases ParseIndent_outcomes lx1 top below hs hbot hc with ⟨t, l, h⟩ | ⟨w, l, h⟩
        · rw [h]; exact Or.inl ⟨_, _, rfl⟩
        · rw [h]; exact Or.inr (Or.inl ⟨_, _, rfl⟩)

/-- Pulling tokens with fuel at least the measure ends: with the token list up
to `Eof`, with a `LexerError`, with the failure of `std::stoi`, or hanging in
`ParseString`. -/
theorem TokensUntilEof_ends :
    ∀ (fuel : Nat) (lx : Lexer), lx.Invariant → lx.Measure ≤ fuel →
      (∃ tokens lx2, TokensUntilEof fuel (NextToken lx) = .ok tokens lx2 ∧
        tokens.getLast? = some .Eof) ∨
      (∃ what lx2, TokensUntilEof fuel (NextToken lx) = .lexer_error what lx2) ∨
      (∃ lx2, TokensUntilEof fuel (NextToken lx) = .out_of_range lx2) ∨
      TokensUntilEof fuel (NextToken lx) = .hangs
  | fuel, lx, hinv, hm => by
    rcases NextToken_outcomes lx hinv with ⟨t, l, h⟩ | ⟨w, l, h⟩ | ⟨l, h⟩ | h
    · obtain ⟨hinv2, htok, hdec, _⟩ := NextToken_step lx l t hinv h
      rw [h]
      by_cases hte : t = .Eof
      · subst hte
        refine Or.inl ⟨l.tokens_, l, ?_, ?_⟩
        · cases fuel <;> simp [TokensUntilEof]
        · rw [htok, List.getLast?_concat]
      · have hlt := hdec hte
        cases fuel with
        | zero => omega
        | succ n =>
          have hrec := TokensUntilEof_ends n l hinv2 (by omega)
          have hunf : TokensUntilEof (n + 1) (.ok t l) = TokensUntilEof n (NextToken l) := by
            cases t <;> first | exact absurd rfl hte | rfl
          rw [hunf]
          exact hrec
    · rw [h]
      refine Or.inr (Or.inl ⟨w, l, ?_⟩)
      cases fuel <;> rfl
    · rw [h]
      refine Or.inr (Or.inr (Or.inl ⟨l, ?_⟩))
      cases fuel <;> rfl
    · rw [h]
      refine Or.inr (Or.inr (Or.inr ?_))
      cases fuel <;> rfl
termination_by fuel _ _ _ => fuel

end parse

namespace parse

/-- The constructor reads the first token from the start state. -/
theorem Lexer.New_eq (input : List Char) : Lexer.New input = NextToken (Lexer.Start input) :=
  rfl

/-- Pulling from a state that has returned `Eof` returns `Eof` again and only
pushes it. -/
theorem NextToken_after_Eof (lx : Lexer) (hinv : lx.Invariant)
    (hlast : lx.tokens_.getLast? = some .Eof) :
    NextToken lx = .ok .Eof { lx with tokens_ := lx.tokens_ ++ [.Eof] } := by
  obtain ⟨hin, hhead⟩ := hinv.at_eof hlast
  have hskip : SkipSpaces lx = .ok () lx := by
    cases lx with
    | mk input tokens stack cli =>
      simp only at hin hlast
      subst hin
      simp [SkipSpaces, Lexer.IsNewLine, hlast, SkipSpacesLoop, SkipSpaces.Finish]
  rw [NextToken_after_skip lx lx () hskip]
  cases lx with
  | mk input tokens stack cli =>
    simp only at hin hlast hhead
    subst hin
    cases stack with
    | nil => simp at hhead
    | cons top below =>
      simp only [List.head?_cons, Option.some.injEq] at hhead
      subst hhead
      simp [NextToken.AfterSkip, NextToken.Dispatch, hlast]

/-- The shape of the token list pulled up to `Eof` from a state that has not
returned `Eof` yet: `Eof` is last, and what precedes it is empty or ends with
`Newline` followed by `Dedent` tokens only. -/
theorem TokensUntilEof_shape :
    ∀ (fuel : Nat) (lx : Lexer) (tokens : List Token) (lxf : Lexer),
      lx.Invariant → Token.Eof ∉ lx.tokens_ →
      TokensUntilEof fuel (NextToken lx) = .ok tokens lxf →
      ∃ body, tokens = body ++ [.Eof] ∧ (body = [] ∨ EndsNewlineDedents body)
  | fuel, lx, tokens, lxf, hinv, hno, hrun => by
    rcases NextToken_outcomes lx hinv with ⟨t, l, h⟩ | ⟨w, l, h⟩ | ⟨l, h⟩ | h
    · obtain ⟨hinv2, htok, _, heof⟩ := NextToken_step lx l t hinv h
      rw [h] at hrun
      by_cases hte : t = .Eof
      · subst hte
        have hrun2 : tokens = l.tokens_ := by
          cases fuel <;> simp [TokensUntilEof] at hrun <;> exact hrun.1.symm
        refine ⟨lx.tokens_, by rw [hrun2, htok], ?_⟩
        have hdue := (heof rfl).2
        unfold Lexer.NewlineDue at hdue
        split at hdue
        · rename_i hnone
          left
          exact List.getLast?_eq_none_iff.mp hnone
        · rename_i last hlast
          right
          have hcases : last = .Newline ∨ last = .Eof ∨ last = .Dedent := by
            simp only [Bool.not_eq_false', Bool.or_eq_true, beq_iff_eq] at hdue
            tauto
          rcases hcases with hc | hc | hc
          · subst hc
            obtain ⟨ys, hys⟩ := List.getLast?_eq_some_iff.mp hlast
            exact ⟨ys, 0, by simpa using hys⟩
          · subst hc
            exact absurd (List.mem_of_getLast?_eq_some hlast) hno
          · subst hc
            exact hinv.pending (Or.inr hlast)
      · cases fuel with
        | zero =>
          cases t <;> first | exact absurd rfl hte | simp [TokensUntilEof] at hrun
        | succ n =>
          have hunf : TokensUntilEof (n + 1) (.ok t l) = TokensUntilEof n (NextToken l) := by
            cases t <;> first | exact absurd rfl hte | rfl
          rw [hunf] at hrun
          apply TokensUntilEof_shape n l tokens lxf hinv2 _ hrun
          rw [htok]
          simp only [List.mem_append, List.mem_singleton, not_or]
          exact ⟨hno, fun e => hte e.symm⟩
    · rw [h] at hrun
      cases fuel <;> simp [TokensUntilEof] at hrun
    · rw [h] at hrun
      cases fuel <;> simp [TokensUntilEof] at hrun
    · rw [h] at hrun
      cases fuel <;> simp [TokensUntilEof] at hrun
termination_by fuel _ _ _ _ _ _ => fuel

/-- C12 as amended: when lexing succeeds and produces a token other than
`Eof`, the tokens before the first `Eof` end with `Newline` followed by the
`Dedent` tokens that close the open blocks (none when no block is open); so
the token immediately before `Eof` is `Newline` or `Dedent`. -/
theorem Tokenize_ends_Newline_Dedents_Eof (fuel : Nat) (input : String)
    (tokens : List Token) (lx : Lexer)
    (hok : Tokenize fuel input = .ok tokens lx) (hne : tokens ≠ [.Eof]) :
    (∃ (before : List Token) (k : Nat),
      tokens = before ++ .Newline :: (List.replicate k .Dedent ++ [.Eof])) ∧
    (tokens.dropLast.getLast? = some .Newline ∨ tokens.dropLast.getLast? = some .Dedent) := by
  obtain ⟨body, hbody, hshape⟩ := TokensUntilEof_shape fuel (Lexer.Start input.toList) tokens lx
    (Start_invariant _) (by simp [Lexer.Start]) hok
  rcases hshape with hnil | ⟨before, k, hk⟩
  · subst hnil
    exact absurd hbody hne
  · have h1 : tokens = before ++ .Newline :: (List.replicate k .Dedent ++ [.Eof]) := by
      rw [hbody, hk]
      simp
    refine ⟨⟨before, k, h1⟩, ?_⟩
    have h2 : tokens.dropLast = before ++ .Newline :: List.replicate k .Dedent := by
      rw [hbody, hk, List.dropLast_concat]
    rw [h2]
    cases k with
    | zero =>
      left
      simp [List.getLast?_concat]
    | succ j =>
      right
      rw [List.replicate_succ', ← List.cons_append, ← List.append_assoc, List.getLast?_concat]

/-- C12 (counterexample): `if x:`, line feed, two spaces, `y`, line feed lexes
to a non-empty stream whose last two tokens are `Dedent`, `Eof`. -/
theorem Tokenize_Dedent_before_Eof :
    Tokenize 20 "if x:\n  y\n" =
      .ok [.If, .Id "x", .Char ':', .Newline, .Indent, .Id "y", .Newline, .Dedent, .Eof]
        { input_ := [],
          tokens_ := [.If, .Id "x", .Char ':', .Newline, .Indent, .Id "y", .Newline, .Dedent,
            .Eof],
          indentation_levels_ := [0], current_line_indentation_ := 0 } ∧
    List.drop 7 [Token.If, .Id "x", .Char ':', .Newline, .Indent, .Id "y", .Newline, .Dedent,
      .Eof] = [.Dedent, .Eof] := by
  decide

/-- Witness of C12 as amended, on the streams of `x`, line feed (no block) and
of `if x:` with an indented body (one block). -/
theorem Tokenize_ends_Newline_Dedents_Eof_witness :
    (∃ (before : List Token) (k : Nat),
      [Token.Id "x", .Newline, .Eof] =
        before ++ .Newline :: (List.replicate k .Dedent ++ [.Eof])) ∧
    (∃ (before : List Token) (k : Nat),
      [Token.If, .Id "x", .Char ':', .Newline, .Indent, .Id "y", .Newline, .Dedent, .Eof] =
        before ++ .Newline :: (List.replicate k .Dedent ++ [.Eof])) :=
  ⟨(Tokenize_ends_Newline_Dedents_Eof 10 "x\n" [.Id "x", .Newline, .Eof]
      { input_ := [], tokens_ := [.Id "x", .Newline, .Eof], indentation_levels_ := [0],
        current_line_indentation_ := 0 } (by decide) (by decide)).1,
   (Tokenize_ends_Newline_Dedents_Eof 20 "if x:\n  y\n"
      [.If, .Id "x", .Char ':', .Newline, .Indent, .Id "y", .Newline, .Dedent, .Eof]
      { input_ := [],
        tokens_ := [.If, .Id "x", .Char ':', .Newline, .Indent, .Id "y", .Newline, .Dedent,
          .Eof],
        indentation_levels_ := [0], current_line_indentation_ := 0 }
      (by decide) (by decide)).1⟩

/-- C20 as amended: for every input and every fuel from `3·|input| + 1` on,
the constructor followed by `NextToken` calls ends: it returns `Eof` (last in
the token list), or a `LexerError` is raised, or `std::stoi` throws
`std::out_of_range` on a number literal above `INT_MAX`, or `ParseString`
hangs on a literal that is not closed.  In every reachable state whose last
token is `Eof`, `NextToken` returns `Eof` again and changes nothing but
`tokens_`, so the indentation stack stays as it is. -/
theorem Tokenize_ends_and_Eof_repeats (input : String) :
    (∀ fuel : Nat, 3 * input.length + 1 ≤ fuel →
      (∃ tokens lx, Tokenize fuel input = .ok tokens lx ∧ tokens.getLast? = some .Eof) ∨
      (∃ what lx, Tokenize fuel input = .lexer_error what lx) ∨
      (∃ lx, Tokenize fuel input = .out_of_range lx) ∨
      Tokenize fuel input = .hangs) ∧
    (∀ lx : Lexer, Reachable lx → lx.tokens_.getLast? = some .Eof →
      NextToken lx = .ok .Eof { lx with tokens_ := lx.tokens_ ++ [.Eof] }) := by
  refine ⟨?_, ?_⟩
  · intro fuel hfuel
    apply TokensUntilEof_ends fuel (Lexer.Start input.toList) (Start_invariant _)
    have : input.toList.length = input.length := rfl
    simp only [Lexer.Measure, Lexer.Start, Lexer.NewlineDue, List.getLast?_nil, List.length_cons,
      List.length_nil, this]
    simp
    omega
  · intro lx hr hlast
    exact NextToken_after_Eof lx (Reachable_invariant lx hr) hlast

/-- C20 (counterexample): `x = 9999999999` has no string literal and raises no
`LexerError`, yet no `Eof` is returned: the third `NextToken` call fails with
`std::out_of_range`. -/
theorem Tokenize_number_out_of_range :
    Tokenize 20 "x = 9999999999\n" =
      .out_of_range { input_ := ['\n'], tokens_ := [.Id "x", .Char '='],
                      indentation_levels_ := [0], current_line_indentation_ := 0 } := by
  decide

/-- Witness of C20 as amended: after the stream of `x` has ended, the next
call returns `Eof` again. -/
theorem Tokenize_ends_and_Eof_repeats_witness :
    NextToken { input_ := [], tokens_ := [.Id "x", .Newline, .Eof], indentation_levels_ := [0],
                current_line_indentation_ := 0 } =
      .ok .Eof { input_ := [], tokens_ := [.Id "x", .Newline, .Eof, .Eof],
                 indentation_levels_ := [0], current_line_indentation_ := 0 } :=
  (Tokenize_ends_and_Eof_repeats "x").2
    { input_ := [], tokens_ := [.Id "x", .Newline, .Eof], indentation_levels_ := [0],
      current_line_indentation_ := 0 }
    (Reachable.next
      { input_ := [], tokens_ := [.Id "x", .Newline], indentation_levels_ := [0],
        current_line_indentation_ := 0 } _ .Eof
      (Reachable.next
        { input_ := [], tokens_ := [.Id "x"], indentation_levels_ := [0],
          current_line_indentation_ := 0 } _ .Newline
        (Reachable.next (Lexer.Start "x".toList) _ (.Id "x") (Reachable.start "x".toList)
          (by decide))
        (by decide))
      (by decide))
    (by decide)

end parse

namespace parse

/-- `SkipSpaces` at a line that starts with `n` spaces followed by a character
that is no space, no line feed and no `#`: it leaves the loop in the first
round, having counted `n`. -/
theorem SkipSpaces_at_line (lx : Lexer) (n : Nat) (c : Char) (rest : List Char)
    (hin : lx.input_ = List.replicate n ' ' ++ c :: rest)
    (hc : c ≠ ' ' ∧ c ≠ '\n' ∧ c ≠ '#') :
    SkipSpaces lx = SkipSpaces.Finish lx.IsNewLine n (c :: rest) lx := by
  have hall : ∀ a ∈ List.replicate n ' ', (fun c => c == ' ') a = true := by
    intro a ha
    rw [List.eq_of_mem_replicate ha]
    rfl
  have htake : lx.input_.takeWhile (fun c => c == ' ') = List.replicate n ' ' := by
    rw [hin, List.takeWhile_append_of_pos hall]
    simp [List.takeWhile_cons, hc.1]
  have hdrop : lx.input_.dropWhile (fun c => c == ' ') = c :: rest := by
    rw [hin, List.dropWhile_append_of_pos hall]
    simp [List.dropWhile_cons, hc.1]
  have hrest : SkipSpaces.Rest lx.input_ = c :: rest := by
    unfold SkipSpaces.Rest
    rw [hdrop]
    split
    · rename_i heq
      simp only [List.cons.injEq] at heq
      exact absurd heq.1 hc.2.2
    · rfl
  unfold SkipSpaces
  rw [SkipSpacesLoop_succ, hrest, htake, List.length_replicate]
  split
  · rename_i heq
    simp only [List.cons.injEq] at heq
    exact absurd heq.1 hc.2.1
  · rfl

/-- Pulling tokens from a state whose line indentation `n` is below the stack
top and equal to no stack entry: a `Dedent` per level above `n`, then the
`LexerError` of `ParseIndent`. -/
theorem Dedent_chain (n : Nat) (c : Char) (rest : List Char)
    (hc : c ≠ ' ' ∧ c ≠ '\n' ∧ c ≠ '#') :
    ∀ (stack : List Nat) (lx1 : Lexer),
      lx1.indentation_levels_ = stack → lx1.input_ = c :: rest →
      lx1.current_line_indentation_ = n → n ∉ stack →
      (∀ top ∈ stack.head?, n < top) → stack.getLast? = some 0 →
      ∃ (k : Nat) (lxe : Lexer), k + 2 ≤ stack.length ∧
        lxe.tokens_ = lx1.tokens_ ++ List.replicate k .Dedent ∧
        ∀ fuel, k ≤ fuel →
          TokensUntilEof fuel (NextToken.AfterSkip lx1) =
            .lexer_error "Unexpected indentation" lxe
  | [], lx1, _, _, _, _, _, hbot => by simp at hbot
  | [top], lx1, _, _, _, _, hlt, hbot => by
    simp only [List.getLast?_singleton, Option.some.injEq] at hbot
    have := hlt top (by simp)
    omega
  | top :: nt :: below, lx1, hs, hin, hcli, hnot, hlt, hbot => by
    have hlt1 : n < top := hlt top (by simp)
    have hne : (n != top) = true := by
      simp; omega
    have hngt : ¬ n > top := by omega
    by_cases hnt : nt < n
    · refine ⟨0, { lx1 with indentation_levels_ := nt :: below }, by simp, by simp, ?_⟩
      intro fuel _
      have hskip : NextToken.AfterSkip lx1 =
          .lexer_error "Unexpected indentation" { lx1 with indentation_levels_ := nt :: below } := by
        simp only [NextToken.AfterSkip, hs, hne, if_true, ParseIndent, hngt, if_false, hcli, hnt]
      rw [hskip]
      cases fuel <;> rfl
    · have hnn : n ≠ nt := fun e => hnot (by simp [e])
      have hlt2 : n < nt := by omega
      have hskip : NextToken.AfterSkip lx1 =
          .ok .Dedent { lx1 with indentation_levels_ := nt :: below,
                                 tokens_ := lx1.tokens_ ++ [.Dedent] } := by
        simp only [NextToken.AfterSkip, hs, hne, if_true, ParseIndent, hngt, if_false, hcli, hnt]
      obtain ⟨k, lxe, hk, htok, hrun⟩ := Dedent_chain n c rest hc (nt :: below)
        { lx1 with indentation_levels_ := nt :: below, tokens_ := lx1.tokens_ ++ [.Dedent] }
        rfl hin hcli (fun h => hnot (List.mem_cons_of_mem _ h))
        (by intro t ht; simp at ht; omega)
        (by rw [List.getLast?_cons_cons] at hbot; exact hbot)
      refine ⟨k + 1, lxe, by simp only [List.length_cons] at hk ⊢; omega, ?_, ?_⟩
      · rw [htok, List.replicate_succ]
        simp
      · intro fuel hfuel
        cases fuel with
        | zero => omega
        | succ m =>
          rw [hskip]
          have hnext : NextToken { lx1 with indentation_levels_ := nt :: below,
                                            tokens_ := lx1.tokens_ ++ [.Dedent] } =
              NextToken.AfterSkip { lx1 with indentation_levels_ := nt :: below,
                                             tokens_ := lx1.tokens_ ++ [.Dedent] } := by
            apply NextToken_after_skip _ _ ()
            rw [SkipSpaces_at_line _ 0 c rest (by simpa using hin) hc]
            simp only [SkipSpaces.Finish, Lexer.IsNewLine, List.getLast?_concat]
            simp only [show (Token.Dedent == Token.Newline) = false by decide,
              Bool.false_eq_true, if_false]
            rw [← hin]
          show TokensUntilEof m (NextToken _) = _
          rw [hnext]
          exact hrun m (by omega)

/-- C14: in a reachable state whose last token is `Newline`, at a line that
starts with `n` spaces followed by a character that is no space, no line feed
and no `#`: when `n` is odd, the next `NextToken` call raises `LexerError` in
`SkipSpaces`, before any token is made; when `n` is even, below the stack top
and equal to no stack entry, pulling tokens raises the `LexerError` of
`ParseIndent`, after a `Dedent` for each level above `n` has been returned by
the calls before the one that raises. -/
theorem LexerError_on_odd_or_misaligned_indentation (lx : Lexer) (n : Nat) (c : Char)
    (rest : List Char) (hreach : Reachable lx) (hlast : lx.tokens_.getLast? = some .Newline)
    (hin : lx.input_ = List.replicate n ' ' ++ c :: rest)
    (hc : c ≠ ' ' ∧ c ≠ '\n' ∧ c ≠ '#') :
    (n % 2 = 1 →
      NextToken lx = .lexer_error "Unexpected indenation" { lx with input_ := c :: rest }) ∧
    (n % 2 = 0 → n ∉ lx.indentation_levels_ →
      (∀ top ∈ lx.indentation_levels_.head?, n < top) →
      ∃ (k : Nat) (lxe : Lexer), k + 2 ≤ lx.indentation_levels_.length ∧
        lxe.tokens_ = lx.tokens_ ++ List.replicate k .Dedent ∧
        ∀ fuel, k ≤ fuel →
          TokensUntilEof fuel (NextToken lx) = .lexer_error "Unexpected indentation" lxe) := by
  have hinv := Reachable_invariant lx hreach
  have hnl : lx.IsNewLine = true := by simp [Lexer.IsNewLine, hlast]
  have hskip := SkipSpaces_at_line lx n c rest hin hc
  rw [hnl] at hskip
  cases hs : lx.indentation_levels_ with
  | nil =>
    have := hinv.bottom
    rw [hs] at this
    simp at this
  | cons top below =>
    have heven : top % 2 = 0 := hinv.even top (by simp [hs])
    refine ⟨?_, ?_⟩
    · intro hodd
      have hne : (n != top) = true := by simp; omega
      have hod : (n % 2 != 0) = true := by simp; omega
      unfold NextToken
      rw [hskip]
      simp only [SkipSpaces.Finish, if_true, hs, hne, hod]
    · intro hev hnot hlt
      have hlt1 : n < top := hlt top (by simp)
      have hne : (n != top) = true := by simp; omega
      have hod : (n % 2 != 0) = false := by simp; omega
      have hskip2 : SkipSpaces lx =
          .ok () { lx with input_ := c :: rest, current_line_indentation_ := n } := by
        rw [hskip]
        simp only [SkipSpaces.Finish, if_true, hs, hne, hod, Bool.false_eq_true, if_false]
      rw [NextToken_after_skip lx _ () hskip2]
      have hchain := Dedent_chain n c rest hc (top :: below)
        { lx with input_ := c :: rest, current_line_indentation_ := n } hs rfl rfl hnot
        hlt (by rw [← hs]; exact hinv.bottom)
      exact hchain

end parse

namespace parse

/-- A state computed by `Lexer.After` from a reachable state is reachable. -/
theorem Reachable_After :
    ∀ (k : Nat) (lx lx2 : Lexer), Reachable lx → Lexer.After k lx = some lx2 → Reachable lx2
  | 0, lx, lx2, hr, h => by
    simp only [Lexer.After, Option.some.injEq] at h
    rw [← h]; exact hr
  | k + 1, lx, lx2, hr, h => by
    simp only [Lexer.After] at h
    cases hn : NextToken lx with
    | ok t l =>
      rw [hn] at h
      exact Reachable_After k l lx2 (Reachable.next lx l t hr hn) h
    | lexer_error w l => rw [hn] at h; simp at h
    | out_of_range l => rw [hn] at h; simp at h
    | hangs => rw [hn] at h; simp at h
    | undefined => rw [hn] at h; simp at h
    | out_of_fuel => rw [hn] at h; simp at h

/-- Witness of C14: after `a` and a line feed, a line ` b` (one space) raises
at once; after `a`, a line `    b` (four spaces) and a line feed, a line
`  c` (two spaces, stack `[4, 0]`) raises in `ParseIndent`. -/
theorem LexerError_on_odd_or_misaligned_indentation_witness :
    NextToken { input_ := [' ', 'b'], tokens_ := [.Id "a", .Newline],
                indentation_levels_ := [0], current_line_indentation_ := 0 } =
      .lexer_error "Unexpected indenation"
        { input_ := ['b'], tokens_ := [.Id "a", .Newline], indentation_levels_ := [0],
          current_line_indentation_ := 0 } ∧
    (∃ (k : Nat) (lxe : Lexer), k + 2 ≤ [4, 0].length ∧
      lxe.tokens_ =
        [Token.Id "a", .Newline, .Indent, .Id "b", .Newline] ++ List.replicate k .Dedent ∧
      ∀ fuel, k ≤ fuel →
        TokensUntilEof fuel
          (NextToken { input_ := [' ', ' ', 'c'],
                       tokens_ := [.Id "a", .Newline, .Indent, .Id "b", .Newline],
                       indentation_levels_ := [4, 0], current_line_indentation_ := 4 }) =
          .lexer_error "Unexpected indentation" lxe) ∧
    Tokenize 20 "a\n    b\n  c" =
      .lexer_error "Unexpected indentation"
        { input_ := ['c'], tokens_ := [.Id "a", .Newline, .Indent, .Id "b", .Newline],
          indentation_levels_ := [0], current_line_indentation_ := 2 } :=
  ⟨(LexerError_on_odd_or_misaligned_indentation
      { input_ := [' ', 'b'], tokens_ := [.Id "a", .Newline], indentation_levels_ := [0],
        current_line_indentation_ := 0 } 1 'b' []
      (Reachable_After 2 (Lexer.Start "a\n b".toList) _ (Reachable.start _) (by decide))
      (by decide) rfl (by decide)).1 (by decide),
   (LexerError_on_odd_or_misaligned_indentation
      { input_ := [' ', ' ', 'c'], tokens_ := [.Id "a", .Newline, .Indent, .Id "b", .Newline],
        indentation_levels_ := [4, 0], current_line_indentation_ := 4 } 2 'c' []
      (Reachable_After 5 (Lexer.Start "a\n    b\n  c".toList) _ (Reachable.start _)
        (by decide))
      (by decide) rfl (by decide)).2 (by decide) (by decide) (by decide),
   by decide⟩

/-- C13 (failing input): a last line of one space after `a` and a line feed
raises `LexerError`, although the input without that line, and the input with
that line ended by a line feed, both lex to `Id a, Newline, Eof`; a last line
of two spaces and a comment after an indented block takes away the `Dedent`
the block gets without that line. -/
theorem Blank_last_line_not_blank :
    Tokenize 10 "a\n " =
      .lexer_error "Unexpected indenation"
        { input_ := [], tokens_ := [.Id "a", .Newline], indentation_levels_ := [0],
          current_line_indentation_ := 0 } ∧
    Tokenize 10 "a\n" =
      .ok [.Id "a", .Newline, .Eof]
        { input_ := [], tokens_ := [.Id "a", .Newline, .Eof], indentation_levels_ := [0],
          current_line_indentation_ := 0 } ∧
    Tokenize 10 "a\n \n" =
      .ok [.Id "a", .Newline, .Eof]
        { input_ := [], tokens_ := [.Id "a", .Newline, .Eof], indentation_levels_ := [0],
          current_line_indentation_ := 0 } ∧
    Tokenize 10 "a\n  b\n  # c" =
      .ok [.Id "a", .Newline, .Indent, .Id "b", .Newline, .Eof]
        { input_ := [], tokens_ := [.Id "a", .Newline, .Indent, .Id "b", .Newline, .Eof],
          indentation_levels_ := [2, 0], current_line_indentation_ := 2 } ∧
    Tokenize 10 "a\n  b\n  # c\n" =
      .ok [.Id "a", .Newline, .Indent, .Id "b", .Newline, .Dedent, .Eof]
        { input_ := [],
          tokens_ := [.Id "a", .Newline, .Indent, .Id "b", .Newline, .Dedent, .Eof],
          indentation_levels_ := [0], current_line_indentation_ := 0 } := by
  decide

end parse
/-! ## The comparators on values of one primitive variant -/

namespace runtime

/-- The six comparators on two values whose `Less` and `Equal` are the
strict order and the equality of a linear order: none raises, none touches the
store, and the results are those of the order. -/
theorem comparators_of_linear_order {α : Type} [LinearOrder α] (exec : Exec)
    (lhs rhs : ObjectHolder) (x y : α) (store : Store)
    (hless : Less exec lhs rhs store = .ok (decide (x < y)) store)
    (hequal : Equal exec lhs rhs store = .ok (decide (x = y)) store) :
    NotEqual exec lhs rhs store = .ok (decide (x ≠ y)) store ∧
    Greater exec lhs rhs store = .ok (decide (y < x)) store ∧
    LessOrEqual exec lhs rhs store = .ok (decide (x ≤ y)) store ∧
    GreaterOrEqual exec lhs rhs store = .ok (decide (y ≤ x)) store := by
  refine ⟨?_, ?_, ?_, ?_⟩
  · simp [NotEqual, Outcome.bind, hequal]
  · rcases lt_trichotomy x y with h | h | h
    · have h2 : ¬ y < x := not_lt.mpr h.le
      simp [Greater, Outcome.bind, hless, h, h2]
    · subst h
      simp [Greater, Outcome.bind, hless, hequal]
    · have h2 : ¬ x < y := not_lt.mpr h.le
      have h3 : ¬ x = y := fun e => (lt_irrefl y) (e ▸ h)
      simp [Greater, Outcome.bind, hless, hequal, h, h2, h3]
  · rcases lt_trichotomy x y with h | h | h
    · simp [LessOrEqual, Outcome.bind, hless, h, h.le]
    · subst h
      simp [LessOrEqual, Outcome.bind, hless, hequal]
    · have h2 : ¬ x < y := not_lt.mpr h.le
      have h3 : ¬ x = y := fun e => (lt_irrefl y) (e ▸ h)
      have h4 : ¬ x ≤ y := not_le.mpr h
      simp [LessOrEqual, Outcome.bind, hless, hequal, h2, h3, h4]
  · by_cases h : x < y
    · have h2 : ¬ y ≤ x := not_le.mpr h
      simp [GreaterOrEqual, Outcome.bind, hless, h, h2]
    · have h2 : y ≤ x := not_lt.mp h
      simp [GreaterOrEqual, Outcome.bind, hless, h, h2]

/-- The relations among the six results in a linear order. -/
theorem order_results {α : Type} [LinearOrder α] (x y : α) :
    ((decide (x < y) = true ∧ decide (x = y) = false ∧ decide (y < x) = false) ∨
     (decide (x < y) = false ∧ decide (x = y) = true ∧ decide (y < x) = false) ∨
     (decide (x < y) = false ∧ decide (x = y) = false ∧ decide (y < x) = true)) ∧
    decide (x ≤ y) = !decide (y < x) ∧
    decide (y ≤ x) = (decide (y < x) || decide (x = y)) ∧
    decide (x ≠ y) = !decide (x = y) := by
  rcases lt_trichotomy x y with h | h | h
  · have h2 : ¬ y < x := not_lt.mpr h.le
    have h3 : ¬ x = y := fun e => (lt_irrefl y) (e ▸ h)
    have h4 : ¬ y ≤ x := not_le.mpr h
    simp [h, h2, h3, h4, h.le]
  · subst h
    simp
  · have h2 : ¬ x < y := not_lt.mpr h.le
    have h3 : ¬ x = y := fun e => (lt_irrefl y) (e ▸ h)
    have h4 : ¬ x ≤ y := not_le.mpr h
    simp [h, h2, h3, h4, h.le]

/-- C22: for two Numbers, two Strings or two Bools the six comparators return
without raising and without touching the store, and their results form a
total order: exactly one of `Less(a,b)`, `Equal(a,b)`, `Greater(a,b)` is true,
`Greater(a,b)` is `Less(b,a)`, `LessOrEqual(a,b)` is the negation of
`Greater(a,b)`, and `GreaterOrEqual(a,b)` is `Greater(a,b)` or `Equal(a,b)`. -/
theorem Comparators_total_order_on_primitives (exec : Exec) (lhs rhs : ObjectHolder)
    (store : Store)
    (hsame : (∃ x y : Int, lhs = .Number x ∧ rhs = .Number y) ∨
      (∃ x y : String, lhs = .String x ∧ rhs = .String y) ∨
      (∃ x y : Bool, lhs = .Bool x ∧ rhs = .Bool y)) :
    ∃ l e g le ge ne l2 : Bool,
      Less exec lhs rhs store = .ok l store ∧
      Equal exec lhs rhs store = .ok e store ∧
      Greater exec lhs rhs store = .ok g store ∧
      LessOrEqual exec lhs rhs store = .ok le store ∧
      GreaterOrEqual exec lhs rhs store = .ok ge store ∧
      NotEqual exec lhs rhs store = .ok ne store ∧
      Less exec rhs lhs store = .ok l2 store ∧
      ((l = true ∧ e = false ∧ g = false) ∨ (l = false ∧ e = true ∧ g = false) ∨
        (l = false ∧ e = false ∧ g = true)) ∧
      g = l2 ∧ le = (!g) ∧ ge = (g || e) ∧ ne = (!e) := by
  have key : ∀ {α : Type} [LinearOrder α] (x y : α),
      Less exec lhs rhs store = .ok (decide (x < y)) store →
      Equal exec lhs rhs store = .ok (decide (x = y)) store →
      Less exec rhs lhs store = .ok (decide (y < x)) store →
      ∃ l e g le ge ne l2 : Bool,
        Less exec lhs rhs store = .ok l store ∧
        Equal exec lhs rhs store = .ok e store ∧
        Greater exec lhs rhs store = .ok g store ∧
        LessOrEqual exec lhs rhs store = .ok le store ∧
        GreaterOrEqual exec lhs rhs store = .ok ge store ∧
        NotEqual exec lhs rhs store = .ok ne store ∧
        Less exec rhs lhs store = .ok l2 store ∧
        ((l = true ∧ e = false ∧ g = false) ∨ (l = false ∧ e = true ∧ g = false) ∨
          (l = false ∧ e = false ∧ g = true)) ∧
        g = l2 ∧ le = (!g) ∧ ge = (g || e) ∧ ne = (!e) := by
    intro α _ x y hless hequal hless2
    obtain ⟨c1, c2, c3, c4⟩ := comparators_of_linear_order exec lhs rhs x y store hless hequal
    obtain ⟨o1, o2, o3, o4⟩ := order_results x y
    exact ⟨_, _, _, _, _, _, _, hless, hequal, c2, c3, c4, c1, hless2, o1, rfl, o2, o3, o4⟩
  rcases hsame with ⟨x, y, hx, hy⟩ | ⟨x, y, hx, hy⟩ | ⟨x, y, hx, hy⟩
  · subst hx hy
    exact key x y (by simp [Less]) (by simp [Equal]) (by simp [Less])
  · subst hx hy
    exact key x y (by simp [Less]) (by simp [Equal]) (by simp [Less])
  · subst hx hy
    exact key x y (by simp [Less]) (by simp [Equal]) (by simp [Less])

end runtime

/-! ## The indentation stack -/

namespace parse

/-- When `std::stoi` fails in the dispatch, the stack is as before. -/
theorem Dispatch_out_of_range (lx lx2 : Lexer) (h : NextToken.Dispatch lx = .out_of_range lx2) :
    lx2.indentation_levels_ = lx.indentation_levels_ := by
  simp only [NextToken.Dispatch, ParseNumber, ParseIdentifier, ParseString] at h
  repeat' split at h
  all_goals first
    | (simp at h; done)
    | (simp only [LexOutcome.out_of_range.injEq] at h; rw [← h])

end parse

namespace parse

/-- A stack with bottom 0 whose top is above a line indentation has a second
entry: the pop of `ParseIndent` leaves it non-empty. -/
theorem pop_leaves_entry (top cli : Nat) (below : List Nat)
    (hbottom : (top :: below).getLast? = some 0) (hlt : cli < top) : below ≠ [] := by
  intro h
  subst h
  simp only [List.getLast?_singleton, Option.some.injEq] at hbottom
  omega

/-- From a state whose stack has bottom 0, `NextToken` never reads or pops an
empty stack, and whatever way it ends (a token, a `LexerError`, the failure of
`std::stoi`) it leaves a stack with bottom 0. -/
theorem NextToken_StackSafe (lx : Lexer) (hb : lx.BottomZero) : (NextToken lx).StackSafe := by
  unfold Lexer.BottomZero at hb
  have hpost := SkipSpaces_post lx
  cases hskip : SkipSpaces lx with
  | lexer_error w l =>
    rw [hskip] at hpost
    have hn : NextToken lx = .lexer_error w l := by unfold NextToken; rw [hskip]
    rw [hn]
    simp only [LexOutcome.StackSafe, Lexer.BottomZero, hpost.2.2.1]
    exact hb
  | out_of_range l => rw [hskip] at hpost; exact absurd hpost (by simp [SkipSpaces.Post])
  | hangs => rw [hskip] at hpost; exact absurd hpost (by simp [SkipSpaces.Post])
  | out_of_fuel => rw [hskip] at hpost; exact absurd hpost (by simp [SkipSpaces.Post])
  | undefined =>
    rw [hskip] at hpost
    simp only [SkipSpaces.Post] at hpost
    rw [hpost] at hb
    simp at hb
  | ok u lx1 =>
    rw [hskip] at hpost
    obtain ⟨_, hst, _⟩ := hpost
    have hb1 : lx1.indentation_levels_.getLast? = some 0 := by rw [hst]; exact hb
    rw [NextToken_after_skip lx lx1 u hskip]
    unfold NextToken.AfterSkip
    cases hs : lx1.indentation_levels_ with
    | nil => rw [hs] at hb1; simp at hb1
    | cons top below =>
      simp only
      by_cases hc : lx1.current_line_indentation_ = top
      · simp only [hc, bne_self_eq_false, Bool.false_eq_true, if_false]
        rcases Dispatch_outcomes lx1 with ⟨t, l, h⟩ | ⟨l, h⟩ | h
        · rw [h]
          have := (Dispatch_ok lx1 l t h).2.1
          simp only [LexOutcome.StackSafe, Lexer.BottomZero, this]
          exact hb1
        · rw [h]
          have := Dispatch_out_of_range lx1 l h
          simp only [LexOutcome.StackSafe, Lexer.BottomZero, this]
          exact hb1
        · rw [h]
          simp only [LexOutcome.StackSafe]
      · have hbne : (lx1.current_line_indentation_ != top) = true := by simpa using hc
        simp only [hbne, if_true]
        rcases ParseIndent_outcomes lx1 top below hs hb1 hc with ⟨t, l, h⟩ | ⟨w, l, h⟩
        · rw [h]
          obtain ⟨_, _, _, p4⟩ := ParseIndent_ok lx1 l t h
          simp only [LexOutcome.StackSafe, Lexer.BottomZero]
          rcases p4 with ⟨_, top2, below2, hs2, _, hl⟩ | ⟨_, top2, nt, below2, hs2, _, _, hl⟩
          · rw [hl, List.getLast?_cons_cons, ← hs2]
            exact hb1
          · rw [hl]
            rw [hs2, List.getLast?_cons_cons] at hb1
            exact hb1
        · rw [h]
          obtain ⟨_, _, _, _, top2, nt, below2, hs2, _, hl⟩ := ParseIndent_error lx1 l w h
          simp only [LexOutcome.StackSafe, Lexer.BottomZero]
          rw [hl]
          rw [hs2, List.getLast?_cons_cons] at hb1
          exact hb1

/-- C21: in every lexer state reached from construction by `NextToken` calls,
the states left by calls that raise `LexerError` (or fail in `std::stoi`)
included, the indentation stack is non-empty with bottom entry 0; so a pop
(done by `ParseIndent` only when the line indentation is below the top) leaves
it non-empty, and the next `NextToken` call, with its `SkipSpaces` and
`ParseIndent`, never reads the top of or pops an empty stack. -/
theorem Stack_never_empty (lx : Lexer) (h : ReachableOrRaised lx) :
    lx.indentation_levels_ ≠ [] ∧
    lx.indentation_levels_.getLast? = some 0 ∧
    (∀ (top cli : Nat) (below : List Nat),
      lx.indentation_levels_ = top :: below → cli < top → below ≠ []) ∧
    (NextToken lx).StackSafe ∧
    NextToken lx ≠ .undefined ∧ SkipSpaces lx ≠ .undefined := by
  have hb : lx.BottomZero := by
    induction h with
    | start input => rfl
    | next lx lx2 token _ hstep ih =>
      have := NextToken_StackSafe lx ih
      rw [hstep] at this
      exact this
    | raised lx lx2 what _ hstep ih =>
      have := NextToken_StackSafe lx ih
      rw [hstep] at this
      exact this
    | failed lx lx2 _ hstep ih =>
      have := NextToken_StackSafe lx ih
      rw [hstep] at this
      exact this
  have hsafe := NextToken_StackSafe lx hb
  have hne : lx.indentation_levels_ ≠ [] := by
    intro hnil
    unfold Lexer.BottomZero at hb
    rw [hnil] at hb
    simp at hb
  refine ⟨hne, hb, ?_, hsafe, ?_, ?_⟩
  · intro top cli below hs hlt
    unfold Lexer.BottomZero at hb
    rw [hs] at hb
    exact pop_leaves_entry top cli below hb hlt
  · intro hu
    rw [hu] at hsafe
    exact hsafe
  · intro hu
    have hpost := SkipSpaces_post lx
    rw [hu] at hpost
    exact hne hpost

end parse

namespace parse

/-- A state reached by calls that return tokens is among the states reached by
any calls. -/
theorem ReachableOrRaised_of_Reachable (lx : Lexer) (h : Reachable lx) :
    ReachableOrRaised lx := by
  induction h with
  | start input => exact ReachableOrRaised.start input
  | next lx lx2 token _ hstep ih => exact ReachableOrRaised.next lx lx2 token ih hstep

/-- Witness of C21: the state left by the `LexerError` raised on the
mis-aligned line `  c` under stack `[4, 0]` has the stack `[0]`, and the
next call from it does not read or pop an empty stack. -/
theorem Stack_never_empty_witness :
    ([0] : List Nat) ≠ [] ∧ ([0] : List Nat).getLast? = some 0 ∧
    (NextToken { input_ := ['c'], tokens_ := [.Id "a", .Newline, .Indent, .Id "b", .Newline],
                 indentation_levels_ := [0], current_line_indentation_ := 2 }).StackSafe ∧
    NextToken { input_ := ['c'], tokens_ := [.Id "a", .Newline, .Indent, .Id "b", .Newline],
                indentation_levels_ := [0], current_line_indentation_ := 2 } ≠ .undefined :=
  have h := Stack_never_empty
    { input_ := ['c'], tokens_ := [.Id "a", .Newline, .Indent, .Id "b", .Newline],
      indentation_levels_ := [0], current_line_indentation_ := 2 }
    (ReachableOrRaised.raised
      { input_ := [' ', ' ', 'c'], tokens_ := [.Id "a", .Newline, .Indent, .Id "b", .Newline],
        indentation_levels_ := [4, 0], current_line_indentation_ := 4 }
      _ "Unexpected indentation"
      (ReachableOrRaised_of_Reachable _
        (Reachable_After 5 (Lexer.Start "a\n    b\n  c".toList) _ (Reachable.start _)
          (by decide)))
      (by decide))
  ⟨h.1, h.2.1, h.2.2.2.1, h.2.2.2.2.1⟩

end parse

namespace runtime

/-- The order `Less` uses on Strings is the lexicographic order of their
characters, as `<` on `std::string` is. -/
theorem Less_String_lexicographic (exec : Exec) (x y : String) (store : Store) :
    Less exec (.String x) (.String y) store = .ok (decide (x.toList < y.toList)) store := by
  simp [Less, String.lt_iff_toList_lt]

/-- Witness of C22: for the Numbers 1 and 2 `Less` holds, `Equal` and
`Greater` do not, `LessOrEqual` holds and `GreaterOrEqual` does not; the
Strings `a` and `b` and the Bools False and True are ordered as well. -/
theorem Comparators_total_order_on_primitives_witness :
    Less (ast.Execute .rhs_first 0) (.Number 1) (.Number 2) Store.empty = .ok true Store.empty ∧
    Equal (ast.Execute .rhs_first 0) (.Number 1) (.Number 2) Store.empty = .ok false Store.empty ∧
    Greater (ast.Execute .rhs_first 0) (.Number 1) (.Number 2) Store.empty = .ok false Store.empty ∧
    LessOrEqual (ast.Execute .rhs_first 0) (.Number 1) (.Number 2) Store.empty = .ok true Store.empty ∧
    GreaterOrEqual (ast.Execute .rhs_first 0) (.Number 1) (.Number 2) Store.empty =
      .ok false Store.empty ∧
    Less (ast.Execute .rhs_first 0) (.Bool false) (.Bool true) Store.empty = .ok true Store.empty ∧
    (∃ l e g le ge ne l2 : Bool,
      Less (ast.Execute .rhs_first 0) (.String "a") (.String "b") Store.empty = .ok l Store.empty ∧
      Equal (ast.Execute .rhs_first 0) (.String "a") (.String "b") Store.empty = .ok e Store.empty ∧
      Greater (ast.Execute .rhs_first 0) (.String "a") (.String "b") Store.empty = .ok g Store.empty ∧
      LessOrEqual (ast.Execute .rhs_first 0) (.String "a") (.String "b") Store.empty = .ok le Store.empty ∧
      GreaterOrEqual (ast.Execute .rhs_first 0) (.String "a") (.String "b") Store.empty =
        .ok ge Store.empty ∧
      NotEqual (ast.Execute .rhs_first 0) (.String "a") (.String "b") Store.empty = .ok ne Store.empty ∧
      Less (ast.Execute .rhs_first 0) (.String "b") (.String "a") Store.empty = .ok l2 Store.empty ∧
      ((l = true ∧ e = false ∧ g = false) ∨ (l = false ∧ e = true ∧ g = false) ∨
        (l = false ∧ e = false ∧ g = true)) ∧
      g = l2 ∧ le = (!g) ∧ ge = (g || e) ∧ ne = (!e)) :=
  ⟨rfl, rfl, rfl, rfl, rfl, rfl,
   Comparators_total_order_on_primitives (ast.Execute .rhs_first 0) (.String "a") (.String "b")
     Store.empty (Or.inr (Or.inl ⟨"a", "b", rfl, rfl⟩))⟩

end runtime
